import Mathlib

/-!
A shallow embedding of the stop-the-world (CONFIG_LIVEPATCH_WO_FTRACE) kernel
live-patching core from kernel/livepatch/core.c, together with proofs of the
specification claims about it.

Modelling conventions:
* machine integers are `Nat` (addresses, sizes, counts) and return codes are
  `Int` (0 for success, negative errno values for failure);
* the intrusive kernel lists become Lean `List`s; pointer identity of a
  function-site node becomes its `old_func` key; pointer identity of a patch
  becomes its owning module name (`mod`), which is unique among registered
  patches because sysfs directory creation enforces it;
* NULL pointers become `Option` / the address 0;
* stateful code is explicit state passing over `KlpState` (the registered patch
  list plus the function-site node list); side effects on instruction memory
  and on node reclamation are recorded in an explicit event trace that every
  operation returns;
* external collaborators that live outside this repository (the kallsyms
  tables, the architecture patcher, the stack-trace provider, the kprobe
  registry) are supplied through `KlpEnv` and are modelled from the spec;
* config assumed: CONFIG_LIVEPATCH_WO_FTRACE, CONFIG_LIVEPATCH_STACK,
  CONFIG_LIVEPATCH_RESTRICT_KPROBE, and CONFIG_PREEMPTION disabled.
-/

/-- errno values used by the livepatch core. -/
def ENOENT : Int := 2
def ENOMEM : Int := 12
def EBUSY : Int := 16
def ENODEV : Int := 19
def EINVAL : Int := 22
def ENOPKG : Int := 65

/-- Modelled from the spec: the architecture-specific minimum in-place-patch
footprint (`KLP_MAX_REPLACE_SIZE`, the number of bytes rewritten at the start
of the old function; 4 instructions of 4 bytes on arm64). -/
def KLP_MAX_REPLACE_SIZE : Nat := 16

def KSYM_NAME_LEN : Nat := 512
def MODULE_NAME_LEN : Nat := 56

/-- First `unsigned long` value whose cast to `long` is negative on 64-bit. -/
def LONG_SIGN_BOUND : Nat := 2 ^ 63

/-- This model fixes CONFIG_PREEMPTION off (server configuration). -/
def CONFIG_PREEMPTION : Bool := false

/-- enum klp_force_flag from the uapi header. -/
inductive KlpForce
  | KLP_NORMAL_FORCE
  | KLP_ENFORCEMENT
  | KLP_STACK_OPTIMIZE
deriving DecidableEq, Repr

/-- struct klp_func: static descriptor fields plus the fields resolved or
maintained by the core (`old_func`, `old_size`, `new_size`, `patched`,
`func_node`).  `func_node` holds the key (`old_func` address) of the
function-site node, standing in for the C pointer. -/
structure KlpFunc where
  old_name : Option String
  old_sympos : Nat
  new_func : Nat
  nop : Bool
  force : KlpForce
  old_func : Nat
  old_size : Nat
  new_size : Nat
  patched : Bool
  func_node : Option Nat
deriving DecidableEq, Repr

/-- struct klp_object.  `name = none` is the base image (vmlinux); `funcs =
none` models a NULL `funcs` array; `mod` records whether the module reference
is held (WO_FTRACE holds a reference for the whole registration). -/
structure KlpObject where
  name : Option String
  funcs : Option (List KlpFunc)
  patched : Bool
  mod : Bool
deriving DecidableEq, Repr

/-- struct klp_patch.  `mod = none` models a NULL module pointer. -/
structure KlpPatch where
  mod : Option String
  objs : Option (List KlpObject)
  enabled : Bool
deriving DecidableEq, Repr

/-- An entry of a function-site node's `func_stack`: the projection of the
pushed `struct klp_func` that later readers consult (`new_func`/`new_size`). -/
structure StackEntry where
  new_func : Nat
  new_size : Nat
deriving DecidableEq, Repr

/-- struct klp_func_node, keyed by the patched address; the saved original
code (`arch_data`) is implicit in the `codeSaved` event. -/
structure KlpFuncNode where
  old_func : Nat
  func_stack : List StackEntry
deriving DecidableEq, Repr

/-- Observable side effects of the core: instruction-memory writes by the arch
patcher, node unlinking, RCU grace periods, and memory reclamation. -/
inductive KlpEvent
  | codeSaved (addr : Nat)
  | patchWrite (addr : Nat)
  | unpatchWrite (addr : Nat)
  | nodeDel (addr : Nat)
  | rcuSync
  | memFree (addr : Nat)
deriving DecidableEq, Repr

/-- Whether an event writes instruction memory of a patched function. -/
def KlpEvent.isCodeWrite : KlpEvent → Bool
  | KlpEvent.patchWrite _ => true
  | KlpEvent.unpatchWrite _ => true
  | _ => false

abbrev Nodes := List KlpFuncNode
abbrev Events := List KlpEvent

/-- The serialized global state: `klp_patches` (in stacking order) and
`klp_func_list`. -/
structure KlpState where
  patches : List KlpPatch
  nodes : Nodes
deriving DecidableEq, Repr

/-- Modelled from the spec: the external collaborators, specified only at
their interface boundary — symbol tables (`kallsyms`), the size lookup
(`kallsyms_lookup_size_offset`), the loaded-module list, the livepatch module
flag, the kprobe registry, the per-CPU return-address stacks walked by the
stack-trace provider, the arch patcher's success (`arch_klp_patch_func`) and
original-code snapshot (`arch_klp_save_old_code`), text-reservation queries,
and whether the subsystem is initialized (`klp_root_kobj`). -/
structure KlpEnv where
  symtab : Option String → List (String × Nat)
  sizes : Nat → Option Nat
  loaded_mods : List String
  is_livepatch : String → Bool
  kprobes : List Nat
  cpu_stacks : List (List Nat)
  arch_patch_ok : Nat → Bool
  save_code_ok : Nat → Bool
  reserved_jump : Nat → Nat → Bool
  reserved_static : Nat → Nat → Bool
  initialized : Bool

/-- klp_for_each_func over an object (an absent array iterates nothing). -/
def klp_obj_funcs (obj : KlpObject) : List KlpFunc := obj.funcs.getD []

/-- klp_for_each_object over a patch. -/
def klp_patch_objs (p : KlpPatch) : List KlpObject := p.objs.getD []

/-- All functions of a patch, in iteration order. -/
def klp_patch_funcs (p : KlpPatch) : List KlpFunc :=
  (klp_patch_objs p).flatMap klp_obj_funcs

def klp_is_module (obj : KlpObject) : Bool := obj.name.isSome

/-- Modelled from the spec: an Object is loaded when it is the base image or
its module reference is present (header helper `klp_is_object_loaded`). -/
def klp_is_object_loaded (obj : KlpObject) : Bool := obj.name.isNone || obj.mod

/-! ## Symbol resolver (klp_find_object_symbol and callbacks) -/

/-- struct klp_find_arg. -/
structure KlpFindArg where
  name : String
  addr : Nat
  count : Nat
  pos : Nat
deriving DecidableEq, Repr

/-- klp_match_callback: records the occurrence and decides whether to stop the
walk (`true` = found for the desired position, or ambiguity with pos 0). -/
def klp_match_callback (args : KlpFindArg) (addr : Nat) : Bool × KlpFindArg :=
  let args := { args with addr := addr, count := args.count + 1 }
  if (args.pos ≠ 0 ∧ args.count = args.pos) ∨ (args.pos = 0 ∧ 1 < args.count) then
    (true, args)
  else
    (false, args)

/-- klp_find_callback: filters by symbol name, then defers to
klp_match_callback. -/
def klp_find_callback (args : KlpFindArg) (name : String) (addr : Nat) :
    Bool × KlpFindArg :=
  if name == args.name then klp_match_callback args addr else (false, args)

/-- module_kallsyms_on_each_symbol: walk a whole symbol table until the
callback asks to stop. -/
def kallsyms_iterate : List (String × Nat) → KlpFindArg → KlpFindArg
  | [], args => args
  | (n, a) :: rest, args =>
    let r := klp_find_callback args n a
    if r.1 then r.2 else kallsyms_iterate rest r.2

/-- kallsyms_on_each_match_symbol: walk only the occurrences of one name. -/
def kallsyms_match_iterate : List Nat → KlpFindArg → KlpFindArg
  | [], args => args
  | a :: rest, args =>
    let r := klp_match_callback args a
    if r.1 then r.2 else kallsyms_match_iterate rest r.2

/-- klp_find_object_symbol: resolve (object, name, sympos) to an address.
Returns (ret, *addr). -/
def klp_find_object_symbol (env : KlpEnv) (objname : Option String)
    (name : String) (sympos : Nat) : Int × Nat :=
  let args0 : KlpFindArg := { name := name, addr := 0, count := 0, pos := sympos }
  let args :=
    match objname with
    | some _ => kallsyms_iterate (env.symtab objname) args0
    | none =>
      kallsyms_match_iterate
        (((env.symtab none).filter (fun (s : String × Nat) => s.1 == name)).map
          Prod.snd) args0
  if args.addr = 0 then (-EINVAL, 0)
  else if 1 < args.count ∧ sympos = 0 then (-EINVAL, 0)
  else if sympos ≠ args.count ∧ 0 < sympos then (-EINVAL, 0)
  else (0, args.addr)

/-! ## Activeness checker -/

/-- The weak arch_check_jump_insn in core.c unconditionally reports a jump
instruction, so the activeness range is always collected. -/
def arch_check_jump_insn (_func_addr : Nat) : Bool := true

/-- klp_size_to_check: a KLP_STACK_OPTIMIZE function only has its first
KLP_MAX_REPLACE_SIZE bytes checked. -/
def klp_size_to_check (func_size : Nat) (force : KlpForce) : Nat :=
  if force = KlpForce.KLP_STACK_OPTIMIZE ∧ KLP_MAX_REPLACE_SIZE < func_size then
    KLP_MAX_REPLACE_SIZE
  else func_size

/-- struct actv_func: one collected activeness range. -/
structure ActvFunc where
  func_addr : Nat
  func_size : Nat
  func_name : Option String
  force : KlpForce
deriving DecidableEq, Repr

/-- Modelled from the spec: the header helper klp_compare_address reports a
busy error when a return address falls inside the byte range scheduled for
replacement. -/
def klp_compare_address (pc func_addr check_size : Nat) : Int :=
  if func_addr ≤ pc ∧ pc < func_addr + check_size then -EBUSY else 0

/-- check_func_list: first conflict of one return address against the
collected ranges (0 when clean). -/
def check_func_list : List ActvFunc → Nat → Int
  | [], _ => 0
  | f :: rest, pc =>
    let r := klp_compare_address pc f.func_addr (klp_size_to_check f.func_size f.force)
    if r ≠ 0 then r else check_func_list rest pc

/-- First conflict over a list of return addresses. -/
def check_pcs (func_list : List ActvFunc) : List Nat → Int
  | [] => 0
  | pc :: rest =>
    let r := check_func_list func_list pc
    if r ≠ 0 then r else check_pcs func_list rest

/-- Modelled from the spec: arch_klp_check_calltrace walks the stack-trace
provider for every CPU and applies check_func_list to every return address. -/
def arch_klp_check_calltrace (cpu_stacks : List (List Nat))
    (func_list : List ActvFunc) : Int :=
  check_pcs func_list cpu_stacks.flatten

/-- klp_find_func_node: lock-free lookup of the node for an address. -/
def klp_find_func_node (ns : Nodes) (old_func : Nat) : Option KlpFuncNode :=
  ns.find? (fun n => n.old_func == old_func)

/-- arch_klp_check_activeness_func (the weak implementation in core.c),
restricted to collecting: returns the ranges this function contributes.  With
CONFIG_PREEMPTION off the enable branch always collects (the weak
arch_check_jump_insn returns true), and the disable branch collects only the
new-function range. -/
def arch_klp_check_activeness_func (ns : Nodes) (func : KlpFunc)
    (enable : Bool) : List ActvFunc :=
  if enable then
    if func.patched || func.force == KlpForce.KLP_ENFORCEMENT then []
    else
      match func.func_node.bind (klp_find_func_node ns) with
      | none => []
      | some node =>
        let fa :=
          match node.func_stack with
          | [] => (func.old_func, func.old_size)
          | prev :: _ => (prev.new_func, prev.new_size)
        if CONFIG_PREEMPTION || func.force == KlpForce.KLP_NORMAL_FORCE ||
            arch_check_jump_insn fa.1 then
          [{ func_addr := fa.1, func_size := fa.2, func_name := func.old_name,
             force := func.force }]
        else []
  else
    (if CONFIG_PREEMPTION then
      match func.func_node.bind (klp_find_func_node ns) with
      | none => []
      | some node =>
        let fa :=
          match node.func_stack with
          | [_] => (func.old_func, func.old_size)
          | prev :: _ => (prev.new_func, prev.new_size)
          | [] => (func.old_func, func.old_size)
        [{ func_addr := fa.1, func_size := fa.2, func_name := func.old_name,
           force := KlpForce.KLP_NORMAL_FORCE }]
    else []) ++
    [{ func_addr := func.new_func, func_size := func.new_size,
       func_name := func.old_name, force := KlpForce.KLP_NORMAL_FORCE }]

/-- klp_check_activeness_func: collect every function's ranges (the list
allocation of add_func_to_list is assumed to succeed). -/
def klp_check_activeness_func (ns : Nodes) (p : KlpPatch) (enable : Bool) :
    List ActvFunc :=
  (klp_patch_funcs p).flatMap (fun f => arch_klp_check_activeness_func ns f enable)

/-- klp_check_calltrace: collect, then walk every CPU's stack. -/
def klp_check_calltrace (env : KlpEnv) (ns : Nodes) (p : KlpPatch)
    (enable : Bool) : Int :=
  let func_list := klp_check_activeness_func ns p enable
  if func_list.isEmpty then 0
  else arch_klp_check_calltrace env.cpu_stacks func_list

/-! ## Kprobe restriction -/

def get_kprobe (env : KlpEnv) (addr : Nat) : Bool := env.kprobes.contains addr

/-- klp_check_patch_kprobed: any kprobe installed inside any old function's
body blocks the operation. -/
def klp_check_patch_kprobed (env : KlpEnv) (p : KlpPatch) : Bool :=
  (klp_patch_funcs p).any (fun f =>
    (List.range f.old_size).any (fun i => get_kprobe env (f.old_func + i)))

/-! ## Function-site node table -/

/-- klp_add_func_node (list_add_rcu prepends). -/
def klp_add_func_node (ns : Nodes) (n : KlpFuncNode) : Nodes := n :: ns

/-- klp_del_func_node (list_del_rcu). -/
def klp_del_func_node (ns : Nodes) (old_func : Nat) : Nodes :=
  ns.filter (fun n => n.old_func != old_func)

/-- func_node_alloc: reuse the node when the address was ever patched,
otherwise snapshot the original code and publish a fresh node.  Returns the
key of the node (`none` on failure). -/
def func_node_alloc (env : KlpEnv) (func : KlpFunc) (ns : Nodes) :
    Option Nat × Nodes × Events :=
  match klp_find_func_node ns func.old_func with
  | some node => (some node.old_func, ns, [])
  | none =>
    if env.save_code_ok func.old_func then
      (some func.old_func,
       klp_add_func_node ns { old_func := func.old_func, func_stack := [] },
       [KlpEvent.codeSaved func.old_func])
    else (none, ns, [])

/-- func_node_free: drop the function's reference; unlink and reclaim the node
only once its stack is empty, with a full RCU grace period between unlinking
and the actual free. -/
def func_node_free (func : KlpFunc) (ns : Nodes) : KlpFunc × Nodes × Events :=
  match func.func_node with
  | none => (func, ns, [])
  | some key =>
    let func := { func with func_node := none }
    match klp_find_func_node ns key with
    | none => (func, ns, [])
    | some node =>
      if node.func_stack.isEmpty then
        (func, klp_del_func_node ns key,
         [KlpEvent.nodeDel key, KlpEvent.rcuSync, KlpEvent.memFree key])
      else (func, ns, [])

/-- klp_mem_prepare's walk over a function list. -/
def prepare_funcs (env : KlpEnv) : List KlpFunc → Nodes →
    Bool × List KlpFunc × Nodes × Events
  | [], ns => (true, [], ns, [])
  | f :: rest, ns =>
    match func_node_alloc env f ns with
    | (none, ns, ev) => (false, { f with func_node := none } :: rest, ns, ev)
    | (some key, ns, ev) =>
      let f := { f with func_node := some key }
      let r := prepare_funcs env rest ns
      (r.1, f :: r.2.1, r.2.2.1, ev ++ r.2.2.2)

/-- klp_mem_recycle's walk over a function list. -/
def recycle_funcs : List KlpFunc → Nodes → List KlpFunc × Nodes × Events
  | [], ns => ([], ns, [])
  | f :: rest, ns =>
    let r1 := func_node_free f ns
    let r2 := recycle_funcs rest r1.2.1
    (r1.1 :: r2.1, r2.2.1, r1.2.2 ++ r2.2.2)

/-- prepare over the object list (stops at the first failure, like the C
loop). -/
def prepare_objs (env : KlpEnv) : List KlpObject → Nodes →
    Bool × List KlpObject × Nodes × Events
  | [], ns => (true, [], ns, [])
  | obj :: rest, ns =>
    let r := prepare_funcs env (klp_obj_funcs obj) ns
    let obj2 := { obj with funcs := obj.funcs.map (fun _ => r.2.1) }
    if r.1 then
      let r2 := prepare_objs env rest r.2.2.1
      (r2.1, obj2 :: r2.2.1, r2.2.2.1, r.2.2.2 ++ r2.2.2.2)
    else (false, obj2 :: rest, r.2.2.1, r.2.2.2)

/-- recycle over the object list. -/
def recycle_objs : List KlpObject → Nodes → List KlpObject × Nodes × Events
  | [], ns => ([], ns, [])
  | obj :: rest, ns =>
    let r := recycle_funcs (klp_obj_funcs obj) ns
    let obj2 := { obj with funcs := obj.funcs.map (fun _ => r.1) }
    let r2 := recycle_objs rest r.2.1
    (obj2 :: r2.1, r2.2.1, r.2.2 ++ r2.2.2)

/-- klp_mem_recycle. -/
def klp_mem_recycle (p : KlpPatch) (ns : Nodes) : KlpPatch × Nodes × Events :=
  let r := recycle_objs (klp_patch_objs p) ns
  ({ p with objs := p.objs.map (fun _ => r.1) }, r.2.1, r.2.2)

/-- klp_mem_prepare: acquire a node for every function; on failure recycle the
whole patch and report -ENOMEM. -/
def klp_mem_prepare (env : KlpEnv) (p : KlpPatch) (ns : Nodes) :
    Int × KlpPatch × Nodes × Events :=
  let r := prepare_objs env (klp_patch_objs p) ns
  let p := { p with objs := p.objs.map (fun _ => r.2.1) }
  if r.1 then (0, p, r.2.2.1, r.2.2.2)
  else
    let r2 := klp_mem_recycle p r.2.2.1
    (-ENOMEM, r2.1, r2.2.1, r.2.2.2 ++ r2.2.2)

/-! ## Patch application (stop-machine leader path) -/

/-- Push a stack entry onto the node with the given key. -/
def push_node (ns : Nodes) (key : Nat) (e : StackEntry) : Nodes :=
  ns.map (fun n =>
    if n.old_func == key then { n with func_stack := e :: n.func_stack } else n)

/-- Remove the first stack entry with the given replacement address from the
node with the given key. -/
def pop_node (ns : Nodes) (key : Nat) (nf : Nat) : Nodes :=
  ns.map (fun n =>
    if n.old_func == key then
      { n with func_stack := n.func_stack.eraseP (fun e => e.new_func == nf) }
    else n)

/-- Modelled from the spec: the arch patcher pushes the function onto its
node's stack and rewrites the first bytes of the active implementation; its
success is environment-controlled. -/
def arch_klp_patch_func (env : KlpEnv) (func : KlpFunc) (ns : Nodes) :
    Int × Nodes × Events :=
  match func.func_node with
  | none => (-EINVAL, ns, [])
  | some key =>
    if env.arch_patch_ok func.old_func then
      (0, push_node ns key { new_func := func.new_func, new_size := func.new_size },
       [KlpEvent.patchWrite func.old_func])
    else (-EINVAL, ns, [])

/-- Modelled from the spec: the arch patcher pops the function from its node's
stack and restores whichever implementation is now on top (or the saved
original bytes). -/
def arch_klp_unpatch_func (func : KlpFunc) (ns : Nodes) : Nodes × Events :=
  match func.func_node with
  | none => (ns, [])
  | some key =>
    (pop_node ns key func.new_func, [KlpEvent.unpatchWrite func.old_func])

/-- klp_patch_func. -/
def klp_patch_func (env : KlpEnv) (func : KlpFunc) (ns : Nodes) :
    Int × KlpFunc × Nodes × Events :=
  if func.patched then (0, func, ns, [])
  else if func.old_func = 0 then (-EINVAL, func, ns, [])
  else if func.func_node.isNone then (-EINVAL, func, ns, [])
  else
    let r := arch_klp_patch_func env func ns
    if r.1 = 0 then (0, { func with patched := true }, r.2.1, r.2.2)
    else (r.1, func, r.2.1, r.2.2)

/-- klp_unpatch_func. -/
def klp_unpatch_func (func : KlpFunc) (ns : Nodes) :
    KlpFunc × Nodes × Events :=
  if !func.patched then (func, ns, [])
  else if func.old_func = 0 then (func, ns, [])
  else if func.func_node.isNone then (func, ns, [])
  else
    let r := arch_klp_unpatch_func func ns
    ({ func with patched := false }, r.1, r.2)

/-- klp_unpatch_object's walk: unpatch every patched function. -/
def unpatch_funcs : List KlpFunc → Nodes → List KlpFunc × Nodes × Events
  | [], ns => ([], ns, [])
  | f :: rest, ns =>
    let r1 := if f.patched then klp_unpatch_func f ns else (f, ns, [])
    let r2 := unpatch_funcs rest r1.2.1
    (r1.1 :: r2.1, r2.2.1, r1.2.2 ++ r2.2.2)

/-- klp_unpatch_object. -/
def klp_unpatch_object (obj : KlpObject) (ns : Nodes) :
    KlpObject × Nodes × Events :=
  let r := unpatch_funcs (klp_obj_funcs obj) ns
  ({ obj with funcs := obj.funcs.map (fun _ => r.1), patched := false },
   r.2.1, r.2.2)

/-- klp_patch_object's walk: patch functions until one fails. -/
def patch_funcs (env : KlpEnv) : List KlpFunc → Nodes →
    Int × List KlpFunc × Nodes × Events
  | [], ns => (0, [], ns, [])
  | f :: rest, ns =>
    let r1 := klp_patch_func env f ns
    if r1.1 = 0 then
      let r2 := patch_funcs env rest r1.2.2.1
      (r2.1, r1.2.1 :: r2.2.1, r2.2.2.1, r1.2.2.2 ++ r2.2.2.2)
    else (r1.1, r1.2.1 :: rest, r1.2.2.1, r1.2.2.2)

/-- klp_patch_object: already-patched objects are skipped; a failed function
rolls the whole object back. -/
def klp_patch_object (env : KlpEnv) (obj : KlpObject) (ns : Nodes) :
    Int × KlpObject × Nodes × Events :=
  if obj.patched then (0, obj, ns, [])
  else
    let r := patch_funcs env (klp_obj_funcs obj) ns
    let obj2 := { obj with funcs := obj.funcs.map (fun _ => r.2.1) }
    if r.1 = 0 then (0, { obj2 with patched := true }, r.2.2.1, r.2.2.2)
    else
      let r2 := klp_unpatch_object obj2 r.2.2.1
      (r.1, r2.1, r2.2.1, r.2.2.2 ++ r2.2.2)

/-- klp_unpatch_objects' walk. -/
def unpatch_objs : List KlpObject → Nodes → List KlpObject × Nodes × Events
  | [], ns => ([], ns, [])
  | o :: rest, ns =>
    let r1 := if o.patched then klp_unpatch_object o ns else (o, ns, [])
    let r2 := unpatch_objs rest r1.2.1
    (r1.1 :: r2.1, r2.2.1, r1.2.2 ++ r2.2.2)

/-- klp_unpatch_objects. -/
def klp_unpatch_objects (p : KlpPatch) (ns : Nodes) :
    KlpPatch × Nodes × Events :=
  let r := unpatch_objs (klp_patch_objs p) ns
  ({ p with objs := p.objs.map (fun _ => r.1) }, r.2.1, r.2.2)

/-- disable_patch (module_put is not tracked). -/
def disable_patch (p : KlpPatch) (ns : Nodes) :
    Int × KlpPatch × Nodes × Events :=
  let r := klp_unpatch_objects p ns
  (0, { r.1 with enabled := false }, r.2.1, r.2.2)

/-- enable_patch's walk over the object list. -/
def enable_objs (env : KlpEnv) : List KlpObject → Nodes →
    Int × List KlpObject × Nodes × Events
  | [], ns => (0, [], ns, [])
  | o :: rest, ns =>
    if !klp_is_object_loaded o then
      let r2 := enable_objs env rest ns
      (r2.1, o :: r2.2.1, r2.2.2.1, r2.2.2.2)
    else
      let r1 := klp_patch_object env o ns
      if r1.1 = 0 then
        let r2 := enable_objs env rest r1.2.2.1
        (r2.1, r1.2.1 :: r2.2.1, r2.2.2.1, r1.2.2.2 ++ r2.2.2.2)
      else (r1.1, r1.2.1 :: rest, r1.2.2.1, r1.2.2.2)

/-- enable_patch: mark enabled (try_module_get modelled as succeeding), patch
every loaded object, and disable the whole patch on any failure. -/
def enable_patch (env : KlpEnv) (p : KlpPatch) (ns : Nodes) :
    Int × KlpPatch × Nodes × Events :=
  let p := if !p.enabled then { p with enabled := true } else p
  let r := enable_objs env (klp_patch_objs p) ns
  let p := { p with objs := p.objs.map (fun _ => r.2.1) }
  if r.1 = 0 then (0, p, r.2.2.1, r.2.2.2)
  else
    let r2 := disable_patch p r.2.2.1
    (r.1, r2.2.1, r2.2.2.1, r.2.2.2 ++ r2.2.2.2)

/-- klp_try_enable_patch, leader-CPU path inside the rendezvous: kprobe gate,
activeness gate, then the mutation. -/
def klp_try_enable_patch (env : KlpEnv) (p : KlpPatch) (ns : Nodes) :
    Int × KlpPatch × Nodes × Events :=
  if klp_check_patch_kprobed env p then (-EINVAL, p, ns, [])
  else
    let r := klp_check_calltrace env ns p true
    if r ≠ 0 then (r, p, ns, [])
    else enable_patch env p ns

/-- klp_try_disable_patch, leader-CPU path inside the rendezvous. -/
def klp_try_disable_patch (env : KlpEnv) (p : KlpPatch) (ns : Nodes) :
    Int × KlpPatch × Nodes × Events :=
  if klp_check_patch_kprobed env p then (-EINVAL, p, ns, [])
  else
    let r := klp_check_calltrace env ns p false
    if r ≠ 0 then (r, p, ns, [])
    else disable_patch p ns

/-! ## Registry operations -/

/-- The CONFIG_LIVEPATCH_STACK predecessor rule for enable: the previous list
entry, when there is one, must be enabled. -/
def stack_prev_ok (ps : List KlpPatch) (i : Nat) : Bool :=
  i == 0 ||
    (match ps[i - 1]? with
     | some q => q.enabled
     | none => true)

/-- The CONFIG_LIVEPATCH_STACK successor rule for disable: the next list
entry, when there is one, must be disabled. -/
def stack_next_ok (ps : List KlpPatch) (i : Nat) : Bool :=
  match ps[i + 1]? with
  | some q => !q.enabled
  | none => true

/-- __klp_enable_patch on the i-th registered patch. -/
def klp_enable_patch_i (env : KlpEnv) (st : KlpState) (i : Nat) :
    Int × KlpState × Events :=
  match st.patches[i]? with
  | none => (-EINVAL, st, [])
  | some p =>
    if p.enabled then (-EINVAL, st, [])
    else if !stack_prev_ok st.patches i then (-EBUSY, st, [])
    else
      let r := klp_mem_prepare env p st.nodes
      if r.1 ≠ 0 then
        (r.1, { st with patches := st.patches.set i r.2.1, nodes := r.2.2.1 },
         r.2.2.2)
      else
        let r2 := klp_try_enable_patch env r.2.1 r.2.2.1
        if r2.1 ≠ 0 then
          let r3 := klp_mem_recycle r2.2.1 r2.2.2.1
          (r2.1, { st with patches := st.patches.set i r3.1, nodes := r3.2.1 },
           r.2.2.2 ++ r2.2.2.2 ++ r3.2.2)
        else
          (0, { st with patches := st.patches.set i r2.2.1, nodes := r2.2.2.1 },
           r.2.2.2 ++ r2.2.2.2)

/-- __klp_disable_patch on the i-th registered patch. -/
def klp_disable_patch_i (env : KlpEnv) (st : KlpState) (i : Nat) :
    Int × KlpState × Events :=
  match st.patches[i]? with
  | none => (-EINVAL, st, [])
  | some p =>
    if !p.enabled then (-EINVAL, st, [])
    else if !stack_next_ok st.patches i then (-EBUSY, st, [])
    else
      let r := klp_try_disable_patch env p st.nodes
      if r.1 ≠ 0 then
        (r.1, { st with patches := st.patches.set i r.2.1, nodes := r.2.2.1 },
         r.2.2.2)
      else
        let r2 := klp_mem_recycle r.2.1 r.2.2.1
        (0, { st with patches := st.patches.set i r2.1, nodes := r2.2.1 },
         r.2.2.2 ++ r2.2.2)

/-- klp_is_patch_registered, with patch identity given by the owning module
name (pointer identity in C; module names of registered patches are unique
because each owns a sysfs directory named after its module). -/
def klp_is_patch_registered (st : KlpState) (p : KlpPatch) : Bool :=
  st.patches.any (fun q => q.mod == p.mod)

/-- Position of a registered patch in the list, by identity. -/
def klp_find_patch_index (ps : List KlpPatch) (p : KlpPatch) : Option Nat :=
  ps.findIdx? (fun q => q.mod == p.mod)

/-- enabled_store: the sysfs toggle.  Returns the count on success, an errno
otherwise. -/
def enabled_store (env : KlpEnv) (st : KlpState) (p : KlpPatch)
    (enabled : Bool) (count : Nat) : Int × KlpState × Events :=
  match klp_find_patch_index st.patches p with
  | none => (-EINVAL, st, [])
  | some i =>
    match st.patches[i]? with
    | none => (-EINVAL, st, [])
    | some q =>
      if q.enabled == enabled then (-EINVAL, st, [])
      else
        let r := if enabled then klp_enable_patch_i env st i
                 else klp_disable_patch_i env st i
        (if r.1 ≠ 0 then r.1 else (count : Int), r.2.1, r.2.2)

/-! ## Registration -/

/-- The validation loop at the head of the WO_FTRACE klp_init_object. -/
def validate_funcs : List KlpFunc → Int
  | [] => 0
  | f :: rest =>
    match f.old_name with
    | none => -EINVAL
    | some nm =>
      if f.new_func = 0 ∧ !f.nop then -EINVAL
      else if KSYM_NAME_LEN ≤ nm.length then -EINVAL
      else validate_funcs rest

/-- klp_init_func (the !CONFIG_LIVEPATCH_FTRACE branch; kobject_add assumed to
succeed). -/
def klp_init_func (f : KlpFunc) : Int × KlpFunc :=
  match f.old_name with
  | none => (-EINVAL, f)
  | some nm =>
    if f.new_func = 0 then (-EINVAL, f)
    else if KSYM_NAME_LEN ≤ nm.length then (-EINVAL, f)
    else (0, { f with patched := false })

/-- klp_init_object's klp_init_func loop. -/
def init_funcs : List KlpFunc → Int × List KlpFunc
  | [] => (0, [])
  | f :: rest =>
    let r := klp_init_func f
    if r.1 ≠ 0 then (r.1, f :: rest)
    else
      let r2 := init_funcs rest
      (r2.1, r.2 :: r2.2)

/-- klp_find_object_module (WO_FTRACE): grab a reference on the target module;
an absent module aborts initialization. -/
def klp_find_object_module (env : KlpEnv) (obj : KlpObject) :
    Int × KlpObject :=
  match obj.name with
  | none => (0, obj)
  | some n =>
    if env.loaded_mods.contains n then (0, { obj with mod := true })
    else (-ENOPKG, obj)

/-- klp_init_object_loaded's per-function loop (WO_FTRACE): resolve the old
address, look up and validate the old size (including the in-place-patch
footprint check), then look up the new size. -/
def init_funcs_loaded (env : KlpEnv) (objname : Option String) :
    List KlpFunc → Int × List KlpFunc
  | [] => (0, [])
  | f :: rest =>
    let r := klp_find_object_symbol env objname (f.old_name.getD "") f.old_sympos
    if r.1 ≠ 0 then (r.1, f :: rest)
    else
      let f := { f with old_func := r.2 }
      match env.sizes f.old_func with
      | none => (-ENOENT, f :: rest)
      | some sz =>
        let f := { f with old_size := sz }
        if LONG_SIGN_BOUND ≤ sz then (-ENOENT, f :: rest)
        else if sz < KLP_MAX_REPLACE_SIZE then (-EINVAL, f :: rest)
        else
          match env.sizes f.new_func with
          | none => (-ENOENT, f :: rest)
          | some nsz =>
            let f := { f with new_size := nsz }
            let r2 := init_funcs_loaded env objname rest
            (r2.1, f :: r2.2)

/-- klp_init_object_loaded (module-specific relocations are out of scope and
assumed to apply cleanly). -/
def klp_init_object_loaded (env : KlpEnv) (obj : KlpObject) :
    Int × KlpObject :=
  let r := init_funcs_loaded env obj.name (klp_obj_funcs obj)
  (r.1, { obj with funcs := obj.funcs.map (fun _ => r.2) })

/-- klp_init_object (WO_FTRACE). -/
def klp_init_object (env : KlpEnv) (obj : KlpObject) : Int × KlpObject :=
  if (match obj.name with
      | some n => decide (MODULE_NAME_LEN ≤ n.length)
      | none => false) then (-EINVAL, obj)
  else
    let rv := validate_funcs (klp_obj_funcs obj)
    if rv ≠ 0 then (rv, obj)
    else
      let obj := { obj with patched := false, mod := false }
      let r := klp_find_object_module env obj
      if r.1 ≠ 0 then (r.1, r.2)
      else
        let obj := r.2
        let r2 :=
          if klp_is_object_loaded obj then klp_init_object_loaded env obj
          else (0, obj)
        if r2.1 ≠ 0 then (r2.1, { r2.2 with mod := false })
        else
          let r3 := init_funcs (klp_obj_funcs r2.2)
          let obj3 := { r2.2 with funcs := r2.2.funcs.map (fun _ => r3.2) }
          if r3.1 ≠ 0 then (r3.1, { obj3 with mod := false })
          else (0, obj3)

/-- klp_init_patch's object loop. -/
def init_objs (env : KlpEnv) : List KlpObject → Int × List KlpObject
  | [] => (0, [])
  | o :: rest =>
    let r := klp_init_object env o
    if r.1 ≠ 0 then (r.1, r.2 :: rest)
    else
      let r2 := init_objs env rest
      (r2.1, r.2 :: r2.2)

/-- check_address_conflict: no jump label or static call may live in the first
KLP_MAX_REPLACE_SIZE bytes of any old function. -/
def check_address_conflict (env : KlpEnv) (p : KlpPatch) : Int :=
  if (klp_patch_funcs p).any (fun f =>
      env.reserved_jump f.old_func (f.old_func + KLP_MAX_REPLACE_SIZE - 1) ||
      env.reserved_static f.old_func (f.old_func + KLP_MAX_REPLACE_SIZE - 1))
  then -EINVAL else 0

/-- klp_init_func_early (WO_FTRACE): clear the function-site reference. -/
def klp_init_func_early (f : KlpFunc) : KlpFunc := { f with func_node := none }

/-- klp_init_object_early (WO_FTRACE): clear the module reference and
early-init every function. -/
def klp_init_object_early (o : KlpObject) : KlpObject :=
  { o with mod := false, funcs := o.funcs.map (fun fs => fs.map klp_init_func_early) }

/-- klp_init_patch_early: start disabled, early-init every object. -/
def klp_init_patch_early (p : KlpPatch) : KlpPatch :=
  { p with enabled := false, objs := p.objs.map (fun os => os.map klp_init_object_early) }

/-- klp_init_patch (WO_FTRACE; kobject_add, icache flush, jump-label and
static-call registration are assumed to succeed; load hooks have no modelled
effect).  On success the patch is appended to the global list. -/
def klp_init_patch (env : KlpEnv) (p : KlpPatch) (st : KlpState) :
    Int × KlpPatch × KlpState :=
  let r := init_objs env (klp_patch_objs p)
  let p := { p with objs := p.objs.map (fun _ => r.2) }
  if r.1 ≠ 0 then (r.1, p, st)
  else
    let rc := check_address_conflict env p
    if rc ≠ 0 then (rc, p, st)
    else (0, p, { st with patches := st.patches ++ [p] })

/-- klp_register_patch: descriptor-shape validation, livepatch-module flag,
subsystem readiness, duplicate rejection, then initialization; on any
initialization failure klp_free_patch_start tears the patch down and the
global state is unchanged. -/
def klp_register_patch (env : KlpEnv) (patch : Option KlpPatch)
    (st : KlpState) : Int × KlpState :=
  match patch with
  | none => (-EINVAL, st)
  | some p =>
    match p.mod with
    | none => (-EINVAL, st)
    | some m =>
      match p.objs with
      | none => (-EINVAL, st)
      | some objs =>
        if objs.any (fun o => o.funcs.isNone) then (-EINVAL, st)
        else if !env.is_livepatch m then (-EINVAL, st)
        else if !env.initialized then (-ENODEV, st)
        else if klp_is_patch_registered st p then (-EINVAL, st)
        else
          let p := klp_init_patch_early p
          let r := klp_init_patch env p st
          if r.1 ≠ 0 then (r.1, st)
          else (0, r.2.2)

/-- klp_unregister_patch: refused while enabled; otherwise the patch is
removed from the global list and torn down. -/
def klp_unregister_patch (st : KlpState) (p : KlpPatch) : Int × KlpState :=
  match st.patches.find? (fun q => q.mod == p.mod) with
  | none => (-EINVAL, st)
  | some q =>
    if q.enabled then (-EBUSY, st)
    else (0, { st with patches := st.patches.eraseP (fun r => r.mod == p.mod) })

/-! ## Helper lemmas -/

theorem list_set_same {α : Type} : ∀ (l : List α) (i : Nat) (a : α),
    l[i]? = some a → l.set i a = l
  | [], i, a => by simp
  | x :: xs, 0, a => by
    intro h
    simp at h
    simp [h]
  | x :: xs, i + 1, a => by
    intro h
    simp at h
    simp [list_set_same xs i a h]

theorem list_any_false {α : Type} : ∀ l : List α, (l.any fun _ => false) = false := by
  intro l
  simp

theorem func_eta (f : KlpFunc) (h : f.patched = false) :
    { f with patched := false } = f := by
  cases f
  simp_all

theorem func_eta_node (f : KlpFunc) (h : f.func_node = none) :
    { f with func_node := none } = f := by
  cases f
  simp_all

theorem eraseP_mod_none : ∀ (l : List KlpPatch) (m : Option String),
    (l.map KlpPatch.mod).Nodup →
    ((l.eraseP (fun r => r.mod == m)).any (fun r => r.mod == m)) = false := by
  intro l m
  induction l with
  | nil => simp
  | cons x xs ih =>
    intro hnd
    simp at hnd
    by_cases hx : x.mod == m
    · rw [show (x :: xs).eraseP (fun r => r.mod == m) = xs from
        List.eraseP_cons_of_pos hx]
      rw [List.any_eq_false]
      intro y hy
      simp only [beq_iff_eq] at hx ⊢
      intro hym
      exact hnd.1 y hy (by rw [hym, hx])
    · rw [show (x :: xs).eraseP (fun r => r.mod == m) =
          x :: xs.eraseP (fun r => r.mod == m) from
        List.eraseP_cons_of_neg (by simpa using hx)]
      simp only [List.any_cons]
      rw [Bool.or_eq_false_iff]
      exact ⟨by simpa using hx, ih hnd.2⟩

/-- C10: applying the patch step is idempotent: an already-patched function is
skipped by klp_patch_func with success and no arch-patcher invocation, an
already-patched object is skipped by klp_patch_object without visiting its
functions, and repeating a successful object application changes no state. -/
theorem C10_idempotent_patching :
    (∀ (env : KlpEnv) (f : KlpFunc) (ns : Nodes),
      f.patched = true → klp_patch_func env f ns = (0, f, ns, [])) ∧
    (∀ (env : KlpEnv) (o : KlpObject) (ns : Nodes),
      o.patched = true → klp_patch_object env o ns = (0, o, ns, [])) ∧
    (∀ (env : KlpEnv) (o o2 : KlpObject) (ns ns2 : Nodes) (E : Events),
      klp_patch_object env o ns = (0, o2, ns2, E) →
      klp_patch_object env o2 ns2 = (0, o2, ns2, [])) := by
  refine ⟨?_, ?_, ?_⟩
  · intro env f ns h
    simp [klp_patch_func, h]
  · intro env o ns h
    simp [klp_patch_object, h]
  · intro env o o2 ns ns2 E h
    have h2 : o2.patched = true := by
      by_cases ho : o.patched
      · simp [klp_patch_object, ho] at h
        rw [← h.1]
        exact ho
      · simp only [klp_patch_object, ho, if_false, Bool.false_eq_true] at h
        split at h
        · simp only [Prod.mk.injEq] at h
          rw [← h.2.1]
        · rename_i hcond
          simp only [Prod.mk.injEq] at h
          exact absurd h.1 hcond
    simp [klp_patch_object, h2]

/-- C7: enabling an already-enabled patch is a state error: enabled_store
rejects with -EINVAL when the stored patch is already in the requested state,
and __klp_enable_patch itself rejects an enabled patch with -EINVAL; in both
cases the state is untouched and no patching machinery runs. -/
theorem C7_double_enable :
    (∀ (env : KlpEnv) (st : KlpState) (p q : KlpPatch) (i count : Nat),
      klp_find_patch_index st.patches p = some i → st.patches[i]? = some q →
      q.enabled = true →
      enabled_store env st p true count = (-EINVAL, st, [])) ∧
    (∀ (env : KlpEnv) (st : KlpState) (i : Nat) (q : KlpPatch),
      st.patches[i]? = some q → q.enabled = true →
      klp_enable_patch_i env st i = (-EINVAL, st, [])) := by
  constructor
  · intro env st p q i count h1 h2 h3
    simp [enabled_store, h1, h2, h3]
  · intro env st i q h1 h2
    simp [klp_enable_patch_i, h1, h2]

/-- The reachable stacking invariant: enabled patches form a downward-closed
region of the ordered patch list (every patch below an enabled patch is
enabled). -/
def enabledDownClosed (ps : List KlpPatch) : Prop :=
  ∀ (j k : Nat) (qj qk : KlpPatch), j ≤ k → ps[j]? = some qj →
    ps[k]? = some qk → qk.enabled = true → qj.enabled = true

/-- C9: klp_unregister_patch returns -EBUSY for an enabled patch, leaving it
registered and the state unchanged; for a registered disabled patch it removes
the patch from the global list, after which lookup by identity fails. -/
theorem C9_unregister :
    (∀ (st : KlpState) (p q : KlpPatch),
      st.patches.find? (fun r => r.mod == p.mod) = some q → q.enabled = true →
      klp_unregister_patch st p = (-EBUSY, st) ∧
      klp_is_patch_registered st p = true) ∧
    (∀ (st : KlpState) (p q : KlpPatch),
      st.patches.find? (fun r => r.mod == p.mod) = some q → q.enabled = false →
      (st.patches.map KlpPatch.mod).Nodup →
      klp_unregister_patch st p =
        (0, { st with
              patches := st.patches.eraseP (fun r => r.mod == p.mod) }) ∧
      klp_is_patch_registered (klp_unregister_patch st p).2 p = false) := by
  constructor
  · intro st p q hf he
    refine ⟨by simp [klp_unregister_patch, hf, he], ?_⟩
    rw [klp_is_patch_registered, List.any_eq_true]
    have hp := List.find?_some hf
    exact ⟨q, List.mem_of_find?_eq_some hf, hp⟩
  · intro st p q hf he hnd
    have h1 : klp_unregister_patch st p =
        (0, { st with patches := st.patches.eraseP (fun r => r.mod == p.mod) }) := by
      simp [klp_unregister_patch, hf, he]
    refine ⟨h1, ?_⟩
    rw [h1]
    exact eraseP_mod_none st.patches p.mod hnd

/-- A benign environment for the concrete stacking scenario: no kprobes and
empty CPU stacks, so the rendezvous checks pass. -/
def env0 : KlpEnv := {
  symtab := fun _ => []
  sizes := fun _ => none
  loaded_mods := []
  is_livepatch := fun _ => true
  kprobes := []
  cpu_stacks := []
  arch_patch_ok := fun _ => true
  save_code_ok := fun _ => true
  reserved_jump := fun _ _ => false
  reserved_static := fun _ _ => false
  initialized := true }

/-- Scenario: P1's function, redirecting foo (at 100, 32 bytes) to 200. -/
def fA : KlpFunc := { old_name := some "foo", old_sympos := 1, new_func := 200,
                      nop := false, force := KlpForce.KLP_NORMAL_FORCE,
                      old_func := 100, old_size := 32, new_size := 40,
                      patched := true, func_node := some 100 }

/-- Scenario: P2's function, stacked over P1, redirecting foo to 300. -/
def fB : KlpFunc := { fA with new_func := 300, new_size := 48 }

def oA : KlpObject := { name := none, funcs := some [fA], patched := true, mod := false }
def oB : KlpObject := { name := none, funcs := some [fB], patched := true, mod := false }
def pA : KlpPatch := { mod := some "p1", objs := some [oA], enabled := true }
def pB : KlpPatch := { mod := some "p2", objs := some [oB], enabled := true }

/-- Scenario state: P1 and P2 both enabled, P2 stacked on top of P1 at foo's
function-site node. -/
def stAB : KlpState :=
  { patches := [pA, pB],
    nodes := [{ old_func := 100,
                func_stack := [{ new_func := 300, new_size := 48 },
                               { new_func := 200, new_size := 40 }] }] }

/-- C3: with stacking enforced, __klp_disable_patch refuses with -EBUSY and no
mutation when the successor patch is enabled, and __klp_enable_patch refuses
with -EBUSY when the predecessor is disabled; in every reachable state
(enabled patches downward-closed in list order) this means only the last
enabled patch may be disabled and only the first disabled patch may be
enabled; concretely, with P1 and P2 both enabled, disabling P1 fails while
disabling P2 and then P1 succeeds. -/
theorem C3_stacking_order :
    (∀ (env : KlpEnv) (st : KlpState) (i : Nat) (p q : KlpPatch),
      st.patches[i]? = some p → p.enabled = true →
      st.patches[i + 1]? = some q → q.enabled = true →
      klp_disable_patch_i env st i = (-EBUSY, st, [])) ∧
    (∀ (env : KlpEnv) (st : KlpState) (i : Nat) (p q : KlpPatch),
      st.patches[i]? = some p → p.enabled = false → 0 < i →
      st.patches[i - 1]? = some q → q.enabled = false →
      klp_enable_patch_i env st i = (-EBUSY, st, [])) ∧
    (∀ (env : KlpEnv) (st : KlpState) (i j : Nat) (pi pj : KlpPatch),
      enabledDownClosed st.patches → i < j →
      st.patches[i]? = some pi → pi.enabled = true →
      st.patches[j]? = some pj → pj.enabled = true →
      klp_disable_patch_i env st i = (-EBUSY, st, [])) ∧
    (∀ (env : KlpEnv) (st : KlpState) (i j : Nat) (pi pj : KlpPatch),
      enabledDownClosed st.patches → j < i →
      st.patches[j]? = some pj → pj.enabled = false →
      st.patches[i]? = some pi → pi.enabled = false →
      klp_enable_patch_i env st i = (-EBUSY, st, [])) ∧
    ((klp_disable_patch_i env0 stAB 0).1 = -EBUSY ∧
     (klp_disable_patch_i env0 stAB 0).2.1 = stAB ∧
     (klp_disable_patch_i env0 stAB 1).1 = 0 ∧
     ((klp_disable_patch_i env0 stAB 1).2.1.patches.map KlpPatch.enabled) =
       [true, false] ∧
     (klp_disable_patch_i env0 (klp_disable_patch_i env0 stAB 1).2.1 0).1 = 0 ∧
     ((klp_disable_patch_i env0
        (klp_disable_patch_i env0 stAB 1).2.1 0).2.1.patches.map
          KlpPatch.enabled) = [false, false]) := by
  have hdis : ∀ (env : KlpEnv) (st : KlpState) (i : Nat) (p q : KlpPatch),
      st.patches[i]? = some p → p.enabled = true →
      st.patches[i + 1]? = some q → q.enabled = true →
      klp_disable_patch_i env st i = (-EBUSY, st, []) := by
    intro env st i p q h1 h2 h3 h4
    simp [klp_disable_patch_i, h1, h2, stack_next_ok, h3, h4]
  have hen : ∀ (env : KlpEnv) (st : KlpState) (i : Nat) (p q : KlpPatch),
      st.patches[i]? = some p → p.enabled = false → 0 < i →
      st.patches[i - 1]? = some q → q.enabled = false →
      klp_enable_patch_i env st i = (-EBUSY, st, []) := by
    intro env st i p q h1 h2 h3 h4 h5
    have hi0 : (i == 0) = false := by
      simp
      omega
    simp [klp_enable_patch_i, h1, h2, stack_prev_ok, hi0, h4, h5]
  refine ⟨hdis, hen, ?_, ?_, ?_⟩
  · intro env st i j pi pj hdc hij h1 h2 h3 h4
    have hjlen : j < st.patches.length := by
      exact List.getElem?_eq_some_iff.mp h3 |>.1
    have hi1len : i + 1 < st.patches.length := by omega
    obtain ⟨q, hq⟩ : ∃ q, st.patches[i + 1]? = some q := by
      exact ⟨st.patches[i + 1], List.getElem?_eq_some_iff.mpr ⟨hi1len, rfl⟩⟩
    have hqe : q.enabled = true := hdc (i + 1) j q pj (by omega) hq h3 h4
    exact hdis env st i pi q h1 h2 hq hqe
  · intro env st i j pi pj hdc hij h1 h2 h3 h4
    have hilen : i < st.patches.length := by
      exact List.getElem?_eq_some_iff.mp h3 |>.1
    obtain ⟨q, hq⟩ : ∃ q, st.patches[i - 1]? = some q := by
      exact ⟨st.patches[i - 1], List.getElem?_eq_some_iff.mpr ⟨by omega, rfl⟩⟩
    have hqe : q.enabled = false := by
      by_contra hc
      have : pj.enabled = true :=
        hdc j (i - 1) pj q (by omega) h1 hq (by simpa using hc)
      rw [this] at h2
      exact Bool.true_eq_false.mp h2
    exact hen env st i pi q h3 h4 (by omega) hq hqe
  · refine ⟨by decide, by decide, by decide, by decide, by decide, by decide⟩

theorem klp_match_callback_snd (args : KlpFindArg) (a : Nat) :
    (klp_match_callback args a).2 =
      { args with addr := a, count := args.count + 1 } := by
  rw [klp_match_callback]
  split <;> rfl

/-- Both resolver walks agree: walking a whole table with the name-filtering
callback equals walking just the name's occurrences with the match callback. -/
theorem kallsyms_iterate_eq : ∀ (tbl : List (String × Nat)) (args : KlpFindArg),
    kallsyms_iterate tbl args =
      kallsyms_match_iterate
        ((tbl.filter (fun (s : String × Nat) => s.1 == args.name)).map Prod.snd)
        args
  | [], args => rfl
  | (n, a) :: tl, args => by
    by_cases hn : (n == args.name)
    · rw [kallsyms_iterate]
      simp only [klp_find_callback, hn, if_true]
      rw [List.filter_cons_of_pos (by simpa using hn), List.map_cons,
        kallsyms_match_iterate]
      by_cases hstop : (klp_match_callback args a).1
      · simp [hstop]
      · simp only [hstop, Bool.false_eq_true, if_false]
        rw [kallsyms_iterate_eq tl]
        rw [klp_match_callback_snd]
    · rw [kallsyms_iterate]
      simp only [klp_find_callback, hn, Bool.false_eq_true, if_false]
      rw [List.filter_cons_of_neg (by simpa using hn)]
      exact kallsyms_iterate_eq tl args

/-- The occurrence list the resolver effectively searches. -/
def klp_occurrences (env : KlpEnv) (objname : Option String) (name : String) :
    List Nat :=
  ((env.symtab objname).filter (fun (s : String × Nat) => s.1 == name)).map
    Prod.snd

theorem klp_find_object_symbol_eq (env : KlpEnv) (objname : Option String)
    (name : String) (sympos : Nat) :
    klp_find_object_symbol env objname name sympos =
      (let args := kallsyms_match_iterate (klp_occurrences env objname name)
        { name := name, addr := 0, count := 0, pos := sympos }
       if args.addr = 0 then (-EINVAL, 0)
       else if 1 < args.count ∧ sympos = 0 then (-EINVAL, 0)
       else if sympos ≠ args.count ∧ 0 < sympos then (-EINVAL, 0)
       else (0, args.addr)) := by
  cases objname with
  | none => rfl
  | some m =>
    rw [klp_find_object_symbol, kallsyms_iterate_eq]
    rfl

/-- Walking the occurrences with a positive requested position that is
reachable stops exactly at that occurrence. -/
theorem match_iterate_hit : ∀ (occs : List Nat) (args : KlpFindArg),
    0 < args.pos → args.count < args.pos →
    args.pos ≤ args.count + occs.length →
    kallsyms_match_iterate occs args =
      { args with addr := occs.getD (args.pos - args.count - 1) 0,
                  count := args.pos }
  | [], args => by
    intro h1 h2 h3
    simp at h3
    omega
  | a :: rest, args => by
    intro h1 h2 h3
    rw [kallsyms_match_iterate, klp_match_callback]
    by_cases hk : args.count + 1 = args.pos
    · have hcond : ((args.pos ≠ 0 ∧ args.count + 1 = args.pos) ∨
          (args.pos = 0 ∧ 1 < args.count + 1)) := Or.inl ⟨by omega, hk⟩
      simp only [if_pos hcond]
      have : args.pos - args.count - 1 = 0 := by omega
      simp [this, ← hk]
    · have hcond : ¬((args.pos ≠ 0 ∧ args.count + 1 = args.pos) ∨
          (args.pos = 0 ∧ 1 < args.count + 1)) := by
        push_neg
        constructor
        · intro _
          exact hk
        · intro h0
          omega
      simp only [if_neg hcond]
      rw [match_iterate_hit rest _ (by simpa using h1)
        (by simp; omega) (by simp at h3 ⊢; omega)]
      have hidx : args.pos - (args.count + 1) - 1 = args.pos - args.count - 2 := by
        omega
      have hidx2 : args.pos - args.count - 1 = (args.pos - args.count - 2) + 1 := by
        omega
      simp [hidx, hidx2]

/-- Walking the occurrences with a positive requested position that is beyond
the total count just records the total count (and the walk never stops), so
the final address is either the initial one (no occurrence) or some
occurrence. -/
theorem match_iterate_miss : ∀ (occs : List Nat) (args : KlpFindArg),
    0 < args.pos → args.count + occs.length < args.pos →
    ∃ last, (occs = [] → last = args.addr) ∧ (occs ≠ [] → last ∈ occs) ∧
      kallsyms_match_iterate occs args =
        { args with addr := last, count := args.count + occs.length }
  | [], args => by
    intro h1 h2
    refine ⟨args.addr, fun _ => rfl, by simp, ?_⟩
    cases args
    simp [kallsyms_match_iterate]
  | a :: rest, args => by
    intro h1 h2
    rw [kallsyms_match_iterate, klp_match_callback]
    have hcond : ¬((args.pos ≠ 0 ∧ args.count + 1 = args.pos) ∨
        (args.pos = 0 ∧ 1 < args.count + 1)) := by
      push_neg
      simp at h2
      constructor
      · intro _
        omega
      · intro h0
        omega
    simp only [if_neg hcond]
    obtain ⟨last, hnil, hmem, heq⟩ :=
      match_iterate_miss rest { args with addr := a, count := args.count + 1 }
        (by simpa using h1) (by simp at h2 ⊢; omega)
    refine ⟨last, by simp, ?_, ?_⟩
    · intro _
      by_cases hr : rest = []
      · rw [hnil hr]
        simp
      · exact List.mem_cons_of_mem a (hmem hr)
    · rw [heq]
      cases args
      simp
      omega

/-- C5: klp_find_object_symbol fails on an absent symbol, fails with -EINVAL
and a zeroed address on an ambiguous symbol when sympos = 0, returns the
unique occurrence when sympos = 0 and exactly one exists, and with
sympos = k > 0 succeeds exactly when the k-th occurrence exists, returning
it deterministically (kallsyms addresses are nonzero). -/
theorem C5_symbol_resolution (env : KlpEnv) (objname : Option String)
    (name : String)
    (hnz : ∀ a ∈ klp_occurrences env objname name, a ≠ 0) :
    (klp_occurrences env objname name = [] →
      ∀ k, klp_find_object_symbol env objname name k = (-EINVAL, 0)) ∧
    (∀ a, klp_occurrences env objname name = [a] →
      klp_find_object_symbol env objname name 0 = (0, a)) ∧
    (1 < (klp_occurrences env objname name).length →
      klp_find_object_symbol env objname name 0 = (-EINVAL, 0)) ∧
    (∀ k, 0 < k → k ≤ (klp_occurrences env objname name).length →
      klp_find_object_symbol env objname name k =
        (0, (klp_occurrences env objname name).getD (k - 1) 0)) ∧
    (∀ k, 0 < k → (klp_occurrences env objname name).length < k →
      klp_find_object_symbol env objname name k = (-EINVAL, 0)) := by
  refine ⟨?_, ?_, ?_, ?_, ?_⟩
  · intro hocc k
    rw [klp_find_object_symbol_eq, hocc]
    simp [kallsyms_match_iterate]
  · intro a hocc
    have ha : a ≠ 0 := hnz a (by rw [hocc]; exact List.mem_singleton.mpr rfl)
    rw [klp_find_object_symbol_eq, hocc]
    simp [kallsyms_match_iterate, klp_match_callback, ha]
  · intro hlen
    obtain ⟨a, b, rest, hocc⟩ : ∃ a b rest,
        klp_occurrences env objname name = a :: b :: rest := by
      rcases hE : klp_occurrences env objname name with _ | ⟨a, _ | ⟨b, rest⟩⟩
      · rw [hE] at hlen
        simp at hlen
      · rw [hE] at hlen
        simp at hlen
      · exact ⟨a, b, rest, rfl⟩
    have hb : b ≠ 0 := hnz b (by rw [hocc]; simp)
    rw [klp_find_object_symbol_eq, hocc]
    by_cases hbz : b = 0
    · exact absurd hbz hb
    · simp [kallsyms_match_iterate, klp_match_callback, hbz]
  · intro k hk hkle
    have h := match_iterate_hit (klp_occurrences env objname name)
      { name := name, addr := 0, count := 0, pos := k } (by simpa using hk)
      (by simpa using hk) (by simpa using hkle)
    rw [klp_find_object_symbol_eq, h]
    have hmem : (klp_occurrences env objname name).getD (k - 0 - 1) 0 ∈
        klp_occurrences env objname name := by
      rw [List.getD_eq_getElem _ _ (by omega)]
      exact List.getElem_mem _
    have hnz2 := hnz _ hmem
    have hk0 : k - 0 - 1 = k - 1 := by omega
    simp only [hk0] at hnz2 ⊢
    have hnz3 : ((klp_occurrences env objname name)[k - 1]?.getD 0) ≠ 0 := by
      simpa [List.getD] using hnz2
    have hkne : k ≠ 0 := by omega
    simp [List.getD, hnz3, hkne]
  · intro k hk hlt
    obtain ⟨last, hnil, hmem, heq⟩ := match_iterate_miss
      (klp_occurrences env objname name)
      { name := name, addr := 0, count := 0, pos := k } (by simpa using hk)
      (by simpa using hlt)
    rw [klp_find_object_symbol_eq, heq]
    by_cases hocc : klp_occurrences env objname name = []
    · simp [hnil hocc]
    · have hlz : last ≠ 0 := hnz last (hmem hocc)
      have hne2 : k ≠ (klp_occurrences env objname name).length := by omega
      have hkne : k ≠ 0 := by omega
      simp [hlz, hne2, hkne]

/-- Every function surviving the loaded-object initialization has an old size
of at least the in-place-patch footprint. -/
theorem init_funcs_loaded_size (env : KlpEnv) (objname : Option String) :
    ∀ (fs : List KlpFunc) (r : Int × List KlpFunc),
      init_funcs_loaded env objname fs = r → r.1 = 0 →
      ∀ f ∈ r.2, KLP_MAX_REPLACE_SIZE ≤ f.old_size
  | [], r => by
    intro hr h1 f hf
    rw [init_funcs_loaded] at hr
    rw [← hr] at hf
    simp at hf
  | g :: rest, r => by
    intro hr h1 f hf
    simp only [init_funcs_loaded] at hr
    split at hr
    · rw [← hr] at h1
      simp_all
    · split at hr
      · rw [← hr] at h1
        simp [ENOENT] at h1
      · split at hr
        · rw [← hr] at h1
          simp [ENOENT] at h1
        · split at hr
          · rw [← hr] at h1
            simp [EINVAL] at h1
          · split at hr
            · rw [← hr] at h1
              simp [ENOENT] at h1
            · rw [← hr] at h1 hf
              simp only [List.mem_cons] at hf
              rcases hf with hf | hf
              · subst hf
                simp only
                omega
              · exact init_funcs_loaded_size env objname rest
                  (init_funcs_loaded env objname rest) rfl h1 f hf

/-- Any failing registration leaves the global state untouched (the teardown
of klp_free_patch_start removes everything that was partially built). -/
theorem klp_register_patch_err (env : KlpEnv) (patch : Option KlpPatch)
    (st : KlpState) :
    (klp_register_patch env patch st).1 ≠ 0 →
    (klp_register_patch env patch st).2 = st := by
  intro h
  rw [klp_register_patch.eq_def] at h ⊢
  rcases patch with _ | p
  · rfl
  · rcases hm : p.mod with _ | m <;> simp only [hm]
    rcases ho : p.objs with _ | objs <;> simp only [ho]
    split
    · rfl
    · split
      · rfl
      · split
        · rfl
        · split
          · rfl
          · simp only [hm, ho] at h
            split at h <;> split <;> simp_all

/-- A loaded-object initialization failure with -EINVAL propagates out of
klp_init_object for a base-image object whose descriptor validation passes. -/
theorem klp_init_object_propagates (env : KlpEnv) (obj : KlpObject)
    (hname : obj.name = none) (hval : validate_funcs (klp_obj_funcs obj) = 0)
    (hfail : (init_funcs_loaded env obj.name (klp_obj_funcs obj)).1 = -EINVAL) :
    (klp_init_object env obj).1 = -EINVAL := by
  simp only [klp_init_object, hname, hval]
  rw [if_neg (by simp)]
  rw [if_neg (by simp)]
  have hmod : klp_find_object_module env
      { name := none, funcs := obj.funcs, patched := false, mod := false } =
      (0, { name := none, funcs := obj.funcs, patched := false, mod := false }) := rfl
  simp only [hmod]
  rw [if_neg (by simp)]
  have hloaded : klp_is_object_loaded
      { name := none, funcs := obj.funcs, patched := false, mod := false } = true := rfl
  simp only [hloaded, if_true]
  have hio : (klp_init_object_loaded env
      { name := none, funcs := obj.funcs, patched := false, mod := false }).1 =
      -EINVAL := by
    rw [klp_init_object_loaded]
    have hfe : klp_obj_funcs
        { name := none, funcs := obj.funcs, patched := false, mod := false } =
        klp_obj_funcs obj := rfl
    rw [hfe]
    rw [show (({ name := none, funcs := obj.funcs, patched := false, mod := false } :
        KlpObject)).name = obj.name from by rw [hname]]
    exact hfail
  rw [if_pos (by rw [hio]; simp [EINVAL])]
  simpa using hio

/-- C6: in the direct-patch build, klp_init_object_loaded rejects with -EINVAL
any function whose resolved old size is below KLP_MAX_REPLACE_SIZE; the
rejection propagates out of klp_init_object, so no function with a smaller
footprint survives initialization (and a failed registration changes no state,
so no instruction byte has been touched). -/
theorem C6_min_size_check :
    (∀ (env : KlpEnv) (objname : Option String) (fs : List KlpFunc),
      (init_funcs_loaded env objname fs).1 = 0 →
      ∀ f ∈ (init_funcs_loaded env objname fs).2,
        KLP_MAX_REPLACE_SIZE ≤ f.old_size) ∧
    (∀ (env : KlpEnv) (obj : KlpObject) (g : KlpFunc) (rest : List KlpFunc)
      (addr sz : Nat),
      obj.funcs = some (g :: rest) →
      klp_find_object_symbol env obj.name (g.old_name.getD "") g.old_sympos =
        (0, addr) →
      env.sizes addr = some sz → sz < KLP_MAX_REPLACE_SIZE →
      (klp_init_object_loaded env obj).1 = -EINVAL) ∧
    (∀ (env : KlpEnv) (obj : KlpObject),
      obj.name = none → validate_funcs (klp_obj_funcs obj) = 0 →
      (init_funcs_loaded env obj.name (klp_obj_funcs obj)).1 = -EINVAL →
      (klp_init_object env obj).1 = -EINVAL) ∧
    (∀ (env : KlpEnv) (patch : Option KlpPatch) (st : KlpState),
      (klp_register_patch env patch st).1 ≠ 0 →
      (klp_register_patch env patch st).2 = st) := by
  refine ⟨?_, ?_, ?_, klp_register_patch_err⟩
  · intro env objname fs h1 f hf
    exact init_funcs_loaded_size env objname fs _ rfl h1 f hf
  · intro env obj g rest addr sz hfuncs hsym hsz hlt
    have hor : klp_obj_funcs obj = g :: rest := by
      rw [klp_obj_funcs, hfuncs]
      rfl
    rw [klp_init_object_loaded, hor]
    simp only [init_funcs_loaded, hsym]
    have hsign : ¬(LONG_SIGN_BOUND ≤ sz) := by
      rw [LONG_SIGN_BOUND, KLP_MAX_REPLACE_SIZE] at *
      omega
    simp [hsz, hsign, hlt]
  · intro env obj hname hval hfail
    exact klp_init_object_propagates env obj hname hval hfail

/-- C8: klp_register_patch rejects with -EINVAL (creating no state) a null
patch, a patch without a module or without objects, an object without
functions, a module not marked as a livepatch module, a duplicate
registration, and a function without a usable old name (a NULL name fails
descriptor validation; an empty name fails symbol resolution) or with
neither a new-function pointer nor a nop marker; every failing registration
leaves the global state exactly as it was (full teardown). -/
theorem C8_register_validation :
    (∀ (env : KlpEnv) (st : KlpState),
      klp_register_patch env none st = (-EINVAL, st)) ∧
    (∀ (env : KlpEnv) (st : KlpState) (p : KlpPatch), p.mod = none →
      klp_register_patch env (some p) st = (-EINVAL, st)) ∧
    (∀ (env : KlpEnv) (st : KlpState) (p : KlpPatch) (m : String),
      p.mod = some m → p.objs = none →
      klp_register_patch env (some p) st = (-EINVAL, st)) ∧
    (∀ (env : KlpEnv) (st : KlpState) (p : KlpPatch) (m : String)
      (objs : List KlpObject) (o : KlpObject),
      p.mod = some m → p.objs = some objs → o ∈ objs → o.funcs = none →
      klp_register_patch env (some p) st = (-EINVAL, st)) ∧
    (∀ (env : KlpEnv) (st : KlpState) (p : KlpPatch) (m : String)
      (objs : List KlpObject),
      p.mod = some m → p.objs = some objs →
      (objs.any fun o => o.funcs.isNone) = false →
      env.is_livepatch m = false →
      klp_register_patch env (some p) st = (-EINVAL, st)) ∧
    (∀ (env : KlpEnv) (st : KlpState) (p : KlpPatch) (m : String)
      (objs : List KlpObject),
      p.mod = some m → p.objs = some objs →
      (objs.any fun o => o.funcs.isNone) = false →
      env.is_livepatch m = true → env.initialized = true →
      klp_is_patch_registered st p = true →
      klp_register_patch env (some p) st = (-EINVAL, st)) ∧
    (∀ (env : KlpEnv) (st : KlpState) (p : KlpPatch) (m : String)
      (o : KlpObject) (os : List KlpObject) (g : KlpFunc) (gs : List KlpFunc),
      p.mod = some m → p.objs = some (o :: os) →
      ((o :: os).any fun ob => ob.funcs.isNone) = false →
      env.is_livepatch m = true → env.initialized = true →
      klp_is_patch_registered st p = false →
      o.name = none → o.funcs = some (g :: gs) →
      (g.old_name = none ∨ (g.new_func = 0 ∧ g.nop = false)) →
      klp_register_patch env (some p) st = (-EINVAL, st)) ∧
    (∀ (env : KlpEnv) (st : KlpState) (p : KlpPatch) (m : String)
      (o : KlpObject) (os : List KlpObject) (g : KlpFunc),
      p.mod = some m → p.objs = some (o :: os) →
      ((o :: os).any fun ob => ob.funcs.isNone) = false →
      env.is_livepatch m = true → env.initialized = true →
      klp_is_patch_registered st p = false →
      o.name = none → o.funcs = some [g] →
      g.old_name = some "" → (g.new_func = 0 ∧ g.nop = false → False) →
      (∀ s ∈ env.symtab none, s.1 ≠ "") →
      klp_register_patch env (some p) st = (-EINVAL, st)) ∧
    (∀ (env : KlpEnv) (patch : Option KlpPatch) (st : KlpState),
      (klp_register_patch env patch st).1 ≠ 0 →
      (klp_register_patch env patch st).2 = st) := by
  refine ⟨?_, ?_, ?_, ?_, ?_, ?_, ?_, ?_, klp_register_patch_err⟩
  · intro env st
    rfl
  · intro env st p hm
    simp [klp_register_patch, hm]
  · intro env st p m hm ho
    simp [klp_register_patch, hm, ho]
  · intro env st p m objs o hm ho hmem hfuncs
    have hany : (objs.any fun ob => ob.funcs.isNone) = true := by
      rw [List.any_eq_true]
      exact ⟨o, hmem, by rw [hfuncs]; rfl⟩
    simp [klp_register_patch, hm, ho, hany]
  · intro env st p m objs hm ho hany hlp
    simp [klp_register_patch, hm, ho, hany, hlp]
  · intro env st p m objs hm ho hany hlp hinit hreg
    simp [klp_register_patch, hm, ho, hany, hlp, hinit, hreg]
  · intro env st p m o os g gs hm ho hany hlp hinit hreg hon hof hbad
    simp only [klp_register_patch, hm, ho, hany, hlp, hinit, hreg]
    have hfuncs_eq : klp_obj_funcs (klp_init_object_early o) =
        klp_init_func_early g :: gs.map klp_init_func_early := by
      simp [klp_init_object_early, klp_obj_funcs, hof]
    have hval : validate_funcs (klp_obj_funcs (klp_init_object_early o)) =
        -EINVAL := by
      rw [hfuncs_eq]
      rcases hbad with hb | hb
      · simp [validate_funcs, klp_init_func_early, hb]
      · rcases hgo : g.old_name with _ | nm
        · simp [validate_funcs, klp_init_func_early, hgo]
        · simp [validate_funcs, klp_init_func_early, hgo, hb.1, hb.2]
    have hio : (klp_init_object env (klp_init_object_early o)).1 = -EINVAL := by
      rw [klp_init_object]
      have hn : (klp_init_object_early o).name = o.name := rfl
      rw [if_neg (by rw [hn, hon]; simp)]
      simp only [hval]
      rw [if_pos (by simp [EINVAL])]
    have hobjs_eq : klp_patch_objs (klp_init_patch_early p) =
        klp_init_object_early o :: os.map klp_init_object_early := by
      simp [klp_init_patch_early, klp_patch_objs, ho]
    have hios : (init_objs env (klp_patch_objs (klp_init_patch_early p))).1 =
        -EINVAL := by
      rw [hobjs_eq, init_objs]
      simp only [hio]
      rw [if_pos (by simp [EINVAL])]
    have hip : (klp_init_patch env (klp_init_patch_early p) st).1 = -EINVAL := by
      rw [klp_init_patch]
      simp only [hios]
      rw [if_pos (by simp [EINVAL])]
    rw [if_neg (by simp), if_neg (by simp), if_neg (by simp), if_neg (by simp),
      if_pos (by rw [hip]; simp [EINVAL])]
    rw [hip]
  · intro env st p m o os g hm ho hany hlp hinit hreg hon hof hname hng hsym
    simp only [klp_register_patch, hm, ho, hany, hlp, hinit, hreg]
    have hfuncs_eq : klp_obj_funcs (klp_init_object_early o) =
        [klp_init_func_early g] := by
      simp [klp_init_object_early, klp_obj_funcs, hof]
    have hval0 : validate_funcs (klp_obj_funcs (klp_init_object_early o)) = 0 := by
      rw [hfuncs_eq]
      simp [validate_funcs, klp_init_func_early, hname, KSYM_NAME_LEN]
      intro h1 h2
      exact absurd ⟨h1, h2⟩ hng
    have hoccs : klp_occurrences env none "" = [] := by
      rw [klp_occurrences]
      have hf : (env.symtab none).filter
          (fun (s : String × Nat) => s.1 == "") = [] := by
        rw [List.filter_eq_nil_iff]
        intro s hs
        simpa using hsym s hs
      rw [hf]
      rfl
    have hfind : klp_find_object_symbol env none
        ((klp_init_func_early g).old_name.getD "")
        (klp_init_func_early g).old_sympos = (-EINVAL, 0) := by
      have hgn : (klp_init_func_early g).old_name = some "" := by
        rw [klp_init_func_early] at *
        simpa using hname
      rw [hgn]
      rw [klp_find_object_symbol_eq]
      simp only [Option.getD_some, hoccs, kallsyms_match_iterate]
      rfl
    have hename : (klp_init_object_early o).name = none := by
      simp [klp_init_object_early, hon]
    have hifl : (init_funcs_loaded env (klp_init_object_early o).name
        (klp_obj_funcs (klp_init_object_early o))).1 = -EINVAL := by
      rw [hfuncs_eq, hename, init_funcs_loaded]
      simp only [hfind]
      rw [if_pos (by simp [EINVAL])]
    have hio : (klp_init_object env (klp_init_object_early o)).1 = -EINVAL :=
      klp_init_object_propagates env (klp_init_object_early o) hename hval0 hifl
    have hobjs_eq : klp_patch_objs (klp_init_patch_early p) =
        klp_init_object_early o :: os.map klp_init_object_early := by
      simp [klp_init_patch_early, klp_patch_objs, ho]
    have hios : (init_objs env (klp_patch_objs (klp_init_patch_early p))).1 =
        -EINVAL := by
      rw [hobjs_eq, init_objs]
      simp only [hio]
      rw [if_pos (by simp [EINVAL])]
    have hip : (klp_init_patch env (klp_init_patch_early p) st).1 = -EINVAL := by
      rw [klp_init_patch]
      simp only [hios]
      rw [if_pos (by simp [EINVAL])]
    rw [if_neg (by simp), if_neg (by simp), if_neg (by simp), if_neg (by simp),
      if_pos (by rw [hip]; simp [EINVAL])]
    rw [hip]

/-! ## Node-stack algebra for the rollback and lifecycle proofs -/

/-- The stack entry a function pushes, together with its node key. -/
def fentry (f : KlpFunc) : Nat × StackEntry :=
  (f.old_func, { new_func := f.new_func, new_size := f.new_size })

def pushList : Nodes → List (Nat × StackEntry) → Nodes
  | ns, [] => ns
  | ns, (k, e) :: rest => pushList (push_node ns k e) rest

def popList : Nodes → List (Nat × StackEntry) → Nodes
  | ns, [] => ns
  | ns, (k, e) :: rest => popList (pop_node ns k e.new_func) rest

def setPatched (f : KlpFunc) : KlpFunc := { f with patched := true }
def setNode (f : KlpFunc) : KlpFunc := { f with func_node := some f.old_func }
def clearNode (f : KlpFunc) : KlpFunc := { f with func_node := none }
def funcKeys (fs : List KlpFunc) : List Nat := fs.map (fun f => f.old_func)
def visitedKeys (fs : List KlpFunc) : List Nat :=
  fs.filterMap (fun f => f.func_node)
def nodeKeys (ns : Nodes) : List Nat := ns.map (fun n => n.old_func)
def entriesOf (fs : List KlpFunc) : List (Nat × StackEntry) := fs.map fentry

theorem push_pop_cancel (ns : Nodes) (k : Nat) (e : StackEntry) :
    pop_node (push_node ns k e) k e.new_func = ns := by
  rw [push_node, pop_node, List.map_map]
  have hpt : ∀ n ∈ ns, ((fun n => if n.old_func == k then
      { n with func_stack := n.func_stack.eraseP (fun x => x.new_func == e.new_func) }
      else n) ∘ (fun n => if n.old_func == k then
      { n with func_stack := e :: n.func_stack } else n)) n = n := by
    intro n _
    by_cases h : n.old_func = k
    · cases n
      simp_all
    · simp [h]
  rw [List.map_congr_left hpt]
  exact List.map_id ns

theorem pop_push_comm (ns : Nodes) (k k2 : Nat) (nf : Nat) (e2 : StackEntry)
    (h : k ≠ k2) :
    pop_node (push_node ns k2 e2) k nf = push_node (pop_node ns k nf) k2 e2 := by
  rw [push_node, pop_node, push_node, pop_node, List.map_map, List.map_map]
  apply List.map_congr_left
  intro n _
  by_cases h1 : n.old_func = k
  · simp [h1, h]
  · by_cases h2 : n.old_func = k2
    · simp [h1, h2, Ne.symm h]
    · simp [h1, h2]

theorem pop_pop_comm (ns : Nodes) (k k2 nf nf2 : Nat) (h : k ≠ k2) :
    pop_node (pop_node ns k2 nf2) k nf = pop_node (pop_node ns k nf) k2 nf2 := by
  rw [pop_node, pop_node, pop_node, pop_node, List.map_map, List.map_map]
  apply List.map_congr_left
  intro n _
  by_cases h1 : n.old_func = k
  · simp [h1, h]
  · by_cases h2 : n.old_func = k2
    · simp [h1, h2, Ne.symm h]
    · simp [h1, h2]

theorem pop_pushList_comm : ∀ (L : List (Nat × StackEntry)) (ns : Nodes)
    (k nf : Nat), k ∉ L.map Prod.fst →
    pop_node (pushList ns L) k nf = pushList (pop_node ns k nf) L
  | [], ns, k, nf => by
    intro _
    rfl
  | (k2, e2) :: rest, ns, k, nf => by
    intro hk
    simp only [List.map_cons, List.mem_cons] at hk
    push_neg at hk
    rw [pushList, pushList, pop_pushList_comm rest _ k nf hk.2,
      pop_push_comm ns k k2 nf e2 hk.1]

theorem popList_pushList_cancel : ∀ (L : List (Nat × StackEntry)) (ns : Nodes),
    (L.map Prod.fst).Nodup → popList (pushList ns L) L = ns
  | [], ns => by
    intro _
    rfl
  | (k, e) :: rest, ns => by
    intro hnd
    simp only [List.map_cons, List.nodup_cons] at hnd
    rw [pushList, popList, pop_pushList_comm rest _ k e.new_func hnd.1,
      push_pop_cancel, popList_pushList_cancel rest ns hnd.2]

/-! ## Factorisation of the unpatch walks -/

/-- The function-descriptor effect of one unpatch step. -/
def ufunc (f : KlpFunc) : KlpFunc :=
  if f.patched ∧ f.old_func ≠ 0 ∧ f.func_node.isSome then
    { f with patched := false }
  else f

/-- The node-list effect of one unpatch step. -/
def ueffect (f : KlpFunc) (ns : Nodes) : Nodes :=
  if f.patched ∧ f.old_func ≠ 0 ∧ f.func_node.isSome then
    pop_node ns (f.func_node.getD 0) f.new_func
  else ns

/-- The events of one unpatch step. -/
def uevents (f : KlpFunc) : Events :=
  if f.patched ∧ f.old_func ≠ 0 ∧ f.func_node.isSome then
    [KlpEvent.unpatchWrite f.old_func]
  else []

def ufold : List KlpFunc → Nodes → Nodes
  | [], ns => ns
  | f :: rest, ns => ufold rest (ueffect f ns)

def uevs : List KlpFunc → Events
  | [] => []
  | f :: rest => uevents f ++ uevs rest

theorem unpatch_step_eq (f : KlpFunc) (ns : Nodes) :
    (if f.patched then klp_unpatch_func f ns else (f, ns, [])) =
      (ufunc f, ueffect f ns, uevents f) := by
  rw [ufunc, ueffect, uevents]
  by_cases h1 : f.patched
  · by_cases h2 : f.old_func = 0
    · simp [h1, h2, klp_unpatch_func]
    · rcases h3 : f.func_node with _ | key
      · simp [h1, h2, h3, klp_unpatch_func]
      · simp [h1, h2, h3, klp_unpatch_func, arch_klp_unpatch_func]
  · simp [h1]

theorem unpatch_funcs_eq : ∀ (fs : List KlpFunc) (ns : Nodes),
    unpatch_funcs fs ns = (fs.map ufunc, ufold fs ns, uevs fs)
  | [], ns => rfl
  | f :: rest, ns => by
    rw [unpatch_funcs, unpatch_step_eq, unpatch_funcs_eq rest, List.map_cons,
      ufold, uevs]

theorem ufunc_of_unpatched (f : KlpFunc) (h : f.patched = false) :
    ufunc f = f := by
  simp [ufunc, h]

theorem ueffect_of_unpatched (f : KlpFunc) (h : f.patched = false)
    (ns : Nodes) : ueffect f ns = ns := by
  simp [ueffect, h]

theorem ufold_of_unpatched : ∀ (fs : List KlpFunc) (ns : Nodes),
    (∀ f ∈ fs, f.patched = false) → ufold fs ns = ns
  | [], ns => by
    intro _
    rfl
  | f :: rest, ns => by
    intro h
    rw [ufold, ueffect_of_unpatched f (h f (by simp)),
      ufold_of_unpatched rest ns (fun g hg => h g (List.mem_cons_of_mem _ hg))]

theorem unpatch_funcs_id (fs : List KlpFunc) (ns : Nodes)
    (h : ∀ f ∈ fs, f.patched = false) : unpatch_funcs fs ns = (fs, ns, uevs fs) := by
  rw [unpatch_funcs_eq]
  have h1 : fs.map ufunc = fs :=
    List.map_congr_left (fun f hf => ufunc_of_unpatched f (h f hf)) |>.trans
      (List.map_id fs)
  rw [h1, ufold_of_unpatched fs ns h]

theorem ueffect_pop_comm (f : KlpFunc) (ns : Nodes) (k nf : Nat)
    (h : ∀ k2, f.func_node = some k2 → k2 ≠ k) :
    ueffect f (pop_node ns k nf) = pop_node (ueffect f ns) k nf := by
  rw [ueffect, ueffect]
  split
  · rename_i hc
    rcases h3 : f.func_node with _ | key
    · rw [h3] at hc
      simp at hc
    · simp only [Option.getD_some]
      exact pop_pop_comm ns key k f.new_func nf (h key h3)
  · rfl

theorem ufold_pop_comm : ∀ (fs : List KlpFunc) (ns : Nodes) (k nf : Nat),
    (∀ f ∈ fs, ∀ k2, f.func_node = some k2 → k2 ≠ k) →
    ufold fs (pop_node ns k nf) = pop_node (ufold fs ns) k nf
  | [], ns, k, nf => by
    intro _
    rfl
  | f :: rest, ns, k, nf => by
    intro h
    rw [ufold, ueffect_pop_comm f ns k nf (h f (by simp)), ufold,
      ufold_pop_comm rest _ k nf (fun g hg => h g (List.mem_cons_of_mem _ hg))]

theorem ufunc_setPatched (f : KlpFunc) (hp : f.patched = false)
    (ho : f.old_func ≠ 0) (hn : f.func_node = some f.old_func) :
    ufunc (setPatched f) = f := by
  rw [ufunc, setPatched]
  rw [if_pos (by simp [ho, hn])]
  cases f
  simp_all

theorem ueffect_setPatched (f : KlpFunc) (ho : f.old_func ≠ 0)
    (hn : f.func_node = some f.old_func) (ns : Nodes) :
    ueffect (setPatched f) ns = pop_node ns f.old_func f.new_func := by
  rw [ueffect, setPatched]
  rw [if_pos (by simp [ho, hn])]
  simp [hn]

theorem ufold_setPatched : ∀ (fs : List KlpFunc) (ns : Nodes),
    (∀ f ∈ fs, f.old_func ≠ 0 ∧ f.func_node = some f.old_func) →
    ufold (fs.map setPatched) ns = popList ns (entriesOf fs)
  | [], ns => by
    intro _
    rfl
  | f :: rest, ns => by
    intro h
    rw [List.map_cons, ufold,
      ueffect_setPatched f (h f (by simp)).1 (h f (by simp)).2,
      ufold_setPatched rest _ (fun g hg => h g (List.mem_cons_of_mem _ hg))]
    rfl

/-! ## Patch-side characterisations -/

theorem klp_patch_func_fail (env : KlpEnv) (f : KlpFunc) (ns : Nodes)
    (h : (klp_patch_func env f ns).1 ≠ 0) :
    ∃ c, c ≠ 0 ∧ klp_patch_func env f ns = (c, f, ns, []) := by
  refine ⟨-EINVAL, by simp [EINVAL], ?_⟩
  by_cases h1 : f.patched
  · simp [klp_patch_func, h1] at h
  · by_cases h2 : f.old_func = 0
    · simp [klp_patch_func, h1, h2]
    · rcases h3 : f.func_node with _ | key
      · simp [klp_patch_func, h1, h2, h3]
      · by_cases h4 : env.arch_patch_ok f.old_func
        · simp [klp_patch_func, arch_klp_patch_func, h1, h2, h3, h4] at h
        · simp [klp_patch_func, arch_klp_patch_func, h1, h2, h3, h4, EINVAL]

theorem klp_patch_func_succ (env : KlpEnv) (f : KlpFunc) (ns : Nodes)
    (hp : f.patched = false) (h : (klp_patch_func env f ns).1 = 0) :
    f.old_func ≠ 0 ∧
    klp_patch_func env f ns =
      (0, setPatched f, push_node ns (f.func_node.getD 0) (fentry f).2,
       [KlpEvent.patchWrite f.old_func]) := by
  by_cases h2 : f.old_func = 0
  · simp [klp_patch_func, hp, h2, EINVAL] at h
  · rcases h3 : f.func_node with _ | key
    · simp [klp_patch_func, hp, h2, h3, EINVAL] at h
    · by_cases h4 : env.arch_patch_ok f.old_func
      · refine ⟨h2, ?_⟩
        simp [klp_patch_func, arch_klp_patch_func, hp, h2, h3, h4, setPatched,
          fentry]
      · simp [klp_patch_func, arch_klp_patch_func, hp, h2, h3, h4, EINVAL] at h

theorem klp_patch_func_keys (env : KlpEnv) (f : KlpFunc) (ns : Nodes) :
    (klp_patch_func env f ns).2.1.old_func = f.old_func ∧
    (klp_patch_func env f ns).2.1.func_node = f.func_node ∧
    (klp_patch_func env f ns).2.1.new_func = f.new_func ∧
    (klp_patch_func env f ns).2.1.new_size = f.new_size := by
  by_cases h1 : f.patched
  · simp [klp_patch_func, h1]
  · by_cases h2 : f.old_func = 0
    · simp [klp_patch_func, h1, h2]
    · rcases h3 : f.func_node with _ | key
      · simp [klp_patch_func, h1, h2, h3]
      · by_cases h4 : env.arch_patch_ok f.old_func
        · simp [klp_patch_func, arch_klp_patch_func, h1, h2, h3, h4]
        · simp [klp_patch_func, arch_klp_patch_func, h1, h2, h3, h4, EINVAL]

/-- The patch walk preserves every function's identifying fields. -/
theorem patch_funcs_keys (env : KlpEnv) : ∀ (fs : List KlpFunc) (ns : Nodes),
    (patch_funcs env fs ns).2.1.map
      (fun f => (f.old_func, f.func_node, f.new_func, f.new_size)) =
      fs.map (fun f => (f.old_func, f.func_node, f.new_func, f.new_size))
  | [], ns => rfl
  | f :: rest, ns => by
    rw [patch_funcs]
    have hk := klp_patch_func_keys env f ns
    split
    · simp only [List.map_cons, hk.1, hk.2.1, hk.2.2.1, hk.2.2.2]
      rw [patch_funcs_keys env rest]
    · simp only [List.map_cons, hk.1, hk.2.1, hk.2.2.1, hk.2.2.2]

theorem patch_funcs_roundtrip (env : KlpEnv) : ∀ (fs : List KlpFunc) (ns : Nodes),
    (∀ f ∈ fs, f.patched = false ∧ f.func_node = some f.old_func) →
    (funcKeys fs).Nodup →
    (patch_funcs env fs ns).1 ≠ 0 →
    (patch_funcs env fs ns).2.1.map ufunc = fs ∧
    ufold (patch_funcs env fs ns).2.1 (patch_funcs env fs ns).2.2.1 = ns
  | [], ns => by
    intro _ _ h
    simp [patch_funcs] at h
  | f :: rest, ns => by
    intro hready hnd h
    have hf := hready f (by simp)
    have hrest : ∀ g ∈ rest, g.patched = false ∧ g.func_node = some g.old_func :=
      fun g hg => hready g (List.mem_cons_of_mem _ hg)
    have hndr : (funcKeys rest).Nodup := by
      rw [funcKeys] at hnd ⊢
      simp only [List.map_cons, List.nodup_cons] at hnd
      exact hnd.2
    have hnotin : f.old_func ∉ funcKeys rest := by
      rw [funcKeys] at hnd
      simp only [List.map_cons, List.nodup_cons] at hnd
      simpa [funcKeys] using hnd.1
    by_cases hr1 : (klp_patch_func env f ns).1 = 0
    · obtain ⟨ho, heq⟩ := klp_patch_func_succ env f ns hf.1 hr1
      simp only [patch_funcs, heq, hf.2, Option.getD_some] at h ⊢
      rw [if_pos trivial] at h ⊢
      set ns1 := push_node ns f.old_func (fentry f).2 with hns1
      have hr2 : (patch_funcs env rest ns1).1 ≠ 0 := h
      obtain ⟨ih1, ih2⟩ := patch_funcs_roundtrip env rest ns1 hrest hndr hr2
      have hkeys : ∀ g ∈ (patch_funcs env rest ns1).2.1, ∀ k2,
          g.func_node = some k2 → k2 ≠ f.old_func := by
        intro g hg k2 hgk
        have hmem : (g.old_func, g.func_node, g.new_func, g.new_size) ∈
            rest.map (fun f => (f.old_func, f.func_node, f.new_func, f.new_size)) := by
          rw [← patch_funcs_keys env rest ns1]
          exact List.mem_map_of_mem _ hg
        obtain ⟨r0, hr0, hproj⟩ := List.mem_map.mp hmem
        have h1g : r0.func_node = g.func_node := by
          have := congrArg (fun x => x.2.1) hproj
          simpa using this
        have h2g : r0.func_node = some r0.old_func := (hrest r0 hr0).2
        have hk2 : k2 = r0.old_func := by
          rw [hgk] at h1g
          rw [h2g] at h1g
          exact (Option.some_inj.mp h1g).symm
        intro hcontra
        apply hnotin
        rw [← hcontra, hk2] at *
        exact List.mem_map_of_mem _ hr0
      constructor
      · rw [List.map_cons, ufunc_setPatched f hf.1 ho hf.2, ih1]
      · rw [ufold, ueffect_setPatched f ho hf.2,
          ufold_pop_comm _ _ _ _ hkeys, ih2, hns1]
        exact push_pop_cancel ns f.old_func (fentry f).2
    · obtain ⟨c, hc, heq⟩ := klp_patch_func_fail env f ns hr1
      simp only [patch_funcs, heq] at h ⊢
      rw [if_neg hc] at h ⊢
      constructor
      · have hid : ∀ g ∈ f :: rest, g.patched = false := by
          intro g hg
          exact (hready g hg).1
        have := List.map_congr_left
          (fun g hg => ufunc_of_unpatched g (hid g hg))
        rw [this]
        exact List.map_id _
      · exact ufold_of_unpatched _ _ (fun g hg => (hready g hg).1)

/-! ## Object-level factorisation -/

theorem klp_obj_funcs_refold (o : KlpObject) :
    o.funcs.map (fun _ => klp_obj_funcs o) = o.funcs := by
  cases hf : o.funcs <;> simp [klp_obj_funcs, hf]

def oufunc (o : KlpObject) : KlpObject :=
  if o.patched then
    { o with
      funcs := o.funcs.map (fun _ => (klp_obj_funcs o).map ufunc)
      patched := false }
  else o

def oueffect (o : KlpObject) (ns : Nodes) : Nodes :=
  if o.patched then ufold (klp_obj_funcs o) ns else ns

def ouevs (o : KlpObject) : Events :=
  if o.patched then uevs (klp_obj_funcs o) else []

def ofold : List KlpObject → Nodes → Nodes
  | [], ns => ns
  | o :: rest, ns => ofold rest (oueffect o ns)

def oevsL : List KlpObject → Events
  | [] => []
  | o :: rest => ouevs o ++ oevsL rest

theorem klp_unpatch_object_eq (o : KlpObject) (ns : Nodes) :
    klp_unpatch_object o ns =
      ({ o with
         funcs := o.funcs.map (fun _ => (klp_obj_funcs o).map ufunc)
         patched := false },
       ufold (klp_obj_funcs o) ns, uevs (klp_obj_funcs o)) := by
  rw [klp_unpatch_object, unpatch_funcs_eq]

theorem unpatch_objs_eq : ∀ (os : List KlpObject) (ns : Nodes),
    unpatch_objs os ns = (os.map oufunc, ofold os ns, oevsL os)
  | [], ns => rfl
  | o :: rest, ns => by
    rw [unpatch_objs]
    have hstep : (if o.patched then klp_unpatch_object o ns else (o, ns, [])) =
        (oufunc o, oueffect o ns, ouevs o) := by
      by_cases hp : o.patched
      · rw [if_pos hp, klp_unpatch_object_eq, oufunc, oueffect, ouevs,
          if_pos hp, if_pos hp, if_pos hp]
      · rw [if_neg hp, oufunc, oueffect, ouevs, if_neg hp, if_neg hp, if_neg hp]
    rw [hstep, unpatch_objs_eq rest, List.map_cons, ofold, oevsL]

theorem oufunc_of_unpatched (o : KlpObject) (h : o.patched = false) :
    oufunc o = o := by
  simp [oufunc, h]

theorem ofold_of_unpatched : ∀ (os : List KlpObject) (ns : Nodes),
    (∀ o ∈ os, o.patched = false) → ofold os ns = ns
  | [], ns => by
    intro _
    rfl
  | o :: rest, ns => by
    intro h
    rw [ofold, oueffect, if_neg (by simp [h o (by simp)]),
      ofold_of_unpatched rest ns (fun g hg => h g (List.mem_cons_of_mem _ hg))]

theorem oueffect_pop_comm (o : KlpObject) (ns : Nodes) (k nf : Nat)
    (h : ∀ f ∈ klp_obj_funcs o, ∀ k2, f.func_node = some k2 → k2 ≠ k) :
    oueffect o (pop_node ns k nf) = pop_node (oueffect o ns) k nf := by
  rw [oueffect, oueffect]
  split
  · exact ufold_pop_comm _ ns k nf h
  · rfl

theorem ofold_pop_comm : ∀ (os : List KlpObject) (ns : Nodes) (k nf : Nat),
    (∀ o ∈ os, ∀ f ∈ klp_obj_funcs o, ∀ k2, f.func_node = some k2 → k2 ≠ k) →
    ofold os (pop_node ns k nf) = pop_node (ofold os ns) k nf
  | [], ns, k, nf => by
    intro _
    rfl
  | o :: rest, ns, k, nf => by
    intro h
    rw [ofold, oueffect_pop_comm o ns k nf (h o (by simp)), ofold,
      ofold_pop_comm rest _ k nf (fun g hg => h g (List.mem_cons_of_mem _ hg))]

theorem ofold_popList_comm : ∀ (L : List (Nat × StackEntry))
    (os : List KlpObject) (ns : Nodes),
    (∀ o ∈ os, ∀ f ∈ klp_obj_funcs o, ∀ k2, f.func_node = some k2 →
      k2 ∉ L.map Prod.fst) →
    ofold os (popList ns L) = popList (ofold os ns) L
  | [], os, ns => by
    intro _
    rfl
  | (k, e) :: rest, os, ns => by
    intro h
    rw [popList, popList, ofold_popList_comm rest os _
      (fun o ho f hf k2 hk2 => by
        have := h o ho f hf k2 hk2
        simp only [List.map_cons, List.mem_cons] at this
        push_neg at this
        exact this.2),
      ofold_pop_comm os ns k e.new_func
      (fun o ho f hf k2 hk2 => by
        have := h o ho f hf k2 hk2
        simp only [List.map_cons, List.mem_cons] at this
        push_neg at this
        exact this.1)]

theorem entriesOf_keys (fs : List KlpFunc) :
    (entriesOf fs).map Prod.fst = funcKeys fs := by
  rw [entriesOf, funcKeys, List.map_map]
  rfl

theorem ufunc_proj (f : KlpFunc) :
    (ufunc f).old_func = f.old_func ∧ (ufunc f).func_node = f.func_node ∧
    (ufunc f).new_func = f.new_func ∧ (ufunc f).new_size = f.new_size := by
  rw [ufunc]
  split <;> simp

/-- The identifying fields of every function of an object. -/
def okeys (o : KlpObject) : List (Nat × Option Nat × Nat × Nat) :=
  (klp_obj_funcs o).map (fun f => (f.old_func, f.func_node, f.new_func, f.new_size))

theorem map_ufunc_proj (fs : List KlpFunc) :
    (fs.map ufunc).map
      (fun f => (f.old_func, f.func_node, f.new_func, f.new_size)) =
      fs.map (fun f => (f.old_func, f.func_node, f.new_func, f.new_size)) := by
  rw [List.map_map]
  apply List.map_congr_left
  intro f _
  have h := ufunc_proj f
  simp [h.1, h.2.1, h.2.2.1, h.2.2.2]

theorem patch_funcs_succ (env : KlpEnv) : ∀ (fs : List KlpFunc) (ns : Nodes),
    (∀ f ∈ fs, f.patched = false ∧ f.func_node = some f.old_func) →
    (patch_funcs env fs ns).1 = 0 →
    (patch_funcs env fs ns).2.1 = fs.map setPatched ∧
    (patch_funcs env fs ns).2.2.1 = pushList ns (entriesOf fs) ∧
    ∀ f ∈ fs, f.old_func ≠ 0
  | [], ns => by
    intro _ _
    exact ⟨rfl, rfl, by simp⟩
  | f :: rest, ns => by
    intro hready h
    have hf := hready f (by simp)
    have hrest : ∀ g ∈ rest, g.patched = false ∧ g.func_node = some g.old_func :=
      fun g hg => hready g (List.mem_cons_of_mem _ hg)
    by_cases hr1 : (klp_patch_func env f ns).1 = 0
    · obtain ⟨ho, heq⟩ := klp_patch_func_succ env f ns hf.1 hr1
      simp only [patch_funcs, heq, hf.2, Option.getD_some] at h ⊢
      rw [if_pos trivial] at h ⊢
      obtain ⟨ih1, ih2, ih3⟩ := patch_funcs_succ env rest
        (push_node ns f.old_func (fentry f).2) hrest h
      refine ⟨by rw [List.map_cons, ih1], by rw [ih2]; rfl, ?_⟩
      intro g hg
      rcases List.mem_cons.mp hg with hg | hg
      · rw [hg]
        exact ho
      · exact ih3 g hg
    · obtain ⟨c, hc, heq⟩ := klp_patch_func_fail env f ns hr1
      simp only [patch_funcs, heq] at h
      rw [if_neg hc] at h
      exact absurd h hc

theorem klp_patch_object_roundtrip (env : KlpEnv) (o : KlpObject) (ns : Nodes)
    (hp : o.patched = false)
    (hready : ∀ f ∈ klp_obj_funcs o,
      f.patched = false ∧ f.func_node = some f.old_func)
    (hnd : (funcKeys (klp_obj_funcs o)).Nodup)
    (h : (klp_patch_object env o ns).1 ≠ 0) :
    (klp_patch_object env o ns).2.1 = o ∧
    (klp_patch_object env o ns).2.2.1 = ns := by
  by_cases hr : (patch_funcs env (klp_obj_funcs o) ns).1 = 0
  · exfalso
    apply h
    simp [klp_patch_object, hp, hr]
  · obtain ⟨hrt1, hrt2⟩ := patch_funcs_roundtrip env (klp_obj_funcs o) ns
      hready hnd hr
    rcases hof : o.funcs with _ | fs0
    · exfalso
      apply hr
      have : klp_obj_funcs o = [] := by
        rw [klp_obj_funcs, hof]
        rfl
      rw [this]
      rfl
    · have hfs0 : klp_obj_funcs o = fs0 := by
        rw [klp_obj_funcs, hof]
        rfl
      simp only [klp_patch_object, hp, Bool.false_eq_true, if_false,
        if_neg hr, klp_unpatch_object_eq]
      rw [klp_obj_funcs] at hrt1 hrt2
      constructor
      · simp only [hof, Option.map_some, Option.map_some', Option.getD_some,
          klp_obj_funcs]
        rw [show (o.funcs.getD [] : List KlpFunc) = fs0 from by rw [hof]; rfl]
          at hrt1
        rw [hrt1]
        cases o
        simp_all
      · simp only [hof, Option.map_some, Option.map_some', Option.getD_some,
          klp_obj_funcs]
        rw [show (o.funcs.getD [] : List KlpFunc) = fs0 from by rw [hof]; rfl]
          at hrt2
        exact hrt2

theorem klp_patch_object_okeys (env : KlpEnv) (o : KlpObject) (ns : Nodes) :
    okeys ((klp_patch_object env o ns).2.1) = okeys o := by
  by_cases hp : o.patched
  · simp [klp_patch_object, hp]
  · rcases hof : o.funcs with _ | fs0
    · have hempty : klp_obj_funcs o = [] := by
        rw [klp_obj_funcs, hof]
        rfl
      simp [klp_patch_object, hp, okeys, klp_obj_funcs, hof,
        klp_unpatch_object_eq, patch_funcs]
    · have hfs0 : klp_obj_funcs o = fs0 := by
        rw [klp_obj_funcs, hof]
        rfl
      have hpk := patch_funcs_keys env fs0 ns
      rw [okeys, okeys, hfs0]
      by_cases hr : (patch_funcs env fs0 ns).1 = 0
      · simp [klp_patch_object, hp, hfs0, hr, klp_obj_funcs, hof]
        exact hpk
      · simp [klp_patch_object, hp, hfs0, hr, klp_obj_funcs, hof,
          klp_unpatch_object_eq]
        rw [show ((fun (f : KlpFunc) =>
            (f.old_func, f.func_node, f.new_func, f.new_size)) ∘ ufunc) =
          (fun f => (f.old_func, f.func_node, f.new_func, f.new_size)) from by
            funext f
            have h := ufunc_proj f
            simp [Function.comp, h.1, h.2.1, h.2.2.1, h.2.2.2]]
        exact hpk


theorem klp_patch_object_succ (env : KlpEnv) (o : KlpObject) (ns : Nodes)
    (hp : o.patched = false)
    (hready : ∀ f ∈ klp_obj_funcs o,
      f.patched = false ∧ f.func_node = some f.old_func)
    (h : (klp_patch_object env o ns).1 = 0) :
    (klp_patch_object env o ns).2.1 =
      { o with
        funcs := o.funcs.map (fun _ => (klp_obj_funcs o).map setPatched)
        patched := true } ∧
    (klp_patch_object env o ns).2.2.1 =
      pushList ns (entriesOf (klp_obj_funcs o)) ∧
    (∀ f ∈ klp_obj_funcs o, f.old_func ≠ 0) := by
  by_cases hr : (patch_funcs env (klp_obj_funcs o) ns).1 = 0
  · obtain ⟨h1, h2, h3⟩ := patch_funcs_succ env _ ns hready hr
    refine ⟨?_, ?_, h3⟩
    · simp only [klp_patch_object, hp, Bool.false_eq_true, if_false, if_pos hr]
      rw [h1]
    · simp only [klp_patch_object, hp, Bool.false_eq_true, if_false, if_pos hr]
      rw [h2]
  · exfalso
    apply hr
    simp only [klp_patch_object, hp, Bool.false_eq_true, if_false,
      if_neg hr] at h
    exact absurd h hr

theorem enable_objs_okeys (env : KlpEnv) : ∀ (os : List KlpObject) (ns : Nodes),
    ((enable_objs env os ns).2.1).map okeys = os.map okeys
  | [], ns => rfl
  | o :: rest, ns => by
    rw [enable_objs]
    by_cases hl : klp_is_object_loaded o
    · simp only [hl, Bool.not_true, Bool.false_eq_true, if_false]
      by_cases hr : (klp_patch_object env o ns).1 = 0
      · rw [if_pos hr]
        simp only [List.map_cons]
        rw [klp_patch_object_okeys, enable_objs_okeys env rest]
      · rw [if_neg hr]
        simp only [List.map_cons]
        rw [klp_patch_object_okeys]
    · simp only [hl, Bool.not_false, if_true, List.map_cons]
      rw [enable_objs_okeys env rest]


theorem oufunc_setPatched_obj (o : KlpObject) (hp : o.patched = false)
    (hready : ∀ f ∈ klp_obj_funcs o,
      f.patched = false ∧ f.func_node = some f.old_func)
    (hnz : ∀ f ∈ klp_obj_funcs o, f.old_func ≠ 0) :
    oufunc { o with
      funcs := o.funcs.map (fun _ => (klp_obj_funcs o).map setPatched)
      patched := true } = o := by
  have hmap : ((klp_obj_funcs o).map setPatched).map ufunc =
      klp_obj_funcs o := by
    rw [List.map_map]
    have hpt : ∀ f ∈ klp_obj_funcs o, (ufunc ∘ setPatched) f = f := by
      intro f hf
      exact ufunc_setPatched f (hready f hf).1 (hnz f hf) (hready f hf).2
    rw [List.map_congr_left hpt]
    exact List.map_id' _
  rcases o with ⟨name, fns, patched, mo⟩
  rcases fns with _ | fs0
  · simp_all [oufunc, klp_obj_funcs]
  · simp_all [oufunc, klp_obj_funcs]

theorem oueffect_setPatched_obj (o : KlpObject)
    (hcond : ∀ f ∈ klp_obj_funcs o,
      f.old_func ≠ 0 ∧ f.func_node = some f.old_func) (ns : Nodes) :
    oueffect { o with
      funcs := o.funcs.map (fun _ => (klp_obj_funcs o).map setPatched)
      patched := true } ns = popList ns (entriesOf (klp_obj_funcs o)) := by
  have hfold := ufold_setPatched (klp_obj_funcs o) ns hcond
  rcases o with ⟨name, fns, patched, mo⟩
  rcases fns with _ | fs0
  · simp_all [oueffect, klp_obj_funcs, entriesOf, popList, ufold]
  · simp_all [oueffect, klp_obj_funcs]

theorem enable_objs_roundtrip (env : KlpEnv) : ∀ (os : List KlpObject) (ns : Nodes),
    (∀ o ∈ os, o.patched = false) →
    (∀ o ∈ os, ∀ f ∈ klp_obj_funcs o,
      f.patched = false ∧ f.func_node = some f.old_func) →
    (funcKeys (os.flatMap klp_obj_funcs)).Nodup →
    (enable_objs env os ns).1 ≠ 0 →
    ((enable_objs env os ns).2.1).map oufunc = os ∧
    ofold (enable_objs env os ns).2.1 (enable_objs env os ns).2.2.1 = ns
  | [], ns => by
    intro _ _ _ h
    simp [enable_objs] at h
  | o :: rest, ns => by
    intro hop hready hnd h
    have hopr : ∀ q ∈ rest, q.patched = false :=
      fun q hq => hop q (List.mem_cons_of_mem _ hq)
    have hreadyr : ∀ q ∈ rest, ∀ f ∈ klp_obj_funcs q,
        f.patched = false ∧ f.func_node = some f.old_func :=
      fun q hq => hready q (List.mem_cons_of_mem _ hq)
    have hsplit : funcKeys ((o :: rest).flatMap klp_obj_funcs) =
        funcKeys (klp_obj_funcs o) ++ funcKeys (rest.flatMap klp_obj_funcs) := by
      rw [List.flatMap_cons, funcKeys, funcKeys, funcKeys, List.map_append]
    rw [hsplit] at hnd
    have hndo : (funcKeys (klp_obj_funcs o)).Nodup :=
      (List.nodup_append.mp hnd).1
    have hndr : (funcKeys (rest.flatMap klp_obj_funcs)).Nodup :=
      (List.nodup_append.mp hnd).2.1
    have hdisj : ∀ a ∈ funcKeys (klp_obj_funcs o),
        a ∉ funcKeys (rest.flatMap klp_obj_funcs) := by
      intro a ha hb
      exact (List.nodup_append.mp hnd).2.2 ha hb
    rw [enable_objs] at h ⊢
    by_cases hl : klp_is_object_loaded o
    · simp only [hl, Bool.not_true, Bool.false_eq_true, if_false] at h ⊢
      by_cases hr : (klp_patch_object env o ns).1 = 0
      · rw [if_pos hr] at h ⊢
        obtain ⟨hs1, hs2, hs3⟩ := klp_patch_object_succ env o ns
          (hop o (by simp)) (hready o (by simp)) hr
        obtain ⟨ih1, ih2⟩ := enable_objs_roundtrip env rest
          (pushList ns (entriesOf (klp_obj_funcs o))) hopr hreadyr hndr
          (by rw [← hs2]; exact h)
        rw [← hs2] at ih1 ih2
        constructor
        · show ((klp_patch_object env o ns).2.1 ::
            (enable_objs env rest (klp_patch_object env o ns).2.2.1).2.1).map
              oufunc = o :: rest
          rw [List.map_cons, ih1, hs1,
            oufunc_setPatched_obj o (hop o (by simp)) (hready o (by simp)) hs3]
        · show ofold ((klp_patch_object env o ns).2.1 ::
            (enable_objs env rest (klp_patch_object env o ns).2.2.1).2.1)
            ((enable_objs env rest (klp_patch_object env o ns).2.2.1).2.2.1) = ns
          rw [ofold, hs1, oueffect_setPatched_obj o
            (fun f hf => ⟨hs3 f hf, (hready o (by simp) f hf).2⟩)]
          have hcomm : ofold ((enable_objs env rest
              (klp_patch_object env o ns).2.2.1).2.1)
              (popList ((enable_objs env rest
                (klp_patch_object env o ns).2.2.1).2.2.1)
                (entriesOf (klp_obj_funcs o))) =
              popList (ofold ((enable_objs env rest
                (klp_patch_object env o ns).2.2.1).2.1)
                ((enable_objs env rest
                  (klp_patch_object env o ns).2.2.1).2.2.1))
                (entriesOf (klp_obj_funcs o)) := by
            apply ofold_popList_comm
            intro q hq f hf k2 hk2
            rw [entriesOf_keys]
            have hok : okeys q ∈ rest.map okeys := by
              rw [← enable_objs_okeys env rest
                (klp_patch_object env o ns).2.2.1]
              exact List.mem_map_of_mem _ hq
            obtain ⟨q0, hq0, hqeq⟩ := List.mem_map.mp hok
            have hfp : (f.old_func, f.func_node, f.new_func, f.new_size) ∈
                okeys q0 := by
              rw [hqeq, okeys]
              exact List.mem_map_of_mem _ hf
            rw [okeys] at hfp
            obtain ⟨f0, hf0, hfeq⟩ := List.mem_map.mp hfp
            have hfn : f0.func_node = f.func_node := by
              have := congrArg (fun x => x.2.1) hfeq
              simpa using this
            have hq0r : f0.func_node = some f0.old_func :=
              (hreadyr q0 hq0 f0 hf0).2
            rw [hq0r, hk2] at hfn
            have hk2e : k2 = f0.old_func := (Option.some_inj.mp hfn).symm
            intro hcontra
            apply hdisj k2 hcontra
            rw [hk2e, funcKeys, List.mem_map]
            exact ⟨f0, List.mem_flatMap.mpr ⟨q0, hq0, hf0⟩, rfl⟩
          rw [hcomm, ih2, hs2]
          exact popList_pushList_cancel _ ns
            (by rw [entriesOf_keys]; exact hndo)
      · rw [if_neg hr] at h ⊢
        obtain ⟨hro, hrn⟩ := klp_patch_object_roundtrip env o ns
          (hop o (by simp)) (hready o (by simp)) hndo hr
        constructor
        · show ((klp_patch_object env o ns).2.1 :: rest).map oufunc = o :: rest
          rw [hro, List.map_cons, oufunc_of_unpatched o (hop o (by simp))]
          have hrm : rest.map oufunc = rest := by
            have hpt : ∀ q ∈ rest, oufunc q = q :=
              fun q hq => oufunc_of_unpatched q (hopr q hq)
            rw [List.map_congr_left hpt]
            exact List.map_id' _
          rw [hrm]
        · show ofold ((klp_patch_object env o ns).2.1 :: rest)
            ((klp_patch_object env o ns).2.2.1) = ns
          rw [hro, hrn, ofold, oueffect, if_neg (by simp [hop o (by simp)])]
          exact ofold_of_unpatched rest ns hopr
    · simp only [hl, Bool.not_false, if_true] at h ⊢
      obtain ⟨ih1, ih2⟩ := enable_objs_roundtrip env rest ns hopr hreadyr hndr h
      constructor
      · show (o :: (enable_objs env rest ns).2.1).map oufunc = o :: rest
        rw [List.map_cons, ih1, oufunc_of_unpatched o (hop o (by simp))]
      · show ofold (o :: (enable_objs env rest ns).2.1)
          ((enable_objs env rest ns).2.2.1) = ns
        rw [ofold, oueffect, if_neg (by simp [hop o (by simp)]), ih2]


/-! ## Characterisation of klp_mem_prepare / klp_mem_recycle -/

/-- A node survives recycling over a function list iff its key is not
referenced by the list or its stack is still in use. -/
def keepNode (fs : List KlpFunc) (n : KlpFuncNode) : Bool :=
  !(visitedKeys fs).contains n.old_func || !n.func_stack.isEmpty

def keepNodeO (os : List KlpObject) (n : KlpFuncNode) : Bool :=
  !(visitedKeys (os.flatMap klp_obj_funcs)).contains n.old_func ||
    !n.func_stack.isEmpty

/-- An object with every function pointing at its own node. -/
def oSetNode (o : KlpObject) : KlpObject :=
  { o with funcs := o.funcs.map (fun _ => (klp_obj_funcs o).map setNode) }

/-- An object with every function reference dropped. -/
def oClearNode (o : KlpObject) : KlpObject :=
  { o with funcs := o.funcs.map (fun _ => (klp_obj_funcs o).map clearNode) }

theorem clearNode_of_none (f : KlpFunc) (h : f.func_node = none) :
    clearNode f = f := func_eta_node f h

theorem clearNode_setNode (f : KlpFunc) (h : f.func_node = none) :
    clearNode (setNode f) = f := by
  cases f
  simp_all [clearNode, setNode]

theorem map_clearNode_id (fs : List KlpFunc)
    (h : ∀ f ∈ fs, f.func_node = none) : fs.map clearNode = fs := by
  have hpt : ∀ f ∈ fs, clearNode f = f := fun f hf => clearNode_of_none f (h f hf)
  rw [List.map_congr_left hpt]
  exact List.map_id' _

theorem map_clearSet (fs : List KlpFunc)
    (h : ∀ f ∈ fs, f.func_node = none) :
    (fs.map setNode).map clearNode = fs := by
  rw [List.map_map]
  have hpt : ∀ f ∈ fs, (clearNode ∘ setNode) f = f := fun f hf =>
    clearNode_setNode f (h f hf)
  rw [List.map_congr_left hpt]
  exact List.map_id' _

theorem nat_contains_append : ∀ (l1 l2 : List Nat) (k : Nat),
    (l1 ++ l2).contains k = (l1.contains k || l2.contains k)
  | [], l2, k => by simp
  | a :: l1, l2, k => by
    simp only [List.cons_append, List.contains_cons,
      nat_contains_append l1 l2 k, Bool.or_assoc]

theorem visitedKeys_append (fs gs : List KlpFunc) :
    visitedKeys (fs ++ gs) = visitedKeys fs ++ visitedKeys gs := by
  simp [visitedKeys]

theorem visitedKeys_setNode : ∀ fs : List KlpFunc,
    visitedKeys (fs.map setNode) = funcKeys fs
  | [] => rfl
  | f :: rest => by
    simp [visitedKeys, funcKeys, setNode, List.filterMap_cons] at *
    simpa [visitedKeys, funcKeys] using visitedKeys_setNode rest

theorem nodeKeys_filter_nodup (ns : Nodes) (q : KlpFuncNode → Bool)
    (h : (nodeKeys ns).Nodup) : (nodeKeys (ns.filter q)).Nodup :=
  List.Nodup.sublist (List.Sublist.map _ (List.filter_sublist ns)) h

theorem func_node_free_eq1 (f : KlpFunc) (ns : Nodes)
    (h : f.func_node = none) : func_node_free f ns = (f, ns, []) := by
  rw [func_node_free, h]

theorem func_node_free_eq2 (f : KlpFunc) (ns : Nodes) (key : Nat)
    (h : f.func_node = some key) (hf : klp_find_func_node ns key = none) :
    func_node_free f ns = (clearNode f, ns, []) := by
  simp only [func_node_free, h, hf, clearNode]

theorem func_node_free_eq3 (f : KlpFunc) (ns : Nodes) (key : Nat)
    (node : KlpFuncNode) (h : f.func_node = some key)
    (hf : klp_find_func_node ns key = some node)
    (he : node.func_stack.isEmpty = true) :
    func_node_free f ns = (clearNode f, klp_del_func_node ns key,
      [KlpEvent.nodeDel key, KlpEvent.rcuSync, KlpEvent.memFree key]) := by
  simp only [func_node_free, h, hf, he, clearNode, if_pos]

theorem func_node_free_eq4 (f : KlpFunc) (ns : Nodes) (key : Nat)
    (node : KlpFuncNode) (h : f.func_node = some key)
    (hf : klp_find_func_node ns key = some node)
    (he : node.func_stack.isEmpty = false) :
    func_node_free f ns = (clearNode f, ns, []) := by
  simp only [func_node_free, h, hf, he, clearNode, Bool.false_eq_true,
    if_false]

theorem recycle_funcs_cons (f : KlpFunc) (rest : List KlpFunc) (ns : Nodes) :
    recycle_funcs (f :: rest) ns =
      ((func_node_free f ns).1 ::
        (recycle_funcs rest (func_node_free f ns).2.1).1,
       (recycle_funcs rest (func_node_free f ns).2.1).2.1,
       (func_node_free f ns).2.2 ++
        (recycle_funcs rest (func_node_free f ns).2.1).2.2) := rfl

theorem recycle_funcs_char : ∀ (fs : List KlpFunc) (ns : Nodes),
    (nodeKeys ns).Nodup →
    (recycle_funcs fs ns).1 = fs.map clearNode ∧
    (recycle_funcs fs ns).2.1 = ns.filter (keepNode fs)
  | [], ns => by
    intro _
    refine ⟨rfl, ?_⟩
    show ns = ns.filter (keepNode [])
    exact (List.filter_eq_self.mpr (fun n _ => by
      simp [keepNode, visitedKeys])).symm
  | f :: rest, ns => by
    intro hnd
    rcases hfn : f.func_node with _ | key
    · rw [recycle_funcs_cons, func_node_free_eq1 f ns hfn]
      obtain ⟨ih1, ih2⟩ := recycle_funcs_char rest ns hnd
      constructor
      · rw [ih1, List.map_cons, clearNode_of_none f hfn]
      · rw [ih2]
        exact List.filter_congr (fun n hn => by
          simp [keepNode, visitedKeys, List.filterMap_cons, hfn])
    · rcases hfind : klp_find_func_node ns key with _ | node
      · rw [recycle_funcs_cons, func_node_free_eq2 f ns key hfn hfind]
        obtain ⟨ih1, ih2⟩ := recycle_funcs_char rest ns hnd
        have hall : ∀ n ∈ ns, ¬n.old_func = key := by
          intro n hn
          have := List.find?_eq_none.mp hfind n hn
          simpa using this
        constructor
        · rw [ih1, List.map_cons]
        · rw [ih2]
          exact List.filter_congr (fun n hn => by
            simp [keepNode, visitedKeys, List.filterMap_cons, hfn,
              List.contains_cons, hall n hn])
      · have hkey : node.old_func = key := by
          have := List.find?_some hfind
          simpa using this
        have hmem : node ∈ ns := List.mem_of_find?_eq_some hfind
        have huniq : ∀ x ∈ ns, ∀ y ∈ ns,
            (fun (n : KlpFuncNode) => n.old_func) x =
            (fun (n : KlpFuncNode) => n.old_func) y → x = y :=
          fun x hx y hy hxy => List.inj_on_of_nodup_map hnd hx hy hxy
        rcases he : node.func_stack.isEmpty with _ | _
        · rw [recycle_funcs_cons, func_node_free_eq4 f ns key node hfn hfind he]
          obtain ⟨ih1, ih2⟩ := recycle_funcs_char rest ns hnd
          constructor
          · rw [ih1, List.map_cons]
          · rw [ih2]
            refine List.filter_congr (fun n hn => ?_)
            by_cases hk : n.old_func = key
            · have hne : n = node := huniq n hn node hmem (by show n.old_func = node.old_func; rw [hk, hkey])
              simp [keepNode, visitedKeys, List.filterMap_cons, hfn,
                List.contains_cons, hk, hne, he, hkey]
            · simp [keepNode, visitedKeys, List.filterMap_cons, hfn,
                List.contains_cons, hk]
        · rw [recycle_funcs_cons, func_node_free_eq3 f ns key node hfn hfind he]
          have hnd2 : (nodeKeys (klp_del_func_node ns key)).Nodup :=
            nodeKeys_filter_nodup ns _ hnd
          obtain ⟨ih1, ih2⟩ := recycle_funcs_char rest
            (klp_del_func_node ns key) hnd2
          constructor
          · rw [ih1, List.map_cons]
          · rw [ih2, klp_del_func_node, List.filter_filter]
            refine List.filter_congr (fun n hn => ?_)
            by_cases hk : n.old_func = key
            · have hne : n = node := huniq n hn node hmem (by show n.old_func = node.old_func; rw [hk, hkey])
              simp [keepNode, visitedKeys, List.filterMap_cons, hfn,
                List.contains_cons, hk, hne, he, hkey]
            · simp [keepNode, visitedKeys, List.filterMap_cons, hfn,
                List.contains_cons, hk]


theorem oClearNode_update (o : KlpObject) (fs2 : List KlpFunc)
    (h : fs2.map clearNode = klp_obj_funcs o) :
    oClearNode { o with funcs := o.funcs.map (fun _ => fs2) } = o := by
  rcases o with ⟨nm, fns, pt, md⟩
  rcases fns with _ | fs0
  · simp [oClearNode]
  · simp_all [oClearNode, klp_obj_funcs]

theorem oClearNode_id (o : KlpObject)
    (h : ∀ f ∈ klp_obj_funcs o, f.func_node = none) : oClearNode o = o := by
  have hmap := map_clearNode_id (klp_obj_funcs o) h
  rcases o with ⟨nm, fns, pt, md⟩
  rcases fns with _ | fs0
  · simp [oClearNode]
  · simp_all [oClearNode, klp_obj_funcs]

theorem klp_obj_funcs_update (o : KlpObject) (fs2 : List KlpFunc)
    (h : fs2.map clearNode = klp_obj_funcs o) :
    klp_obj_funcs { o with funcs := o.funcs.map (fun _ => fs2) } = fs2 := by
  rcases o with ⟨nm, fns, pt, md⟩
  rcases fns with _ | fs0
  · simp [klp_obj_funcs] at h ⊢
    exact h
  · simp [klp_obj_funcs]

theorem klp_obj_funcs_oSetNode (o : KlpObject) :
    klp_obj_funcs (oSetNode o) = (klp_obj_funcs o).map setNode := by
  rcases o with ⟨nm, fns, pt, md⟩
  rcases fns with _ | fs0 <;> simp [oSetNode, klp_obj_funcs]

theorem oClearNode_oSetNode (o : KlpObject)
    (h : ∀ f ∈ klp_obj_funcs o, f.func_node = none) :
    oClearNode (oSetNode o) = o := by
  have hmap := map_clearSet (klp_obj_funcs o) h
  rcases o with ⟨nm, fns, pt, md⟩
  rcases fns with _ | fs0
  · simp [oClearNode, oSetNode]
  · simp_all [oClearNode, oSetNode, klp_obj_funcs]

theorem recycle_objs_cons (obj : KlpObject) (rest : List KlpObject)
    (ns : Nodes) :
    recycle_objs (obj :: rest) ns =
      ({ obj with
         funcs := obj.funcs.map (fun _ => (recycle_funcs (klp_obj_funcs obj) ns).1) } ::
        (recycle_objs rest (recycle_funcs (klp_obj_funcs obj) ns).2.1).1,
       (recycle_objs rest (recycle_funcs (klp_obj_funcs obj) ns).2.1).2.1,
       (recycle_funcs (klp_obj_funcs obj) ns).2.2 ++
        (recycle_objs rest (recycle_funcs (klp_obj_funcs obj) ns).2.1).2.2) :=
  rfl

theorem recycle_objs_char : ∀ (os : List KlpObject) (ns : Nodes),
    (nodeKeys ns).Nodup →
    (recycle_objs os ns).1 = os.map oClearNode ∧
    (recycle_objs os ns).2.1 = ns.filter (keepNodeO os)
  | [], ns => by
    intro _
    refine ⟨rfl, ?_⟩
    show ns = ns.filter (keepNodeO [])
    exact (List.filter_eq_self.mpr (fun n _ => by
      simp [keepNodeO, visitedKeys])).symm
  | obj :: rest, ns => by
    intro hnd
    obtain ⟨hc1, hc2⟩ := recycle_funcs_char (klp_obj_funcs obj) ns hnd
    have hnd2 : (nodeKeys (ns.filter (keepNode (klp_obj_funcs obj)))).Nodup :=
      nodeKeys_filter_nodup ns _ hnd
    obtain ⟨ih1, ih2⟩ := recycle_objs_char rest
      (ns.filter (keepNode (klp_obj_funcs obj))) hnd2
    rw [recycle_objs_cons]
    refine ⟨?_, ?_⟩
    · show ({ obj with
          funcs := obj.funcs.map
            (fun _ => (recycle_funcs (klp_obj_funcs obj) ns).1) } ::
          (recycle_objs rest (recycle_funcs (klp_obj_funcs obj) ns).2.1).1) =
        (obj :: rest).map oClearNode
      rw [List.map_cons, hc1, hc2, ih1]
      rfl
    · show (recycle_objs rest (recycle_funcs (klp_obj_funcs obj) ns).2.1).2.1 =
        ns.filter (keepNodeO (obj :: rest))
      rw [hc2, ih2, List.filter_filter]
      refine List.filter_congr (fun n hn => ?_)
      simp only [keepNode, keepNodeO, List.flatMap_cons, visitedKeys_append,
        nat_contains_append]
      cases (visitedKeys (klp_obj_funcs obj)).contains n.old_func <;>
        cases (visitedKeys (rest.flatMap klp_obj_funcs)).contains n.old_func <;>
        cases n.func_stack.isEmpty <;> rfl


theorem func_node_alloc_reuse (env : KlpEnv) (f : KlpFunc) (ns : Nodes)
    (node : KlpFuncNode) (h : klp_find_func_node ns f.old_func = some node) :
    func_node_alloc env f ns = (some node.old_func, ns, []) := by
  simp only [func_node_alloc, h]

theorem func_node_alloc_fresh (env : KlpEnv) (f : KlpFunc) (ns : Nodes)
    (h : klp_find_func_node ns f.old_func = none)
    (hs : env.save_code_ok f.old_func = true) :
    func_node_alloc env f ns =
      (some f.old_func,
       { old_func := f.old_func, func_stack := [] } :: ns,
       [KlpEvent.codeSaved f.old_func]) := by
  simp only [func_node_alloc, h, hs, if_pos, klp_add_func_node]

theorem func_node_alloc_fail (env : KlpEnv) (f : KlpFunc) (ns : Nodes)
    (h : klp_find_func_node ns f.old_func = none)
    (hs : env.save_code_ok f.old_func = false) :
    func_node_alloc env f ns = (none, ns, []) := by
  simp only [func_node_alloc, h, hs, Bool.false_eq_true, if_false]

theorem prepare_funcs_cons_fail (env : KlpEnv) (f : KlpFunc)
    (rest : List KlpFunc) (ns ns2 : Nodes) (ev : Events)
    (h : func_node_alloc env f ns = (none, ns2, ev)) :
    prepare_funcs env (f :: rest) ns =
      (false, { f with func_node := none } :: rest, ns2, ev) := by
  simp only [prepare_funcs, h]

theorem prepare_funcs_cons_some (env : KlpEnv) (f : KlpFunc)
    (rest : List KlpFunc) (ns ns2 : Nodes) (key : Nat) (ev : Events)
    (h : func_node_alloc env f ns = (some key, ns2, ev)) :
    prepare_funcs env (f :: rest) ns =
      ((prepare_funcs env rest ns2).1,
       { f with func_node := some key } :: (prepare_funcs env rest ns2).2.1,
       (prepare_funcs env rest ns2).2.2.1,
       ev ++ (prepare_funcs env rest ns2).2.2.2) := by
  simp only [prepare_funcs, h]

theorem prepare_funcs_char (env : KlpEnv) : ∀ (fs : List KlpFunc) (ns : Nodes),
    (∀ f ∈ fs, f.func_node = none) →
    ∃ fresh : Nodes,
      ((prepare_funcs env fs ns).2.1).map clearNode = fs ∧
      (prepare_funcs env fs ns).2.2.1 = fresh ++ ns ∧
      (∀ n ∈ fresh, n.func_stack = [] ∧
        n.old_func ∈ visitedKeys (prepare_funcs env fs ns).2.1 ∧
        n.old_func ∉ nodeKeys ns) ∧
      (nodeKeys fresh).Nodup ∧
      ((prepare_funcs env fs ns).1 = true →
        (prepare_funcs env fs ns).2.1 = fs.map setNode)
  | [], ns => by
    intro _
    exact ⟨[], rfl, rfl, fun n hn => absurd hn (List.not_mem_nil n),
      by simp [nodeKeys], fun _ => rfl⟩
  | f :: rest, ns => by
    intro hnone
    have hnoner : ∀ g ∈ rest, g.func_node = none :=
      fun g hg => hnone g (List.mem_cons_of_mem _ hg)
    have hnf : f.func_node = none := hnone f (by simp)
    rcases hfind : klp_find_func_node ns f.old_func with _ | node
    · rcases hsave : env.save_code_ok f.old_func with _ | _
      · -- allocation fails: the walk stops with the list intact
        rw [prepare_funcs_cons_fail env f rest ns ns []
          (func_node_alloc_fail env f ns hfind hsave)]
        refine ⟨[], ?_, rfl, fun n hn => absurd hn (List.not_mem_nil n),
          by simp [nodeKeys], ?_⟩
        · rw [List.map_cons, map_clearNode_id rest hnoner]
          rw [show clearNode { f with func_node := none } = f from by
            cases f
            simp_all [clearNode]]
        · intro hc
          simp at hc
      · -- fresh node allocated and prepended
        rw [prepare_funcs_cons_some env f rest ns
          ({ old_func := f.old_func, func_stack := [] } :: ns) f.old_func
          [KlpEvent.codeSaved f.old_func]
          (func_node_alloc_fresh env f ns hfind hsave)]
        obtain ⟨fresh2, ih1, ih2, ih3, ih4, ih5⟩ := prepare_funcs_char env rest
          ({ old_func := f.old_func, func_stack := [] } :: ns) hnoner
        have hknot : f.old_func ∉ nodeKeys ns := by
          intro hmem
          rw [nodeKeys, List.mem_map] at hmem
          obtain ⟨m, hm, hmk⟩ := hmem
          have := List.find?_eq_none.mp hfind m hm
          simp [hmk] at this
        refine ⟨fresh2 ++ [{ old_func := f.old_func, func_stack := [] }],
          ?_, ?_, ?_, ?_, ?_⟩
        · have hcs := clearNode_setNode f hnf
          rw [setNode] at hcs
          rw [List.map_cons, ih1, hcs]
        · rw [ih2, List.append_assoc, List.singleton_append]
        · intro n hn
          rcases List.mem_append.mp hn with hn2 | hn2
          · obtain ⟨hs, hv, hk⟩ := ih3 n hn2
            refine ⟨hs, ?_, ?_⟩
            · rw [show visitedKeys ({ f with func_node := some f.old_func } ::
                (prepare_funcs env rest
                  ({ old_func := f.old_func, func_stack := [] } :: ns)).2.1) =
                f.old_func :: visitedKeys (prepare_funcs env rest
                  ({ old_func := f.old_func, func_stack := [] } :: ns)).2.1
                from by simp [visitedKeys, List.filterMap_cons]]
              exact List.mem_cons_of_mem _ hv
            · intro hmem
              apply hk
              rw [nodeKeys] at hmem ⊢
              simpa using Or.inr (by simpa using hmem)
          · rw [List.mem_singleton] at hn2
            subst hn2
            refine ⟨rfl, ?_, hknot⟩
            rw [show visitedKeys ({ f with func_node := some f.old_func } ::
              (prepare_funcs env rest
                ({ old_func := f.old_func, func_stack := [] } :: ns)).2.1) =
              f.old_func :: visitedKeys (prepare_funcs env rest
                ({ old_func := f.old_func, func_stack := [] } :: ns)).2.1
              from by simp [visitedKeys, List.filterMap_cons]]
            exact List.mem_cons_self _ _
        · rw [nodeKeys, List.map_append, List.nodup_append]
          refine ⟨ih4, by simp, ?_⟩
          intro a ha hb
          simp only [List.map_singleton, List.mem_singleton] at hb
          rw [List.mem_map] at ha
          obtain ⟨m, hm, hmk⟩ := ha
          have hmk2 : m.old_func = a := hmk
          obtain ⟨_, _, hk⟩ := ih3 m hm
          apply hk
          rw [nodeKeys, List.map_cons]
          rw [hmk2, hb]
          exact List.mem_cons_self _ _
        · intro hflag
          rw [List.map_cons, ih5 hflag]
          rfl
    · -- reuse of a pre-existing node
      have hkey : node.old_func = f.old_func := by
        have := List.find?_some hfind
        simpa using this
      rw [prepare_funcs_cons_some env f rest ns ns node.old_func []
        (func_node_alloc_reuse env f ns node hfind)]
      obtain ⟨fresh2, ih1, ih2, ih3, ih4, ih5⟩ :=
        prepare_funcs_char env rest ns hnoner
      refine ⟨fresh2, ?_, ih2, ?_, ih4, ?_⟩
      · have hcs := clearNode_setNode f hnf
        rw [setNode] at hcs
        rw [List.map_cons, ih1, hkey, hcs]
      · intro n hn
        obtain ⟨hs, hv, hk⟩ := ih3 n hn
        refine ⟨hs, ?_, hk⟩
        rw [show visitedKeys ({ f with func_node := some node.old_func } ::
          (prepare_funcs env rest ns).2.1) =
          node.old_func :: visitedKeys (prepare_funcs env rest ns).2.1
          from by simp [visitedKeys, List.filterMap_cons]]
        exact List.mem_cons_of_mem _ hv
      · intro hflag
        rw [List.map_cons, ih5 hflag, hkey]
        rfl


theorem prepare_objs_cons (env : KlpEnv) (obj : KlpObject)
    (rest : List KlpObject) (ns : Nodes) :
    prepare_objs env (obj :: rest) ns =
      (if (prepare_funcs env (klp_obj_funcs obj) ns).1 then
        ((prepare_objs env rest
            (prepare_funcs env (klp_obj_funcs obj) ns).2.2.1).1,
         { obj with
           funcs := obj.funcs.map
             (fun _ => (prepare_funcs env (klp_obj_funcs obj) ns).2.1) } ::
           (prepare_objs env rest
             (prepare_funcs env (klp_obj_funcs obj) ns).2.2.1).2.1,
         (prepare_objs env rest
           (prepare_funcs env (klp_obj_funcs obj) ns).2.2.1).2.2.1,
         (prepare_funcs env (klp_obj_funcs obj) ns).2.2.2 ++
           (prepare_objs env rest
             (prepare_funcs env (klp_obj_funcs obj) ns).2.2.1).2.2.2)
      else
        (false,
         { obj with
           funcs := obj.funcs.map
             (fun _ => (prepare_funcs env (klp_obj_funcs obj) ns).2.1) } ::
           rest,
         (prepare_funcs env (klp_obj_funcs obj) ns).2.2.1,
         (prepare_funcs env (klp_obj_funcs obj) ns).2.2.2)) := rfl

theorem prepare_objs_char (env : KlpEnv) :
    ∀ (os : List KlpObject) (ns : Nodes),
    (∀ o ∈ os, ∀ f ∈ klp_obj_funcs o, f.func_node = none) →
    ∃ fresh : Nodes,
      ((prepare_objs env os ns).2.1).map oClearNode = os ∧
      (prepare_objs env os ns).2.2.1 = fresh ++ ns ∧
      (∀ n ∈ fresh, n.func_stack = [] ∧
        n.old_func ∈ visitedKeys
          (((prepare_objs env os ns).2.1).flatMap klp_obj_funcs) ∧
        n.old_func ∉ nodeKeys ns) ∧
      (nodeKeys fresh).Nodup ∧
      ((prepare_objs env os ns).1 = true →
        (prepare_objs env os ns).2.1 = os.map oSetNode)
  | [], ns => by
    intro _
    exact ⟨[], rfl, rfl, fun n hn => absurd hn (List.not_mem_nil n),
      by simp [nodeKeys], fun _ => rfl⟩
  | obj :: rest, ns => by
    intro hnone
    have hnoner : ∀ q ∈ rest, ∀ f ∈ klp_obj_funcs q, f.func_node = none :=
      fun q hq => hnone q (List.mem_cons_of_mem _ hq)
    obtain ⟨freshF, hf1, hf2, hf3, hf4, hf5⟩ :=
      prepare_funcs_char env (klp_obj_funcs obj) ns (hnone obj (by simp))
    have hfuncs2 : klp_obj_funcs { obj with
        funcs := obj.funcs.map
          (fun _ => (prepare_funcs env (klp_obj_funcs obj) ns).2.1) } =
        (prepare_funcs env (klp_obj_funcs obj) ns).2.1 :=
      klp_obj_funcs_update obj _ hf1
    rw [prepare_objs_cons]
    rcases hflag : (prepare_funcs env (klp_obj_funcs obj) ns).1 with _ | _
    · -- the function walk failed: the object walk stops here
      rw [if_neg (by simp [hflag])]
      refine ⟨freshF, ?_, hf2, ?_, hf4, ?_⟩
      · rw [List.map_cons, oClearNode_update obj _ hf1]
        have hpt : ∀ q ∈ rest, oClearNode q = q :=
          fun q hq => oClearNode_id q (hnoner q hq)
        rw [List.map_congr_left hpt]
        rw [List.map_id' rest]
      · intro n hn
        obtain ⟨hs, hv, hk⟩ := hf3 n hn
        refine ⟨hs, ?_, hk⟩
        rw [List.flatMap_cons, visitedKeys_append, hfuncs2]
        exact List.mem_append_left _ hv
      · intro hc
        simp at hc
    · -- the function walk succeeded: recurse on the remaining objects
      rw [if_pos rfl]
      obtain ⟨fresh2, ih1, ih2, ih3, ih4, ih5⟩ := prepare_objs_char env rest
        (prepare_funcs env (klp_obj_funcs obj) ns).2.2.1 hnoner
      refine ⟨fresh2 ++ freshF, ?_, ?_, ?_, ?_, ?_⟩
      · rw [List.map_cons, ih1, oClearNode_update obj _ hf1]
      · rw [ih2, hf2, List.append_assoc]
      · intro n hn
        rcases List.mem_append.mp hn with hn2 | hn2
        · obtain ⟨hs, hv, hk⟩ := ih3 n hn2
          refine ⟨hs, ?_, ?_⟩
          · rw [List.flatMap_cons, visitedKeys_append]
            exact List.mem_append_right _ hv
          · intro hmem
            apply hk
            rw [hf2, nodeKeys, List.map_append]
            exact List.mem_append_right _ (by rw [nodeKeys] at hmem; exact hmem)
        · obtain ⟨hs, hv, hk⟩ := hf3 n hn2
          refine ⟨hs, ?_, hk⟩
          rw [List.flatMap_cons, visitedKeys_append, hfuncs2]
          exact List.mem_append_left _ hv
      · rw [nodeKeys, List.map_append, List.nodup_append]
        refine ⟨ih4, hf4, ?_⟩
        intro a ha hb
        rw [List.mem_map] at ha
        obtain ⟨m, hm, hmk⟩ := ha
        have hmk2 : m.old_func = a := hmk
        obtain ⟨_, _, hk⟩ := ih3 m hm
        apply hk
        rw [hf2, nodeKeys, List.map_append]
        apply List.mem_append_left
        rw [hmk2]
        exact hb
      · intro hc
        rw [List.map_cons, ih5 hc]
        have hset : { obj with
            funcs := obj.funcs.map
              (fun _ => (prepare_funcs env (klp_obj_funcs obj) ns).2.1) } =
            oSetNode obj := by
          rw [hf5 hflag, oSetNode]
        rw [hset]


theorem patch_eta_objs (p : KlpPatch) (os : List KlpObject)
    (h : p.objs = some os) : { p with objs := some os } = p := by
  rcases p
  simp_all

theorem klp_patch_objs_of_some (p : KlpPatch) (os : List KlpObject)
    (h : p.objs = some os) : klp_patch_objs p = os := by
  rw [klp_patch_objs, h]
  rfl

theorem klp_mem_recycle_char (p : KlpPatch) (os2 : List KlpObject) (ns : Nodes)
    (hobjs : p.objs = some os2) (hnd : (nodeKeys ns).Nodup) :
    (klp_mem_recycle p ns).1 = { p with objs := some (os2.map oClearNode) } ∧
    (klp_mem_recycle p ns).2.1 = ns.filter (keepNodeO os2) := by
  obtain ⟨h1, h2⟩ := recycle_objs_char os2 ns hnd
  constructor
  · show { p with
      objs := p.objs.map (fun _ => (recycle_objs (klp_patch_objs p) ns).1) } =
      { p with objs := some (os2.map oClearNode) }
    rw [klp_patch_objs_of_some p os2 hobjs, h1, hobjs]
    rfl
  · show (recycle_objs (klp_patch_objs p) ns).2.1 = ns.filter (keepNodeO os2)
    rw [klp_patch_objs_of_some p os2 hobjs, h2]

/-- A node list of the form `fresh ++ ns`, where every fresh node has an empty
stack, is referenced by the function list, and is new w.r.t. `ns`, recycles
back to exactly `ns` when every original node is still in use. -/
theorem filter_keep_prepared (os2 : List KlpObject) (fresh ns : Nodes)
    (hfresh : ∀ n ∈ fresh, n.func_stack = [] ∧
      n.old_func ∈ visitedKeys (os2.flatMap klp_obj_funcs))
    (hne : ∀ n ∈ ns, n.func_stack ≠ []) :
    (fresh ++ ns).filter (keepNodeO os2) = ns := by
  rw [List.filter_append]
  have h1 : fresh.filter (keepNodeO os2) = [] := by
    rw [List.filter_eq_nil_iff]
    intro n hn
    obtain ⟨hs, hv⟩ := hfresh n hn
    simp [keepNodeO, hs]
    exact hv
  have h2 : ns.filter (keepNodeO os2) = ns := by
    rw [List.filter_eq_self]
    intro n hn
    have : n.func_stack.isEmpty = false := by
      rcases hstk : n.func_stack with _ | ⟨e, tl⟩
      · exact absurd hstk (hne n hn)
      · rfl
    simp [keepNodeO, this]
  rw [h1, h2, List.nil_append]


theorem klp_mem_prepare_eq (env : KlpEnv) (p : KlpPatch) (ns : Nodes) :
    klp_mem_prepare env p ns =
      (if (prepare_objs env (klp_patch_objs p) ns).1 then
        (0,
         { p with objs := p.objs.map (fun _ => (prepare_objs env (klp_patch_objs p) ns).2.1) },
         (prepare_objs env (klp_patch_objs p) ns).2.2.1,
         (prepare_objs env (klp_patch_objs p) ns).2.2.2)
      else
        (-ENOMEM,
         (klp_mem_recycle { p with objs := p.objs.map (fun _ => (prepare_objs env (klp_patch_objs p) ns).2.1) } (prepare_objs env (klp_patch_objs p) ns).2.2.1).1,
         (klp_mem_recycle { p with objs := p.objs.map (fun _ => (prepare_objs env (klp_patch_objs p) ns).2.1) } (prepare_objs env (klp_patch_objs p) ns).2.2.1).2.1,
         (prepare_objs env (klp_patch_objs p) ns).2.2.2 ++
           (klp_mem_recycle { p with objs := p.objs.map (fun _ => (prepare_objs env (klp_patch_objs p) ns).2.1) } (prepare_objs env (klp_patch_objs p) ns).2.2.1).2.2)) := rfl

theorem nodeKeys_append_nodup (fresh ns : Nodes)
    (hfnd : (nodeKeys fresh).Nodup) (hnd : (nodeKeys ns).Nodup)
    (hdisj : ∀ n ∈ fresh, n.old_func ∉ nodeKeys ns) :
    (nodeKeys (fresh ++ ns)).Nodup := by
  rw [nodeKeys, List.map_append, List.nodup_append]
  refine ⟨hfnd, hnd, ?_⟩
  intro a ha hb
  rw [List.mem_map] at ha
  obtain ⟨m, hm, hmk⟩ := ha
  have hmk2 : m.old_func = a := hmk
  apply hdisj m hm
  rw [nodeKeys, hmk2]
  exact hb

theorem klp_mem_prepare_fail (env : KlpEnv) (p : KlpPatch)
    (os : List KlpObject) (ns : Nodes)
    (hobjs : p.objs = some os)
    (hnone : ∀ o ∈ os, ∀ f ∈ klp_obj_funcs o, f.func_node = none)
    (hne : ∀ n ∈ ns, n.func_stack ≠ [])
    (hnd : (nodeKeys ns).Nodup)
    (h : (klp_mem_prepare env p ns).1 ≠ 0) :
    (klp_mem_prepare env p ns).2.1 = p ∧
    (klp_mem_prepare env p ns).2.2.1 = ns := by
  have hpo := klp_patch_objs_of_some p os hobjs
  obtain ⟨fresh, hc1, hc2, hc3, hc4, hc5⟩ := prepare_objs_char env os ns hnone
  rw [klp_mem_prepare_eq, hpo] at h ⊢
  rcases hflag : (prepare_objs env os ns).1 with _ | _
  · rw [if_neg (by simp [hflag])] at h ⊢
    have hp1objs : ({ p with objs := p.objs.map (fun _ => (prepare_objs env os ns).2.1) } : KlpPatch).objs = some (prepare_objs env os ns).2.1 := by
      rw [show ({ p with objs := p.objs.map (fun _ => (prepare_objs env os ns).2.1) } : KlpPatch).objs = p.objs.map (fun _ => (prepare_objs env os ns).2.1) from rfl, hobjs]
      rfl
    have hnd2 : (nodeKeys (prepare_objs env os ns).2.2.1).Nodup := by
      rw [hc2]
      exact nodeKeys_append_nodup fresh ns hc4 hnd (fun n hn => (hc3 n hn).2.2)
    obtain ⟨hr1, hr2⟩ := klp_mem_recycle_char _ _ _ hp1objs hnd2
    constructor
    · show (klp_mem_recycle { p with objs := p.objs.map (fun _ => (prepare_objs env os ns).2.1) } (prepare_objs env os ns).2.2.1).1 = p
      rw [hr1, hc1]
      exact patch_eta_objs p os hobjs
    · show (klp_mem_recycle { p with objs := p.objs.map (fun _ => (prepare_objs env os ns).2.1) } (prepare_objs env os ns).2.2.1).2.1 = ns
      rw [hr2, hc2]
      exact filter_keep_prepared _ fresh ns
        (fun n hn => ⟨(hc3 n hn).1, (hc3 n hn).2.1⟩) hne
  · rw [if_pos hflag] at h
    simp at h

theorem klp_mem_prepare_succ (env : KlpEnv) (p : KlpPatch)
    (os : List KlpObject) (ns : Nodes)
    (hobjs : p.objs = some os)
    (hnone : ∀ o ∈ os, ∀ f ∈ klp_obj_funcs o, f.func_node = none)
    (h : (klp_mem_prepare env p ns).1 = 0) :
    ∃ fresh : Nodes,
      (klp_mem_prepare env p ns).2.1 =
        { p with objs := some (os.map oSetNode) } ∧
      (klp_mem_prepare env p ns).2.2.1 = fresh ++ ns ∧
      (∀ n ∈ fresh, n.func_stack = [] ∧
        n.old_func ∈ visitedKeys ((os.map oSetNode).flatMap klp_obj_funcs) ∧
        n.old_func ∉ nodeKeys ns) ∧
      (nodeKeys fresh).Nodup := by
  have hpo := klp_patch_objs_of_some p os hobjs
  obtain ⟨fresh, hc1, hc2, hc3, hc4, hc5⟩ := prepare_objs_char env os ns hnone
  rw [klp_mem_prepare_eq, hpo] at h ⊢
  rcases hflag : (prepare_objs env os ns).1 with _ | _
  · rw [if_neg (by simp [hflag])] at h
    simp [ENOMEM] at h
  · rw [if_pos hflag] at h
    rw [if_pos rfl]
    refine ⟨fresh, ?_, ?_, ?_, hc4⟩
    · show ({ p with objs := p.objs.map (fun _ => (prepare_objs env os ns).2.1) } : KlpPatch) = { p with objs := some (os.map oSetNode) }
      rw [hc5 hflag, hobjs]
      rfl
    · exact hc2
    · intro n hn
      obtain ⟨hs, hv, hk⟩ := hc3 n hn
      rw [hc5 hflag] at hv
      exact ⟨hs, hv, hk⟩

theorem klp_mem_recycle_prepared (p : KlpPatch) (os : List KlpObject)
    (fresh ns : Nodes)
    (hobjs : p.objs = some os)
    (hnone : ∀ o ∈ os, ∀ f ∈ klp_obj_funcs o, f.func_node = none)
    (hfresh : ∀ n ∈ fresh, n.func_stack = [] ∧
      n.old_func ∈ visitedKeys ((os.map oSetNode).flatMap klp_obj_funcs) ∧
      n.old_func ∉ nodeKeys ns)
    (hfnd : (nodeKeys fresh).Nodup)
    (hne : ∀ n ∈ ns, n.func_stack ≠ [])
    (hnd : (nodeKeys ns).Nodup) :
    (klp_mem_recycle { p with objs := some (os.map oSetNode) } (fresh ++ ns)).1 = p ∧
    (klp_mem_recycle { p with objs := some (os.map oSetNode) } (fresh ++ ns)).2.1 = ns := by
  have hnd2 : (nodeKeys (fresh ++ ns)).Nodup :=
    nodeKeys_append_nodup fresh ns hfnd hnd (fun n hn => (hfresh n hn).2.2)
  obtain ⟨h1, h2⟩ := klp_mem_recycle_char
    { p with objs := some (os.map oSetNode) } (os.map oSetNode)
    (fresh ++ ns) rfl hnd2
  constructor
  · rw [h1]
    have hmap : (os.map oSetNode).map oClearNode = os := by
      rw [List.map_map]
      have hpt : ∀ o ∈ os, (oClearNode ∘ oSetNode) o = o := fun o ho =>
        oClearNode_oSetNode o (hnone o ho)
      rw [List.map_congr_left hpt]
      exact List.map_id' _
    rw [hmap]
    exact patch_eta_objs p os hobjs
  · rw [h2]
    exact filter_keep_prepared (os.map oSetNode) fresh ns
      (fun n hn => ⟨(hfresh n hn).1, (hfresh n hn).2.1⟩) hne


theorem enable_patch_rollback (env : KlpEnv) (p : KlpPatch)
    (os : List KlpObject) (ns : Nodes)
    (hobjs : p.objs = some os)
    (hen : p.enabled = false)
    (hop : ∀ o ∈ os, o.patched = false)
    (hready : ∀ o ∈ os, ∀ f ∈ klp_obj_funcs o,
      f.patched = false ∧ f.func_node = some f.old_func)
    (hnd : (funcKeys (os.flatMap klp_obj_funcs)).Nodup)
    (h : (enable_patch env p ns).1 ≠ 0) :
    (enable_patch env p ns).2.1 = p ∧ (enable_patch env p ns).2.2.1 = ns := by
  obtain ⟨pm, po, pe⟩ := p
  replace hobjs : po = some os := hobjs
  replace hen : pe = false := hen
  subst hobjs
  subst hen
  by_cases hro : (enable_objs env os ns).1 = 0
  · exfalso
    apply h
    simp [enable_patch, klp_patch_objs, hro]
  · obtain ⟨hrt1, hrt2⟩ := enable_objs_roundtrip env os ns hop hready hnd hro
    have hcalc : enable_patch env ⟨pm, some os, false⟩ ns =
        ((enable_objs env os ns).1, ⟨pm, some os, false⟩, ns,
         (enable_objs env os ns).2.2.2 ++
           oevsL (enable_objs env os ns).2.1) := by
      simp only [enable_patch, Bool.not_false, if_true, klp_patch_objs,
        Option.getD_some, Option.map_some', if_neg hro, disable_patch,
        klp_unpatch_objects, unpatch_objs_eq, hrt1, hrt2]
    rw [hcalc]
    exact ⟨rfl, rfl⟩

theorem klp_try_enable_patch_rollback (env : KlpEnv) (p : KlpPatch)
    (os : List KlpObject) (ns : Nodes)
    (hobjs : p.objs = some os)
    (hen : p.enabled = false)
    (hop : ∀ o ∈ os, o.patched = false)
    (hready : ∀ o ∈ os, ∀ f ∈ klp_obj_funcs o,
      f.patched = false ∧ f.func_node = some f.old_func)
    (hnd : (funcKeys (os.flatMap klp_obj_funcs)).Nodup)
    (h : (klp_try_enable_patch env p ns).1 ≠ 0) :
    (klp_try_enable_patch env p ns).2.1 = p ∧
    (klp_try_enable_patch env p ns).2.2.1 = ns := by
  rw [klp_try_enable_patch] at h ⊢
  by_cases hk : klp_check_patch_kprobed env p
  · rw [if_pos hk]
    exact ⟨rfl, rfl⟩
  · rw [if_neg hk] at h ⊢
    by_cases hct : klp_check_calltrace env ns p true ≠ 0
    · rw [if_pos hct]
      exact ⟨rfl, rfl⟩
    · rw [if_neg hct] at h ⊢
      exact enable_patch_rollback env p os ns hobjs hen hop hready hnd h


theorem funcKeys_flat_oSetNode : ∀ os : List KlpObject,
    funcKeys ((os.map oSetNode).flatMap klp_obj_funcs) =
    funcKeys (os.flatMap klp_obj_funcs)
  | [] => rfl
  | o :: rest => by
    simp only [List.map_cons, List.flatMap_cons, funcKeys, List.map_append,
      klp_obj_funcs_oSetNode, List.map_map]
    have h1 : (klp_obj_funcs o).map
        ((fun (f : KlpFunc) => f.old_func) ∘ setNode) =
        (klp_obj_funcs o).map (fun f => f.old_func) :=
      List.map_congr_left (fun f _ => rfl)
    rw [h1]
    have h2 := funcKeys_flat_oSetNode rest
    simp only [funcKeys] at h2
    rw [h2]

/-- Full rollback of a failing __klp_enable_patch (helper for the claims). -/
theorem klp_enable_patch_i_rollback (env : KlpEnv) (st : KlpState) (i : Nat)
    (p : KlpPatch) (os : List KlpObject)
    (hp : st.patches[i]? = some p)
    (hobjs : p.objs = some os)
    (hen : p.enabled = false)
    (hop : ∀ o ∈ os, o.patched = false)
    (hfn : ∀ f ∈ klp_patch_funcs p, f.patched = false ∧ f.func_node = none)
    (hnd : (funcKeys (os.flatMap klp_obj_funcs)).Nodup)
    (hne : ∀ n ∈ st.nodes, n.func_stack ≠ [])
    (hndn : (nodeKeys st.nodes).Nodup)
    (h : (klp_enable_patch_i env st i).1 ≠ 0) :
    (klp_enable_patch_i env st i).2.1 = st := by
  have hpo : klp_patch_funcs p = os.flatMap klp_obj_funcs := by
    rw [klp_patch_funcs, klp_patch_objs_of_some p os hobjs]
  have hnone : ∀ o ∈ os, ∀ f ∈ klp_obj_funcs o, f.func_node = none :=
    fun o ho f hf => (hfn f (by
      rw [hpo]
      exact List.mem_flatMap.mpr ⟨o, ho, hf⟩)).2
  have hpat : ∀ o ∈ os, ∀ f ∈ klp_obj_funcs o, f.patched = false :=
    fun o ho f hf => (hfn f (by
      rw [hpo]
      exact List.mem_flatMap.mpr ⟨o, ho, hf⟩)).1
  obtain ⟨sps, sns⟩ := st
  replace hp : sps[i]? = some p := hp
  replace hne : ∀ n ∈ sns, n.func_stack ≠ [] := hne
  replace hndn : (nodeKeys sns).Nodup := hndn
  rw [klp_enable_patch_i] at h ⊢
  simp only [hp] at h ⊢
  rw [if_neg (by simp [hen])] at h ⊢
  by_cases hsp : stack_prev_ok sps i
  · rw [if_neg (by simp [hsp])] at h ⊢
    by_cases hr : (klp_mem_prepare env p sns).1 ≠ 0
    · rw [if_pos hr]
      obtain ⟨hm1, hm2⟩ := klp_mem_prepare_fail env p os sns hobjs hnone
        hne hndn hr
      rw [hm1, hm2, list_set_same sps i p hp]
    · rw [if_neg hr] at h ⊢
      push_neg at hr
      obtain ⟨fresh, hm1, hm2, hm3, hm4⟩ := klp_mem_prepare_succ env p os sns
        hobjs hnone hr
      by_cases hr2 : (klp_try_enable_patch env (klp_mem_prepare env p sns).2.1
          (klp_mem_prepare env p sns).2.2.1).1 ≠ 0
      · rw [if_pos hr2]
        have hready2 : ∀ o ∈ os.map oSetNode, ∀ f ∈ klp_obj_funcs o,
            f.patched = false ∧ f.func_node = some f.old_func := by
          intro o ho f hf
          rw [List.mem_map] at ho
          obtain ⟨o0, ho0, hoeq⟩ := ho
          rw [← hoeq, klp_obj_funcs_oSetNode] at hf
          rw [List.mem_map] at hf
          obtain ⟨g, hg, hgeq⟩ := hf
          subst hgeq
          exact ⟨hpat o0 ho0 g hg, rfl⟩
        have hop2 : ∀ o ∈ os.map oSetNode, o.patched = false := by
          intro o ho
          rw [List.mem_map] at ho
          obtain ⟨o0, ho0, hoeq⟩ := ho
          subst hoeq
          exact hop o0 ho0
        have hnd2 : (funcKeys ((os.map oSetNode).flatMap klp_obj_funcs)).Nodup := by
          rw [funcKeys_flat_oSetNode]
          exact hnd
        obtain ⟨ht1, ht2⟩ := klp_try_enable_patch_rollback env
          { p with objs := some (os.map oSetNode) } (os.map oSetNode)
          (fresh ++ sns) rfl hen hop2 hready2 hnd2
          (by rw [← hm1, ← hm2]; exact hr2)
        rw [← hm1, ← hm2] at ht1 ht2
        rw [ht1, ht2, hm1, hm2]
        obtain ⟨hrc1, hrc2⟩ := klp_mem_recycle_prepared p os fresh sns
          hobjs hnone hm3 hm4 hne hndn
        rw [hrc1, hrc2, list_set_same sps i p hp]
      · exfalso
        apply h
        rw [if_neg hr2]
  · rw [if_pos (by simp [hsp])]


/-! ## Support lemmas for the activeness gate -/

theorem prepare_funcs_nodes_mono (env : KlpEnv) : ∀ (fs : List KlpFunc)
    (ns : Nodes) (k : Nat), k ∈ nodeKeys ns →
    k ∈ nodeKeys (prepare_funcs env fs ns).2.2.1
  | [], ns, k => fun h => h
  | f :: rest, ns, k => by
    intro hk
    rcases hfind : klp_find_func_node ns f.old_func with _ | node
    · rcases hsave : env.save_code_ok f.old_func with _ | _
      · rw [prepare_funcs_cons_fail env f rest ns ns []
          (func_node_alloc_fail env f ns hfind hsave)]
        exact hk
      · rw [prepare_funcs_cons_some env f rest ns
          ({ old_func := f.old_func, func_stack := [] } :: ns) f.old_func
          [KlpEvent.codeSaved f.old_func]
          (func_node_alloc_fresh env f ns hfind hsave)]
        exact prepare_funcs_nodes_mono env rest _ k
          (by rw [nodeKeys, List.map_cons]; exact List.mem_cons_of_mem _ hk)
    · rw [prepare_funcs_cons_some env f rest ns ns node.old_func []
        (func_node_alloc_reuse env f ns node hfind)]
      exact prepare_funcs_nodes_mono env rest ns k hk

theorem prepare_funcs_keys_present (env : KlpEnv) : ∀ (fs : List KlpFunc)
    (ns : Nodes), (prepare_funcs env fs ns).1 = true →
    ∀ g ∈ fs, g.old_func ∈ nodeKeys (prepare_funcs env fs ns).2.2.1
  | [], ns => by
    intro _ g hg
    exact absurd hg (List.not_mem_nil g)
  | f :: rest, ns => by
    intro hflag g hg
    rcases hfind : klp_find_func_node ns f.old_func with _ | node
    · rcases hsave : env.save_code_ok f.old_func with _ | _
      · rw [prepare_funcs_cons_fail env f rest ns ns []
          (func_node_alloc_fail env f ns hfind hsave)] at hflag
        simp at hflag
      · rw [prepare_funcs_cons_some env f rest ns
          ({ old_func := f.old_func, func_stack := [] } :: ns) f.old_func
          [KlpEvent.codeSaved f.old_func]
          (func_node_alloc_fresh env f ns hfind hsave)] at hflag ⊢
        rcases List.mem_cons.mp hg with hg2 | hg2
        · subst hg2
          exact prepare_funcs_nodes_mono env rest _ g.old_func
            (by rw [nodeKeys, List.map_cons]; exact List.mem_cons_self _ _)
        · exact prepare_funcs_keys_present env rest _ hflag g hg2
    · rw [prepare_funcs_cons_some env f rest ns ns node.old_func []
        (func_node_alloc_reuse env f ns node hfind)] at hflag ⊢
      have hkey : node.old_func = f.old_func := by
        have := List.find?_some hfind
        simpa using this
      rcases List.mem_cons.mp hg with hg2 | hg2
      · subst hg2
        apply prepare_funcs_nodes_mono env rest ns
        rw [nodeKeys, List.mem_map]
        exact ⟨node, List.mem_of_find?_eq_some hfind, hkey⟩
      · exact prepare_funcs_keys_present env rest ns hflag g hg2

theorem prepare_funcs_total (env : KlpEnv)
    (hs : ∀ a, env.save_code_ok a = true) : ∀ (fs : List KlpFunc) (ns : Nodes),
    (prepare_funcs env fs ns).1 = true
  | [], ns => rfl
  | f :: rest, ns => by
    rcases hfind : klp_find_func_node ns f.old_func with _ | node
    · rw [prepare_funcs_cons_some env f rest ns
        ({ old_func := f.old_func, func_stack := [] } :: ns) f.old_func
        [KlpEvent.codeSaved f.old_func]
        (func_node_alloc_fresh env f ns hfind (hs f.old_func))]
      exact prepare_funcs_total env hs rest _
    · rw [prepare_funcs_cons_some env f rest ns ns node.old_func []
        (func_node_alloc_reuse env f ns node hfind)]
      exact prepare_funcs_total env hs rest ns

theorem prepare_objs_total (env : KlpEnv)
    (hs : ∀ a, env.save_code_ok a = true) : ∀ (os : List KlpObject)
    (ns : Nodes), (prepare_objs env os ns).1 = true
  | [], ns => rfl
  | obj :: rest, ns => by
    rw [prepare_objs_cons, if_pos (prepare_funcs_total env hs _ ns)]
    exact prepare_objs_total env hs rest _

theorem prepare_objs_nodes_mono (env : KlpEnv) : ∀ (os : List KlpObject)
    (ns : Nodes) (k : Nat), k ∈ nodeKeys ns →
    k ∈ nodeKeys (prepare_objs env os ns).2.2.1
  | [], ns, k => fun h => h
  | obj :: rest, ns, k => by
    intro hk
    rw [prepare_objs_cons]
    rcases hflag : (prepare_funcs env (klp_obj_funcs obj) ns).1 with _ | _
    · rw [if_neg (by simp)]
      exact prepare_funcs_nodes_mono env _ ns k hk
    · rw [if_pos rfl]
      exact prepare_objs_nodes_mono env rest _ k
        (prepare_funcs_nodes_mono env _ ns k hk)

theorem prepare_objs_keys_present (env : KlpEnv) : ∀ (os : List KlpObject)
    (ns : Nodes), (prepare_objs env os ns).1 = true →
    ∀ o ∈ os, ∀ g ∈ klp_obj_funcs o,
    g.old_func ∈ nodeKeys (prepare_objs env os ns).2.2.1
  | [], ns => by
    intro _ o ho
    exact absurd ho (List.not_mem_nil o)
  | obj :: rest, ns => by
    intro hflag o ho g hg
    rw [prepare_objs_cons] at hflag ⊢
    rcases hflag2 : (prepare_funcs env (klp_obj_funcs obj) ns).1 with _ | _
    · rw [if_neg (by simp [hflag2])] at hflag
      simp at hflag
    · rw [if_pos hflag2] at hflag
      rw [if_pos rfl]
      rcases List.mem_cons.mp ho with ho2 | ho2
      · subst ho2
        exact prepare_objs_nodes_mono env rest _ g.old_func
          (prepare_funcs_keys_present env _ ns hflag2 g hg)
      · exact prepare_objs_keys_present env rest _ hflag o ho2 g hg

theorem prepare_funcs_events (env : KlpEnv) : ∀ (fs : List KlpFunc)
    (ns : Nodes), ∀ e ∈ (prepare_funcs env fs ns).2.2.2,
    e.isCodeWrite = false
  | [], ns => by
    intro e he
    exact absurd he (List.not_mem_nil e)
  | f :: rest, ns => by
    intro e he
    rcases hfind : klp_find_func_node ns f.old_func with _ | node
    · rcases hsave : env.save_code_ok f.old_func with _ | _
      · rw [prepare_funcs_cons_fail env f rest ns ns []
          (func_node_alloc_fail env f ns hfind hsave)] at he
        exact absurd he (List.not_mem_nil e)
      · rw [prepare_funcs_cons_some env f rest ns
          ({ old_func := f.old_func, func_stack := [] } :: ns) f.old_func
          [KlpEvent.codeSaved f.old_func]
          (func_node_alloc_fresh env f ns hfind hsave)] at he
        rcases List.mem_append.mp he with he2 | he2
        · rw [List.mem_singleton] at he2
          subst he2
          rfl
        · exact prepare_funcs_events env rest _ e he2
    · rw [prepare_funcs_cons_some env f rest ns ns node.old_func []
        (func_node_alloc_reuse env f ns node hfind)] at he
      rcases List.mem_append.mp he with he2 | he2
      · exact absurd he2 (List.not_mem_nil e)
      · exact prepare_funcs_events env rest ns e he2

theorem prepare_objs_events (env : KlpEnv) : ∀ (os : List KlpObject)
    (ns : Nodes), ∀ e ∈ (prepare_objs env os ns).2.2.2,
    e.isCodeWrite = false
  | [], ns => by
    intro e he
    exact absurd he (List.not_mem_nil e)
  | obj :: rest, ns => by
    intro e he
    rw [prepare_objs_cons] at he
    by_cases hflag : (prepare_funcs env (klp_obj_funcs obj) ns).1 = true
    · rw [if_pos hflag] at he
      rcases List.mem_append.mp he with he2 | he2
      · exact prepare_funcs_events env _ ns e he2
      · exact prepare_objs_events env rest _ e he2
    · rw [if_neg hflag] at he
      exact prepare_funcs_events env _ ns e he

theorem func_node_free_events (f : KlpFunc) (ns : Nodes) :
    ∀ e ∈ (func_node_free f ns).2.2, e.isCodeWrite = false := by
  intro e he
  rcases hfn : f.func_node with _ | key
  · rw [func_node_free_eq1 f ns hfn] at he
    exact absurd he (List.not_mem_nil e)
  · rcases hfind : klp_find_func_node ns key with _ | node
    · rw [func_node_free_eq2 f ns key hfn hfind] at he
      exact absurd he (List.not_mem_nil e)
    · rcases hse : node.func_stack.isEmpty with _ | _
      · rw [func_node_free_eq4 f ns key node hfn hfind hse] at he
        exact absurd he (List.not_mem_nil e)
      · rw [func_node_free_eq3 f ns key node hfn hfind hse] at he
        simp only [List.mem_cons, List.not_mem_nil, or_false] at he
        rcases he with rfl | rfl | rfl <;> rfl

theorem recycle_funcs_events : ∀ (fs : List KlpFunc) (ns : Nodes),
    ∀ e ∈ (recycle_funcs fs ns).2.2, e.isCodeWrite = false
  | [], ns => by
    intro e he
    exact absurd he (List.not_mem_nil e)
  | f :: rest, ns => by
    intro e he
    rw [recycle_funcs_cons] at he
    rcases List.mem_append.mp he with he2 | he2
    · exact func_node_free_events f ns e he2
    · exact recycle_funcs_events rest _ e he2

theorem recycle_objs_events : ∀ (os : List KlpObject) (ns : Nodes),
    ∀ e ∈ (recycle_objs os ns).2.2, e.isCodeWrite = false
  | [], ns => by
    intro e he
    exact absurd he (List.not_mem_nil e)
  | obj :: rest, ns => by
    intro e he
    rw [recycle_objs_cons] at he
    rcases List.mem_append.mp he with he2 | he2
    · exact recycle_funcs_events _ ns e he2
    · exact recycle_objs_events rest _ e he2

theorem check_func_list_mem : ∀ (fl : List ActvFunc) (pc : Nat)
    (af : ActvFunc), af ∈ fl →
    klp_compare_address pc af.func_addr
      (klp_size_to_check af.func_size af.force) ≠ 0 →
    check_func_list fl pc ≠ 0
  | [], pc, af => by
    intro haf _
    exact absurd haf (List.not_mem_nil af)
  | g :: rest, pc, af => by
    intro haf hcov
    rw [check_func_list]
    by_cases hg : klp_compare_address pc g.func_addr
        (klp_size_to_check g.func_size g.force) ≠ 0
    · rw [if_pos hg]
      exact hg
    · rw [if_neg hg]
      rcases List.mem_cons.mp haf with haf2 | haf2
      · subst haf2
        exact absurd hcov hg
      · exact check_func_list_mem rest pc af haf2 hcov

theorem check_pcs_mem (fl : List ActvFunc) : ∀ (pcs : List Nat) (pc : Nat),
    pc ∈ pcs → check_func_list fl pc ≠ 0 → check_pcs fl pcs ≠ 0
  | [], pc => by
    intro hpc _
    exact absurd hpc (List.not_mem_nil pc)
  | q :: rest, pc => by
    intro hpc hc
    rw [check_pcs]
    by_cases hq : check_func_list fl q ≠ 0
    · rw [if_pos hq]
      exact hq
    · rw [if_neg hq]
      rcases List.mem_cons.mp hpc with hpc2 | hpc2
      · subst hpc2
        exact absurd hc hq
      · exact check_pcs_mem fl rest pc hpc2 hc


theorem kprobed_empty (env : KlpEnv) (q : KlpPatch)
    (h : env.kprobes = []) : klp_check_patch_kprobed env q = false := by
  simp [klp_check_patch_kprobed, get_kprobe, h]

theorem klp_find_append : ∀ (l1 l2 : Nodes) (k : Nat),
    klp_find_func_node (l1 ++ l2) k =
      (match klp_find_func_node l1 k with
       | some n => some n
       | none => klp_find_func_node l2 k)
  | [], l2, k => rfl
  | n :: l1, l2, k => by
    by_cases h : n.old_func = k
    · simp [klp_find_func_node, List.find?_cons, h]
    · have h2 : (n.old_func == k) = false := by simp [h]
      simp only [klp_find_func_node, List.cons_append, List.find?_cons, h2]
      exact klp_find_append l1 l2 k

theorem find_fresh (fresh sns : Nodes) (k : Nat)
    (hk : k ∈ nodeKeys fresh) (hfr : ∀ n ∈ fresh, n.func_stack = []) :
    ∃ node2, klp_find_func_node (fresh ++ sns) k = some node2 ∧
      node2.func_stack = [] := by
  rw [klp_find_append]
  rcases hf : klp_find_func_node fresh k with _ | node2
  · exfalso
    rw [nodeKeys, List.mem_map] at hk
    obtain ⟨m, hm, hmk⟩ := hk
    have hmk2 : m.old_func = k := hmk
    have := List.find?_eq_none.mp hf m hm
    simp [hmk2] at this
  · exact ⟨node2, rfl, hfr node2 (List.mem_of_find?_eq_some hf)⟩

theorem actv_collect (ns2 : Nodes) (f : KlpFunc) (node2 : KlpFuncNode)
    (hfp : f.patched = false) (hforce : f.force = KlpForce.KLP_NORMAL_FORCE)
    (hfind : klp_find_func_node ns2 f.old_func = some node2)
    (hstk : node2.func_stack = []) :
    arch_klp_check_activeness_func ns2 (setNode f) true =
      [{ func_addr := f.old_func, func_size := f.old_size,
         func_name := f.old_name, force := f.force }] := by
  simp [arch_klp_check_activeness_func, setNode, hfp, hforce, hfind, hstk,
    CONFIG_PREEMPTION]

theorem klp_check_calltrace_busy (env : KlpEnv) (ns2 : Nodes) (p : KlpPatch)
    (af : ActvFunc) (haf : af ∈ klp_check_activeness_func ns2 p true)
    (pc : Nat) (hpc : pc ∈ env.cpu_stacks.flatten)
    (hcov : klp_compare_address pc af.func_addr
      (klp_size_to_check af.func_size af.force) ≠ 0) :
    klp_check_calltrace env ns2 p true ≠ 0 := by
  rw [klp_check_calltrace]
  have hne : (klp_check_activeness_func ns2 p true).isEmpty = false := by
    rcases h : klp_check_activeness_func ns2 p true with _ | _
    · rw [h] at haf
      exact absurd haf (List.not_mem_nil af)
    · rfl
  rw [if_neg (by simp [hne])]
  exact check_pcs_mem _ _ pc hpc (check_func_list_mem _ pc af haf hcov)

theorem mem_patch_funcs_prepared (p : KlpPatch) (os : List KlpObject)
    (f : KlpFunc) (hobjs : p.objs = some os) (hf : f ∈ klp_patch_funcs p) :
    setNode f ∈ klp_patch_funcs { p with objs := some (os.map oSetNode) } := by
  rw [klp_patch_funcs, klp_patch_objs_of_some p os hobjs] at hf
  rw [List.mem_flatMap] at hf
  obtain ⟨o0, ho0, hf0⟩ := hf
  rw [klp_patch_funcs,
    klp_patch_objs_of_some _ (os.map oSetNode) rfl, List.mem_flatMap]
  refine ⟨oSetNode o0, List.mem_map_of_mem _ ho0, ?_⟩
  rw [klp_obj_funcs_oSetNode]
  exact List.mem_map_of_mem _ hf0


/-- The stop-the-world activeness gate: an in-range return address on any CPU
stack aborts a normally-forced enable with no instruction write and no state
change. -/
theorem activeness_abort (env : KlpEnv) (st : KlpState) (i : Nat)
    (p : KlpPatch) (os : List KlpObject) (f : KlpFunc) (pc : Nat)
    (hp : st.patches[i]? = some p)
    (hobjs : p.objs = some os)
    (hen : p.enabled = false)
    (hfn : ∀ g ∈ klp_patch_funcs p, g.patched = false ∧ g.func_node = none)
    (hne : ∀ n ∈ st.nodes, n.func_stack ≠ [])
    (hndn : (nodeKeys st.nodes).Nodup)
    (hsp : stack_prev_ok st.patches i = true)
    (hkpr : env.kprobes = [])
    (hsave : ∀ a, env.save_code_ok a = true)
    (hf : f ∈ klp_patch_funcs p)
    (hforce : f.force = KlpForce.KLP_NORMAL_FORCE)
    (hnode0 : f.old_func ∉ nodeKeys st.nodes)
    (hpc : pc ∈ env.cpu_stacks.flatten)
    (hlo : f.old_func ≤ pc)
    (hhi : pc < f.old_func + klp_size_to_check f.old_size f.force) :
    (klp_enable_patch_i env st i).1 ≠ 0 ∧
    (klp_enable_patch_i env st i).2.1 = st ∧
    (∀ e ∈ (klp_enable_patch_i env st i).2.2, e.isCodeWrite = false) := by
  have hpo : klp_patch_funcs p = os.flatMap klp_obj_funcs := by
    rw [klp_patch_funcs, klp_patch_objs_of_some p os hobjs]
  have hnone : ∀ o ∈ os, ∀ g ∈ klp_obj_funcs o, g.func_node = none :=
    fun o ho g hg => (hfn g (by
      rw [hpo]
      exact List.mem_flatMap.mpr ⟨o, ho, hg⟩)).2
  have hpat2 : ∀ o ∈ os, ∀ g ∈ klp_obj_funcs o, g.patched = false :=
    fun o ho g hg => (hfn g (by
      rw [hpo]
      exact List.mem_flatMap.mpr ⟨o, ho, hg⟩)).1
  obtain ⟨sps, sns⟩ := st
  replace hp : sps[i]? = some p := hp
  replace hne : ∀ n ∈ sns, n.func_stack ≠ [] := hne
  replace hndn : (nodeKeys sns).Nodup := hndn
  replace hsp : stack_prev_ok sps i = true := hsp
  replace hnode0 : f.old_func ∉ nodeKeys sns := hnode0
  have htot := prepare_objs_total env hsave os sns
  have hprep0 : (klp_mem_prepare env p sns).1 = 0 := by
    rw [klp_mem_prepare_eq, klp_patch_objs_of_some p os hobjs, if_pos htot]
  obtain ⟨fresh, hm1, hm2, hm3, hm4⟩ :=
    klp_mem_prepare_succ env p os sns hobjs hnone hprep0
  have hpr_nodes : (klp_mem_prepare env p sns).2.2.1 =
      (prepare_objs env os sns).2.2.1 := by
    rw [klp_mem_prepare_eq, klp_patch_objs_of_some p os hobjs, if_pos htot]
  have hkfresh : f.old_func ∈ nodeKeys fresh := by
    have hf2 := hf
    rw [hpo, List.mem_flatMap] at hf2
    obtain ⟨o0, ho0, hf0⟩ := hf2
    have hkp := prepare_objs_keys_present env os sns htot o0 ho0 f hf0
    rw [← hpr_nodes, hm2, nodeKeys, List.map_append, List.mem_append] at hkp
    rcases hkp with hkp2 | hkp2
    · exact hkp2
    · exact absurd hkp2 hnode0
  obtain ⟨node2, hfind2, hstk2⟩ := find_fresh fresh sns f.old_func hkfresh
    (fun n hn => (hm3 n hn).1)
  have hfp : f.patched = false := (hfn f hf).1
  have hafmem : ({ func_addr := f.old_func, func_size := f.old_size, func_name := f.old_name, force := f.force } : ActvFunc) ∈
      klp_check_activeness_func (fresh ++ sns)
        { p with objs := some (os.map oSetNode) } true := by
    rw [klp_check_activeness_func, List.mem_flatMap]
    refine ⟨setNode f, mem_patch_funcs_prepared p os f hobjs hf, ?_⟩
    rw [actv_collect (fresh ++ sns) f node2 hfp hforce hfind2 hstk2]
    exact List.mem_singleton.mpr rfl
  have hct : klp_check_calltrace env (fresh ++ sns)
      { p with objs := some (os.map oSetNode) } true ≠ 0 := by
    refine klp_check_calltrace_busy env _ _ _ hafmem pc hpc ?_
    show klp_compare_address pc f.old_func
      (klp_size_to_check f.old_size f.force) ≠ 0
    rw [klp_compare_address, if_pos ⟨hlo, hhi⟩]
    simp [EBUSY]
  have htry : klp_try_enable_patch env
      { p with objs := some (os.map oSetNode) } (fresh ++ sns) =
      (klp_check_calltrace env (fresh ++ sns)
        { p with objs := some (os.map oSetNode) } true,
       { p with objs := some (os.map oSetNode) }, fresh ++ sns, []) := by
    rw [klp_try_enable_patch,
      if_neg (by simp [kprobed_empty env _ hkpr]), if_pos hct]
  have hpe : ∀ e ∈ (klp_mem_prepare env p sns).2.2.2,
      e.isCodeWrite = false := by
    rw [klp_mem_prepare_eq, klp_patch_objs_of_some p os hobjs, if_pos htot]
    exact prepare_objs_events env os sns
  obtain ⟨hrc1, hrc2⟩ := klp_mem_recycle_prepared p os fresh sns
    hobjs hnone hm3 hm4 hne hndn
  have hre : ∀ e ∈ (klp_mem_recycle
      { p with objs := some (os.map oSetNode) } (fresh ++ sns)).2.2,
      e.isCodeWrite = false :=
    recycle_objs_events _ (fresh ++ sns)
  rw [klp_enable_patch_i]
  simp only [hp]
  rw [if_neg (by simp [hen]), if_neg (by simp [hsp]),
    if_neg (by simp [hprep0])]
  rw [hm1, hm2, htry]
  have hcond : ((klp_check_calltrace env (fresh ++ sns)
      { p with objs := some (os.map oSetNode) } true,
      ({ p with objs := some (os.map oSetNode) } : KlpPatch),
      fresh ++ sns, ([] : Events))).1 ≠ 0 := hct
  rw [if_pos hcond]
  refine ⟨hct, ?_, ?_⟩
  · show KlpState.mk (sps.set i (klp_mem_recycle { p with objs := some (os.map oSetNode) } (fresh ++ sns)).1) ((klp_mem_recycle { p with objs := some (os.map oSetNode) } (fresh ++ sns)).2.1) = ⟨sps, sns⟩
    rw [hrc1, hrc2, list_set_same sps i p hp]
  · intro e he
    rcases List.mem_append.mp he with he2 | he2
    · rcases List.mem_append.mp he2 with he3 | he3
      · exact hpe e he3
      · exact absurd he3 (List.not_mem_nil e)
    · exact hre e he2


/-- A one-function patch whose function carries the forced annotation. -/
def forceFunc (a b sz szb : Nat) : KlpFunc :=
  { old_name := some "meminfo_proc_show", old_sympos := 0, new_func := b,
    nop := false, force := KlpForce.KLP_ENFORCEMENT, old_func := a,
    old_size := sz, new_size := szb, patched := false, func_node := none }

def forcePatch (a b sz szb : Nat) : KlpPatch :=
  { mod := some "livepatch_force",
    objs := some [{ name := none, funcs := some [forceFunc a b sz szb],
                    patched := false, mod := false }],
    enabled := false }

/-- A function with `force = KLP_ENFORCEMENT` is skipped by the activeness
collection, so enable succeeds whatever the CPU stacks hold. -/
theorem forced_enable (env : KlpEnv) (a b sz szb : Nat)
    (ha : a ≠ 0)
    (hkpr : env.kprobes = [])
    (hsa : env.save_code_ok a = true)
    (hpa : env.arch_patch_ok a = true) :
    (klp_enable_patch_i env ⟨[forcePatch a b sz szb], []⟩ 0).1 = 0 := by
  simp [klp_enable_patch_i, forcePatch, forceFunc, klp_mem_prepare,
    prepare_objs, prepare_funcs, func_node_alloc, klp_find_func_node,
    klp_add_func_node, klp_patch_objs, klp_obj_funcs, stack_prev_ok,
    klp_try_enable_patch, klp_check_patch_kprobed, get_kprobe,
    klp_patch_funcs, klp_check_calltrace, klp_check_activeness_func,
    arch_klp_check_activeness_func, enable_patch, enable_objs,
    klp_is_object_loaded, klp_patch_object, patch_funcs, klp_patch_func,
    arch_klp_patch_func, push_node, hkpr, hsa, hpa, ha]


/-! ## Node-invariant preservation machinery -/

theorem push_node_cases (ns : Nodes) (k : Nat) (e : StackEntry) :
    ∀ n2 ∈ push_node ns k e,
    (n2 ∈ ns ∧ n2.old_func ≠ k) ∨ n2.func_stack ≠ [] := by
  intro n2 h
  rw [push_node, List.mem_map] at h
  obtain ⟨n, hn, heq⟩ := h
  by_cases hk : n.old_func = k
  · right
    rw [← heq]
    simp [hk]
  · left
    rw [← heq]
    rw [show (if n.old_func == k then { n with func_stack := e :: n.func_stack } else n) = n from by simp [hk]]
    exact ⟨hn, hk⟩

theorem patch_funcs_nodes_inv (env : KlpEnv) : ∀ (fs : List KlpFunc)
    (ns : Nodes),
    (∀ f ∈ fs, f.patched = false ∧ f.func_node = some f.old_func) →
    (patch_funcs env fs ns).1 = 0 →
    ∀ n2 ∈ (patch_funcs env fs ns).2.2.1,
    (n2 ∈ ns ∧ n2.old_func ∉ funcKeys fs) ∨ n2.func_stack ≠ []
  | [], ns => by
    intro _ _ n2 h
    exact Or.inl ⟨h, by simp [funcKeys]⟩
  | f :: rest, ns => by
    intro hrd hc n2 h
    rw [patch_funcs] at hc h
    by_cases h1 : (klp_patch_func env f ns).1 = 0
    · rw [if_pos h1] at hc h
      obtain ⟨h0, heq⟩ := klp_patch_func_succ env f ns (hrd f (by simp)).1 h1
      rw [heq] at h hc
      have hnode : f.func_node.getD 0 = f.old_func := by
        rw [(hrd f (by simp)).2]
        rfl
      rw [hnode] at h hc
      have hcr : (patch_funcs env rest
          (push_node ns f.old_func (fentry f).2)).1 = 0 := hc
      have h2 := patch_funcs_nodes_inv env rest
        (push_node ns f.old_func (fentry f).2)
        (fun g hg => hrd g (List.mem_cons_of_mem _ hg)) hcr n2 h
      rcases h2 with ⟨h3, h4⟩ | h3
      · rcases push_node_cases ns f.old_func (fentry f).2 n2 h3 with h5 | h5
        · left
          refine ⟨h5.1, ?_⟩
          rw [funcKeys, List.map_cons]
          intro hmem
          rcases List.mem_cons.mp hmem with h6 | h6
          · exact h5.2 h6
          · exact h4 (by rw [funcKeys]; exact h6)
        · right
          exact h5
      · right
        exact h3
    · rw [if_neg h1] at hc
      obtain ⟨c, hcne, hceq⟩ := klp_patch_func_fail env f ns h1
      rw [hceq] at hc
      exact absurd hc hcne

theorem klp_patch_object_nodes_inv (env : KlpEnv) (o : KlpObject) (ns : Nodes)
    (hop : o.patched = false)
    (hrd : ∀ f ∈ klp_obj_funcs o, f.patched = false ∧
      f.func_node = some f.old_func)
    (hc : (klp_patch_object env o ns).1 = 0) :
    ∀ n2 ∈ (klp_patch_object env o ns).2.2.1,
    (n2 ∈ ns ∧ n2.old_func ∉ funcKeys (klp_obj_funcs o)) ∨
      n2.func_stack ≠ [] := by
  intro n2 h
  rw [klp_patch_object] at hc h
  rw [if_neg (by simp [hop])] at hc h
  by_cases h1 : (patch_funcs env (klp_obj_funcs o) ns).1 = 0
  · rw [if_pos h1] at h
    exact patch_funcs_nodes_inv env (klp_obj_funcs o) ns hrd h1 n2 h
  · rw [if_neg h1] at hc
    exact absurd hc h1

theorem enable_objs_nodes_inv (env : KlpEnv) : ∀ (os : List KlpObject)
    (ns : Nodes),
    (∀ o ∈ os, klp_is_object_loaded o = true) →
    (∀ o ∈ os, o.patched = false) →
    (∀ o ∈ os, ∀ f ∈ klp_obj_funcs o, f.patched = false ∧
      f.func_node = some f.old_func) →
    (enable_objs env os ns).1 = 0 →
    ∀ n2 ∈ (enable_objs env os ns).2.2.1,
    (n2 ∈ ns ∧ n2.old_func ∉ funcKeys (os.flatMap klp_obj_funcs)) ∨
      n2.func_stack ≠ []
  | [], ns => by
    intro _ _ _ _ n2 h
    exact Or.inl ⟨h, by simp [funcKeys]⟩
  | o :: rest, ns => by
    intro hlo hop hrd hc n2 h
    rw [enable_objs] at hc h
    rw [if_neg (by simp [hlo o (by simp)])] at hc h
    by_cases h1 : (klp_patch_object env o ns).1 = 0
    · rw [if_pos h1] at hc h
      have h2 := enable_objs_nodes_inv env rest
        (klp_patch_object env o ns).2.2.1
        (fun q hq => hlo q (List.mem_cons_of_mem _ hq))
        (fun q hq => hop q (List.mem_cons_of_mem _ hq))
        (fun q hq => hrd q (List.mem_cons_of_mem _ hq)) hc n2 h
      rcases h2 with ⟨h3, h4⟩ | h3
      · rcases klp_patch_object_nodes_inv env o ns (hop o (by simp))
          (hrd o (by simp)) h1 n2 h3 with h5 | h5
        · left
          refine ⟨h5.1, ?_⟩
          rw [List.flatMap_cons, funcKeys, List.map_append]
          intro hmem
          rcases List.mem_append.mp hmem with h6 | h6
          · exact h5.2 (by rw [funcKeys]; exact h6)
          · exact h4 (by rw [funcKeys]; exact h6)
        · right
          exact h5
      · right
        exact h3
    · rw [if_neg h1] at hc
      exact absurd hc h1

theorem visitedKeys_eq_funcKeys : ∀ (L : List KlpFunc),
    (∀ g ∈ L, g.func_node = some g.old_func) →
    visitedKeys L = funcKeys L
  | [] => fun _ => rfl
  | g :: rest => by
    intro h
    rw [visitedKeys, funcKeys, List.filterMap_cons, h g (by simp),
      List.map_cons]
    have h2 := visitedKeys_eq_funcKeys rest
      (fun q hq => h q (List.mem_cons_of_mem _ hq))
    rw [visitedKeys, funcKeys] at h2
    rw [h2]


/-- C2: if __klp_enable_patch fails at any step (kprobe conflict, activeness
violation, memory-preparation failure, or a failed function patch), the whole
operation is rolled back: starting from a registered patch that is disabled,
has no patched function and references no node, a failing
`klp_enable_patch_i` returns the state unchanged — so the patch ends the
operation with `enabled = false`, every function has `patched = false`, a
partially patched object has been unpatched and the freshly allocated
function-site nodes have been recycled. -/
theorem C2_enable_rollback (env : KlpEnv) (st : KlpState) (i : Nat)
    (p : KlpPatch) (os : List KlpObject)
    (hp : st.patches[i]? = some p)
    (hobjs : p.objs = some os)
    (hen : p.enabled = false)
    (hop : ∀ o ∈ os, o.patched = false)
    (hfn : ∀ f ∈ klp_patch_funcs p, f.patched = false ∧ f.func_node = none)
    (hnd : (funcKeys (os.flatMap klp_obj_funcs)).Nodup)
    (hne : ∀ n ∈ st.nodes, n.func_stack ≠ [])
    (hndn : (nodeKeys st.nodes).Nodup)
    (h : (klp_enable_patch_i env st i).1 ≠ 0) :
    (klp_enable_patch_i env st i).2.1 = st :=
  klp_enable_patch_i_rollback env st i p os hp hobjs hen hop hfn hnd hne
    hndn h


theorem enable_patch_nodes_inv (env : KlpEnv) (q : KlpPatch)
    (os2 : List KlpObject) (ns : Nodes)
    (hobjs2 : q.objs = some os2)
    (hen2 : q.enabled = false)
    (hlo2 : ∀ o ∈ os2, klp_is_object_loaded o = true)
    (hop2 : ∀ o ∈ os2, o.patched = false)
    (hrd2 : ∀ o ∈ os2, ∀ f ∈ klp_obj_funcs o, f.patched = false ∧
      f.func_node = some f.old_func)
    (hc : (enable_patch env q ns).1 = 0) :
    ∀ n2 ∈ (enable_patch env q ns).2.2.1,
    (n2 ∈ ns ∧ n2.old_func ∉ funcKeys (os2.flatMap klp_obj_funcs)) ∨
      n2.func_stack ≠ [] := by
  obtain ⟨qm, qo, qe⟩ := q
  replace hobjs2 : qo = some os2 := hobjs2
  replace hen2 : qe = false := hen2
  subst hobjs2
  subst hen2
  by_cases hro : (enable_objs env os2 ns).1 = 0
  · intro n2 h
    have hcalc : (enable_patch env ⟨qm, some os2, false⟩ ns).2.2.1 =
        (enable_objs env os2 ns).2.2.1 := by
      simp [enable_patch, klp_patch_objs, hro]
    rw [hcalc] at h
    exact enable_objs_nodes_inv env os2 ns hlo2 hop2 hrd2 hro n2 h
  · exfalso
    apply hro
    have hcalc : (enable_patch env ⟨qm, some os2, false⟩ ns).1 =
        (enable_objs env os2 ns).1 := by
      simp [enable_patch, klp_patch_objs, hro]
    rw [← hcalc]
    exact hc

theorem klp_try_enable_nodes_inv (env : KlpEnv) (q : KlpPatch)
    (os2 : List KlpObject) (ns : Nodes)
    (hobjs2 : q.objs = some os2)
    (hen2 : q.enabled = false)
    (hlo2 : ∀ o ∈ os2, klp_is_object_loaded o = true)
    (hop2 : ∀ o ∈ os2, o.patched = false)
    (hrd2 : ∀ o ∈ os2, ∀ f ∈ klp_obj_funcs o, f.patched = false ∧
      f.func_node = some f.old_func)
    (hc : (klp_try_enable_patch env q ns).1 = 0) :
    ∀ n2 ∈ (klp_try_enable_patch env q ns).2.2.1,
    (n2 ∈ ns ∧ n2.old_func ∉ funcKeys (os2.flatMap klp_obj_funcs)) ∨
      n2.func_stack ≠ [] := by
  rw [klp_try_enable_patch] at hc ⊢
  by_cases hk : klp_check_patch_kprobed env q = true
  · rw [if_pos hk] at hc
    simp [EINVAL] at hc
  · rw [if_neg hk] at hc ⊢
    by_cases hct : klp_check_calltrace env ns q true ≠ 0
    · rw [if_pos hct] at hc
      exact absurd hc hct
    · rw [if_neg hct] at hc ⊢
      exact enable_patch_nodes_inv env q os2 ns hobjs2 hen2 hlo2 hop2
        hrd2 hc

/-- Invariant preservation by __klp_enable_patch: starting from a state whose
nodes all hold a non-empty stack, every node after the operation still holds
a non-empty stack. -/
theorem klp_enable_patch_i_inv (env : KlpEnv) (st : KlpState) (i : Nat)
    (p : KlpPatch) (os : List KlpObject)
    (hp : st.patches[i]? = some p)
    (hobjs : p.objs = some os)
    (hen : p.enabled = false)
    (hop : ∀ o ∈ os, o.patched = false)
    (hfn : ∀ f ∈ klp_patch_funcs p, f.patched = false ∧ f.func_node = none)
    (hnd : (funcKeys (os.flatMap klp_obj_funcs)).Nodup)
    (hlo : ∀ o ∈ os, klp_is_object_loaded o = true)
    (hne : ∀ n ∈ st.nodes, n.func_stack ≠ [])
    (hndn : (nodeKeys st.nodes).Nodup) :
    ∀ n ∈ (klp_enable_patch_i env st i).2.1.nodes, n.func_stack ≠ [] := by
  by_cases hcode : (klp_enable_patch_i env st i).1 ≠ 0
  · rw [klp_enable_patch_i_rollback env st i p os hp hobjs hen hop hfn hnd
      hne hndn hcode]
    exact hne
  · push_neg at hcode
    have hpo : klp_patch_funcs p = os.flatMap klp_obj_funcs := by
      rw [klp_patch_funcs, klp_patch_objs_of_some p os hobjs]
    have hnone : ∀ o ∈ os, ∀ g ∈ klp_obj_funcs o, g.func_node = none :=
      fun o ho g hg => (hfn g (by
        rw [hpo]
        exact List.mem_flatMap.mpr ⟨o, ho, hg⟩)).2
    have hpat2 : ∀ o ∈ os, ∀ g ∈ klp_obj_funcs o, g.patched = false :=
      fun o ho g hg => (hfn g (by
        rw [hpo]
        exact List.mem_flatMap.mpr ⟨o, ho, hg⟩)).1
    obtain ⟨sps, sns⟩ := st
    replace hp : sps[i]? = some p := hp
    replace hne : ∀ n ∈ sns, n.func_stack ≠ [] := hne
    rw [klp_enable_patch_i] at hcode ⊢
    simp only [hp] at hcode ⊢
    rw [if_neg (by simp [hen])] at hcode ⊢
    by_cases hsp2 : stack_prev_ok sps i = true
    · rw [if_neg (by simp [hsp2])] at hcode ⊢
      by_cases hr : (klp_mem_prepare env p sns).1 ≠ 0
      · rw [if_pos hr] at hcode
        exact absurd hcode hr
      · rw [if_neg hr] at hcode ⊢
        push_neg at hr
        obtain ⟨fresh, hm1, hm2, hm3, hm4⟩ :=
          klp_mem_prepare_succ env p os sns hobjs hnone hr
        by_cases hr2 : (klp_try_enable_patch env
            (klp_mem_prepare env p sns).2.1
            (klp_mem_prepare env p sns).2.2.1).1 ≠ 0
        · rw [if_pos hr2] at hcode
          exact absurd hcode hr2
        · rw [if_neg hr2] at hcode ⊢
          push_neg at hr2
          rw [hm1, hm2] at hr2 ⊢
          intro n hn
          have hrd2 : ∀ o ∈ os.map oSetNode, ∀ f ∈ klp_obj_funcs o,
              f.patched = false ∧ f.func_node = some f.old_func := by
            intro o ho f hf
            rw [List.mem_map] at ho
            obtain ⟨o0, ho0, hoeq⟩ := ho
            rw [← hoeq, klp_obj_funcs_oSetNode] at hf
            rw [List.mem_map] at hf
            obtain ⟨g, hg, hgeq⟩ := hf
            subst hgeq
            exact ⟨hpat2 o0 ho0 g hg, rfl⟩
          have hop2 : ∀ o ∈ os.map oSetNode, o.patched = false := by
            intro o ho
            rw [List.mem_map] at ho
            obtain ⟨o0, ho0, hoeq⟩ := ho
            subst hoeq
            exact hop o0 ho0
          have hlo2 : ∀ o ∈ os.map oSetNode, klp_is_object_loaded o = true := by
            intro o ho
            rw [List.mem_map] at ho
            obtain ⟨o0, ho0, hoeq⟩ := ho
            subst hoeq
            exact hlo o0 ho0
          have hcases := klp_try_enable_nodes_inv env
            { p with objs := some (os.map oSetNode) } (os.map oSetNode)
            (fresh ++ sns) rfl hen hlo2 hop2 hrd2 hr2 n hn
          rcases hcases with ⟨h3, h4⟩ | h3
          · rcases List.mem_append.mp h3 with h5 | h5
            · exfalso
              apply h4
              have hv := (hm3 n h5).2.1
              rw [visitedKeys_eq_funcKeys ((os.map oSetNode).flatMap
                klp_obj_funcs) (fun g hg => ?_)] at hv
              · exact hv
              · rw [List.mem_flatMap] at hg
                obtain ⟨o0, ho0, hg0⟩ := hg
                exact (hrd2 o0 ho0 g hg0).2
            · exact hne n h5
          · exact h3
    · rw [if_pos (by simp [hsp2])] at hcode
      simp [EBUSY] at hcode


theorem pop_node_cases (ns : Nodes) (k nf : Nat) :
    ∀ n2 ∈ pop_node ns k nf, n2 ∈ ns ∨ n2.old_func = k := by
  intro n2 h
  rw [pop_node, List.mem_map] at h
  obtain ⟨n, hn, heq⟩ := h
  by_cases hk : n.old_func = k
  · right
    rw [← heq]
    simp [hk]
  · left
    rw [← heq]
    rw [show (if n.old_func == k then { n with func_stack := n.func_stack.eraseP (fun e => e.new_func == nf) } else n) = n from by simp [hk]]
    exact hn

theorem ueffect_cases (f : KlpFunc) (ns : Nodes) :
    ∀ n2 ∈ ueffect f ns, n2 ∈ ns ∨ n2.old_func ∈ visitedKeys [f] := by
  intro n2 h
  rw [ueffect] at h
  split at h
  · rename_i hcond
    rcases pop_node_cases ns (f.func_node.getD 0) f.new_func n2 h with h2 | h2
    · exact Or.inl h2
    · right
      rcases hfn : f.func_node with _ | key
      · rw [hfn] at hcond
        simp at hcond
      · rw [hfn] at h2
        simp only [Option.getD_some] at h2
        simp [visitedKeys, List.filterMap_cons, hfn, h2]
  · exact Or.inl h

theorem ufold_cases : ∀ (fs : List KlpFunc) (ns : Nodes),
    ∀ n2 ∈ ufold fs ns, n2 ∈ ns ∨ n2.old_func ∈ visitedKeys fs
  | [], ns => fun n2 h => Or.inl h
  | f :: rest, ns => by
    intro n2 h
    rw [ufold] at h
    rcases ufold_cases rest (ueffect f ns) n2 h with h2 | h2
    · rcases ueffect_cases f ns n2 h2 with h3 | h3
      · exact Or.inl h3
      · right
        rw [show (f :: rest) = [f] ++ rest from rfl, visitedKeys_append]
        exact List.mem_append_left _ h3
    · right
      rw [show (f :: rest) = [f] ++ rest from rfl, visitedKeys_append]
      exact List.mem_append_right _ h2

theorem oueffect_cases (o : KlpObject) (ns : Nodes) :
    ∀ n2 ∈ oueffect o ns, n2 ∈ ns ∨
      n2.old_func ∈ visitedKeys (klp_obj_funcs o) := by
  intro n2 h
  rw [oueffect] at h
  split at h
  · exact ufold_cases (klp_obj_funcs o) ns n2 h
  · exact Or.inl h

theorem ofold_cases : ∀ (os : List KlpObject) (ns : Nodes),
    ∀ n2 ∈ ofold os ns, n2 ∈ ns ∨
      n2.old_func ∈ visitedKeys (os.flatMap klp_obj_funcs)
  | [], ns => fun n2 h => Or.inl h
  | o :: rest, ns => by
    intro n2 h
    rw [ofold] at h
    rcases ofold_cases rest (oueffect o ns) n2 h with h2 | h2
    · rcases oueffect_cases o ns n2 h2 with h3 | h3
      · exact Or.inl h3
      · right
        rw [List.flatMap_cons, visitedKeys_append]
        exact List.mem_append_left _ h3
    · right
      rw [List.flatMap_cons, visitedKeys_append]
      exact List.mem_append_right _ h2


theorem nodeKeys_pop_node (ns : Nodes) (k nf : Nat) :
    nodeKeys (pop_node ns k nf) = nodeKeys ns := by
  rw [nodeKeys, nodeKeys, pop_node, List.map_map]
  apply List.map_congr_left
  intro n _
  by_cases hk : n.old_func = k
  · simp [hk]
  · simp [hk]

theorem nodeKeys_ueffect (f : KlpFunc) (ns : Nodes) :
    nodeKeys (ueffect f ns) = nodeKeys ns := by
  rw [ueffect]
  split
  · exact nodeKeys_pop_node ns _ _
  · rfl

theorem nodeKeys_ufold : ∀ (fs : List KlpFunc) (ns : Nodes),
    nodeKeys (ufold fs ns) = nodeKeys ns
  | [], ns => rfl
  | f :: rest, ns => by
    rw [ufold, nodeKeys_ufold rest _, nodeKeys_ueffect]

theorem nodeKeys_oueffect (o : KlpObject) (ns : Nodes) :
    nodeKeys (oueffect o ns) = nodeKeys ns := by
  rw [oueffect]
  split
  · exact nodeKeys_ufold _ ns
  · rfl

theorem nodeKeys_ofold : ∀ (os : List KlpObject) (ns : Nodes),
    nodeKeys (ofold os ns) = nodeKeys ns
  | [], ns => rfl
  | o :: rest, ns => by
    rw [ofold, nodeKeys_ofold rest _, nodeKeys_oueffect]

theorem visitedKeys_map_ufunc : ∀ fs : List KlpFunc,
    visitedKeys (fs.map ufunc) = visitedKeys fs
  | [] => rfl
  | f :: rest => by
    rw [List.map_cons, visitedKeys, visitedKeys, List.filterMap_cons,
      List.filterMap_cons, (ufunc_proj f).2.1]
    have h2 := visitedKeys_map_ufunc rest
    rw [visitedKeys, visitedKeys] at h2
    rw [h2]

theorem visitedKeys_obj_oufunc (o : KlpObject) :
    visitedKeys (klp_obj_funcs (oufunc o)) =
    visitedKeys (klp_obj_funcs o) := by
  rw [oufunc]
  by_cases hp : o.patched
  · rw [if_pos hp]
    rcases o with ⟨nm, fns, pt, md⟩
    rcases fns with _ | fs0
    · rfl
    · show visitedKeys (klp_obj_funcs ⟨nm, some ((klp_obj_funcs ⟨nm, some fs0, pt, md⟩).map ufunc), false, md⟩) = _
      rw [show klp_obj_funcs (⟨nm, some fs0, pt, md⟩ : KlpObject) = fs0 from rfl]
      rw [show klp_obj_funcs (⟨nm, some (fs0.map ufunc), false, md⟩ : KlpObject) = fs0.map ufunc from rfl]
      exact visitedKeys_map_ufunc fs0
  · rw [if_neg hp]

theorem visitedKeys_flat_oufunc : ∀ os : List KlpObject,
    visitedKeys ((os.map oufunc).flatMap klp_obj_funcs) =
    visitedKeys (os.flatMap klp_obj_funcs)
  | [] => rfl
  | o :: rest => by
    rw [List.map_cons, List.flatMap_cons, List.flatMap_cons,
      visitedKeys_append, visitedKeys_append, visitedKeys_obj_oufunc,
      visitedKeys_flat_oufunc rest]

/-- Invariant preservation by __klp_disable_patch: starting from a state
whose nodes all hold a non-empty stack, every node surviving the operation
still holds a non-empty stack (emptied nodes are unlinked and freed by
klp_mem_recycle). -/
theorem klp_disable_patch_i_inv (env : KlpEnv) (st : KlpState) (i : Nat)
    (p : KlpPatch) (os : List KlpObject)
    (hp : st.patches[i]? = some p)
    (hobjs : p.objs = some os)
    (hne : ∀ n ∈ st.nodes, n.func_stack ≠ [])
    (hndn : (nodeKeys st.nodes).Nodup) :
    ∀ n ∈ (klp_disable_patch_i env st i).2.1.nodes, n.func_stack ≠ [] := by
  obtain ⟨sps, sns⟩ := st
  replace hp : sps[i]? = some p := hp
  replace hne : ∀ n ∈ sns, n.func_stack ≠ [] := hne
  replace hndn : (nodeKeys sns).Nodup := hndn
  rw [klp_disable_patch_i]
  simp only [hp]
  by_cases hen2 : p.enabled = true
  · rw [if_neg (by simp [hen2])]
    by_cases hsn : stack_next_ok sps i = true
    · rw [if_neg (by simp [hsn])]
      rw [klp_try_disable_patch]
      by_cases hk : klp_check_patch_kprobed env p = true
      · rw [if_pos hk]
        rw [if_pos (by simp [EINVAL])]
        exact hne
      · rw [if_neg hk]
        by_cases hct : klp_check_calltrace env sns p false ≠ 0
        · rw [if_pos hct]
          rw [if_pos (by simpa using hct)]
          exact hne
        · rw [if_neg hct]
          rw [if_neg (by simp [disable_patch])]
          have hpo := klp_patch_objs_of_some p os hobjs
          have hobjs2 : ((disable_patch p sns).2.1).objs =
              some (os.map oufunc) := by
            simp [disable_patch, klp_unpatch_objects, unpatch_objs_eq,
              hpo, hobjs]
          have hnodes2 : (disable_patch p sns).2.2.1 = ofold os sns := by
            simp [disable_patch, klp_unpatch_objects, unpatch_objs_eq, hpo]
          have hnd2 : (nodeKeys (disable_patch p sns).2.2.1).Nodup := by
            rw [hnodes2, nodeKeys_ofold]
            exact hndn
          obtain ⟨hr1, hr2⟩ := klp_mem_recycle_char (disable_patch p sns).2.1
            (os.map oufunc) (disable_patch p sns).2.2.1 hobjs2 hnd2
          show ∀ n ∈ (klp_mem_recycle (disable_patch p sns).2.1
            (disable_patch p sns).2.2.1).2.1, n.func_stack ≠ []
          rw [hr2, hnodes2]
          intro n hn
          obtain ⟨hmem, hkeep⟩ := List.mem_filter.mp hn
          intro hstk
          have hie : n.func_stack.isEmpty = true := by
            rw [hstk]
            rfl
          rw [keepNodeO, hie] at hkeep
          simp only [Bool.not_true, Bool.or_false] at hkeep
          have hnc : n.old_func ∉
              visitedKeys ((os.map oufunc).flatMap klp_obj_funcs) := by
            intro hcmem
            have hc2 : (visitedKeys ((os.map oufunc).flatMap
                klp_obj_funcs)).contains n.old_func = true :=
              List.elem_eq_true_of_mem hcmem
            rw [hc2] at hkeep
            simp at hkeep
          rw [visitedKeys_flat_oufunc] at hnc
          rcases ofold_cases os sns n hmem with h2 | h2
          · exact hne n h2 hstk
          · exact hnc h2
    · rw [if_pos (by simp [hsn])]
      exact hne
  · rw [if_pos (by simp [hen2])]
    exact hne


/-- With CONFIG_PREEMPTION off, the disable branch of the activeness
collector contributes exactly the new-function range of every function. -/
theorem actv_collect_disable (ns2 : Nodes) (f : KlpFunc) :
    arch_klp_check_activeness_func ns2 f false =
      [{ func_addr := f.new_func, func_size := f.new_size,
         func_name := f.old_name, force := KlpForce.KLP_NORMAL_FORCE }] := by
  simp [arch_klp_check_activeness_func, CONFIG_PREEMPTION]

theorem klp_check_calltrace_busy_disable (env : KlpEnv) (ns2 : Nodes)
    (p : KlpPatch) (af : ActvFunc)
    (haf : af ∈ klp_check_activeness_func ns2 p false)
    (pc : Nat) (hpc : pc ∈ env.cpu_stacks.flatten)
    (hcov : klp_compare_address pc af.func_addr
      (klp_size_to_check af.func_size af.force) ≠ 0) :
    klp_check_calltrace env ns2 p false ≠ 0 := by
  rw [klp_check_calltrace]
  have hne : (klp_check_activeness_func ns2 p false).isEmpty = false := by
    rcases h : klp_check_activeness_func ns2 p false with _ | _
    · rw [h] at haf
      exact absurd haf (List.not_mem_nil af)
    · rfl
  rw [if_neg (by simp [hne])]
  exact check_pcs_mem _ _ pc hpc (check_func_list_mem _ pc af haf hcov)

/-- The stop-the-world activeness gate on the disable side: a return address
inside a replacement function's byte range aborts the disable with no
instruction write and no state change. -/
theorem activeness_abort_disable (env : KlpEnv) (st : KlpState) (i : Nat)
    (p : KlpPatch) (f : KlpFunc) (pc : Nat)
    (hp : st.patches[i]? = some p)
    (hen : p.enabled = true)
    (hsn : stack_next_ok st.patches i = true)
    (hkpr : env.kprobes = [])
    (hf : f ∈ klp_patch_funcs p)
    (hpc : pc ∈ env.cpu_stacks.flatten)
    (hlo : f.new_func ≤ pc)
    (hhi : pc < f.new_func +
      klp_size_to_check f.new_size KlpForce.KLP_NORMAL_FORCE) :
    (klp_disable_patch_i env st i).1 ≠ 0 ∧
    (klp_disable_patch_i env st i).2.1 = st ∧
    (∀ e ∈ (klp_disable_patch_i env st i).2.2, e.isCodeWrite = false) := by
  obtain ⟨sps, sns⟩ := st
  replace hp : sps[i]? = some p := hp
  replace hsn : stack_next_ok sps i = true := hsn
  have hafmem : ({ func_addr := f.new_func, func_size := f.new_size, func_name := f.old_name, force := KlpForce.KLP_NORMAL_FORCE } : ActvFunc) ∈
      klp_check_activeness_func sns p false := by
    rw [klp_check_activeness_func, List.mem_flatMap]
    refine ⟨f, hf, ?_⟩
    rw [actv_collect_disable sns f]
    exact List.mem_singleton.mpr rfl
  have hct : klp_check_calltrace env sns p false ≠ 0 := by
    refine klp_check_calltrace_busy_disable env sns p _ hafmem pc hpc ?_
    show klp_compare_address pc f.new_func
      (klp_size_to_check f.new_size KlpForce.KLP_NORMAL_FORCE) ≠ 0
    rw [klp_compare_address, if_pos ⟨hlo, hhi⟩]
    simp [EBUSY]
  have htry : klp_try_disable_patch env p sns =
      (klp_check_calltrace env sns p false, p, sns, []) := by
    rw [klp_try_disable_patch,
      if_neg (by simp [kprobed_empty env p hkpr]), if_pos hct]
  rw [klp_disable_patch_i]
  simp only [hp]
  rw [if_neg (by simp [hen]), if_neg (by simp [hsn]), htry]
  have hcond : ((klp_check_calltrace env sns p false, p, sns,
      ([] : Events))).1 ≠ 0 := hct
  rw [if_pos hcond]
  refine ⟨hct, ?_, ?_⟩
  · show KlpState.mk (sps.set i p) sns = ⟨sps, sns⟩
    rw [list_set_same sps i p hp]
  · intro e he
    exact absurd he (List.not_mem_nil e)

/-- C1 witness scenario: a disabled one-function patch over foo (100, 32
bytes) with a return address at 100 on CPU 0's stack. -/
def fC1 : KlpFunc :=
  { old_name := some "foo", old_sympos := 0, new_func := 200, nop := false,
    force := KlpForce.KLP_NORMAL_FORCE, old_func := 100, old_size := 32,
    new_size := 40, patched := false, func_node := none }

def oC1 : KlpObject :=
  { name := none, funcs := some [fC1], patched := false, mod := false }

def pC1 : KlpPatch :=
  { mod := some "p1", objs := some [oC1], enabled := false }

def envC1 : KlpEnv := { env0 with cpu_stacks := [[100]] }

/-- C1 disable-side witness environment: a return address at 300, inside
fB's replacement function (300, 48 bytes). -/
def envC1d : KlpEnv := { env0 with cpu_stacks := [[300]] }

/-- C1: under the stop-the-world strategy, (a) if the rendezvous activeness
check finds a return address on a CPU stack inside the byte range of a
normally-forced function scheduled for replacement, the enable aborts with an
error, no instruction byte is written, and the whole state — in particular
every `patched` flag — is unchanged; (b) likewise on the disable side: a
return address inside a replacement function's byte range aborts the disable
with an error, no instruction write and no state change; (c) a function
carrying the forced annotation (`KLP_ENFORCEMENT`) is skipped by the enable
check, and enable succeeds whatever the CPU stacks hold. -/
theorem C1_activeness_gate :
    (∀ (env : KlpEnv) (st : KlpState) (i : Nat) (p : KlpPatch)
      (os : List KlpObject) (f : KlpFunc) (pc : Nat),
      st.patches[i]? = some p →
      p.objs = some os →
      p.enabled = false →
      (∀ g ∈ klp_patch_funcs p, g.patched = false ∧ g.func_node = none) →
      (∀ n ∈ st.nodes, n.func_stack ≠ []) →
      (nodeKeys st.nodes).Nodup →
      stack_prev_ok st.patches i = true →
      env.kprobes = [] →
      (∀ a, env.save_code_ok a = true) →
      f ∈ klp_patch_funcs p →
      f.force = KlpForce.KLP_NORMAL_FORCE →
      f.old_func ∉ nodeKeys st.nodes →
      pc ∈ env.cpu_stacks.flatten →
      f.old_func ≤ pc →
      pc < f.old_func + klp_size_to_check f.old_size f.force →
      (klp_enable_patch_i env st i).1 ≠ 0 ∧
      (klp_enable_patch_i env st i).2.1 = st ∧
      (∀ e ∈ (klp_enable_patch_i env st i).2.2, e.isCodeWrite = false)) ∧
    (∀ (env : KlpEnv) (st : KlpState) (i : Nat) (p : KlpPatch)
      (f : KlpFunc) (pc : Nat),
      st.patches[i]? = some p →
      p.enabled = true →
      stack_next_ok st.patches i = true →
      env.kprobes = [] →
      f ∈ klp_patch_funcs p →
      pc ∈ env.cpu_stacks.flatten →
      f.new_func ≤ pc →
      pc < f.new_func +
        klp_size_to_check f.new_size KlpForce.KLP_NORMAL_FORCE →
      (klp_disable_patch_i env st i).1 ≠ 0 ∧
      (klp_disable_patch_i env st i).2.1 = st ∧
      (∀ e ∈ (klp_disable_patch_i env st i).2.2, e.isCodeWrite = false)) ∧
    (∀ (env : KlpEnv) (a b sz szb : Nat),
      a ≠ 0 → env.kprobes = [] → env.save_code_ok a = true →
      env.arch_patch_ok a = true →
      (klp_enable_patch_i env ⟨[forcePatch a b sz szb], []⟩ 0).1 = 0) :=
  ⟨fun env st i p os f pc h1 h2 h3 h4 h5 h6 h7 h8 h9 h10 h11 h12 h13 h14 h15 =>
    activeness_abort env st i p os f pc h1 h2 h3 h4 h5 h6 h7 h8 h9 h10 h11
      h12 h13 h14 h15,
   fun env st i p f pc h1 h2 h3 h4 h5 h6 h7 h8 =>
    activeness_abort_disable env st i p f pc h1 h2 h3 h4 h5 h6 h7 h8,
   fun env a b sz szb h1 h2 h3 h4 => forced_enable env a b sz szb h1 h2 h3 h4⟩

/-- C1 witness: the in-range stack aborts the normally-forced enable, an
address inside P2's replacement function aborts P2's disable, and the forced
variant of the same patch enables cleanly under empty stacks. -/
theorem C1_activeness_gate_witness :
    (klp_enable_patch_i envC1 ⟨[pC1], []⟩ 0).1 ≠ 0 ∧
    (klp_disable_patch_i envC1d stAB 1).1 ≠ 0 ∧
    (klp_enable_patch_i env0 ⟨[forcePatch 100 200 32 40], []⟩ 0).1 = 0 :=
  ⟨(C1_activeness_gate.1 envC1 ⟨[pC1], []⟩ 0 pC1 [oC1] fC1 100
      (by decide) (by decide) (by decide) (by decide) (by decide) (by decide)
      (by decide) rfl (fun a => rfl) (by decide) (by decide) (by decide)
      (by decide) (by decide) (by decide)).1,
   (C1_activeness_gate.2.1 envC1d stAB 1 pB fB 300
      (by decide) (by decide) (by decide) rfl (by decide) (by decide)
      (by decide) (by decide)).1,
   C1_activeness_gate.2.2 env0 100 200 32 40 (by decide) rfl rfl rfl⟩


/-- C4: the function-site node lifecycle.  `func_node_alloc` returns the
existing node when the address was ever patched and otherwise snapshots the
original code (`codeSaved`) and publishes a fresh empty node; `func_node_free`
keeps the node while its stack is non-empty and otherwise unlinks it
(`nodeDel`), waits a grace period (`rcuSync`) and only then frees the memory
(`memFree`), in that order.  Moreover the rest-point invariant — every node in
the list has a non-empty stack — is preserved by both __klp_enable_patch and
__klp_disable_patch. -/
theorem C4_node_lifecycle :
    (∀ (env : KlpEnv) (f : KlpFunc) (ns : Nodes) (node : KlpFuncNode),
      klp_find_func_node ns f.old_func = some node →
      func_node_alloc env f ns = (some node.old_func, ns, [])) ∧
    (∀ (env : KlpEnv) (f : KlpFunc) (ns : Nodes),
      klp_find_func_node ns f.old_func = none →
      env.save_code_ok f.old_func = true →
      func_node_alloc env f ns =
        (some f.old_func,
         { old_func := f.old_func, func_stack := [] } :: ns,
         [KlpEvent.codeSaved f.old_func])) ∧
    (∀ (env : KlpEnv) (f : KlpFunc) (ns : Nodes),
      klp_find_func_node ns f.old_func = none →
      env.save_code_ok f.old_func = false →
      func_node_alloc env f ns = (none, ns, [])) ∧
    (∀ (f : KlpFunc) (ns : Nodes) (key : Nat) (node : KlpFuncNode),
      f.func_node = some key →
      klp_find_func_node ns key = some node →
      node.func_stack ≠ [] →
      func_node_free f ns = ({ f with func_node := none }, ns, [])) ∧
    (∀ (f : KlpFunc) (ns : Nodes) (key : Nat) (node : KlpFuncNode),
      f.func_node = some key →
      klp_find_func_node ns key = some node →
      node.func_stack = [] →
      func_node_free f ns =
        ({ f with func_node := none }, klp_del_func_node ns key,
         [KlpEvent.nodeDel key, KlpEvent.rcuSync, KlpEvent.memFree key])) ∧
    (∀ (env : KlpEnv) (st : KlpState) (i : Nat) (p : KlpPatch)
      (os : List KlpObject),
      st.patches[i]? = some p →
      p.objs = some os →
      p.enabled = false →
      (∀ o ∈ os, o.patched = false) →
      (∀ f ∈ klp_patch_funcs p, f.patched = false ∧ f.func_node = none) →
      (funcKeys (os.flatMap klp_obj_funcs)).Nodup →
      (∀ o ∈ os, klp_is_object_loaded o = true) →
      (∀ n ∈ st.nodes, n.func_stack ≠ []) →
      (nodeKeys st.nodes).Nodup →
      ∀ n ∈ (klp_enable_patch_i env st i).2.1.nodes, n.func_stack ≠ []) ∧
    (∀ (env : KlpEnv) (st : KlpState) (i : Nat) (p : KlpPatch)
      (os : List KlpObject),
      st.patches[i]? = some p →
      p.objs = some os →
      (∀ n ∈ st.nodes, n.func_stack ≠ []) →
      (nodeKeys st.nodes).Nodup →
      ∀ n ∈ (klp_disable_patch_i env st i).2.1.nodes, n.func_stack ≠ []) := by
  refine ⟨func_node_alloc_reuse, func_node_alloc_fresh, func_node_alloc_fail,
    ?_, ?_, ?_, ?_⟩
  · intro f ns key node h hf hne
    have hie : node.func_stack.isEmpty = false := by
      rcases hstk : node.func_stack with _ | ⟨e, tl⟩
      · exact absurd hstk hne
      · rfl
    rw [func_node_free_eq4 f ns key node h hf hie]
    rfl
  · intro f ns key node h hf hstk
    have hie : node.func_stack.isEmpty = true := by
      rw [hstk]
      rfl
    rw [func_node_free_eq3 f ns key node h hf hie]
    rfl
  · intro env st i p os h1 h2 h3 h4 h5 h6 h7 h8 h9
    exact klp_enable_patch_i_inv env st i p os h1 h2 h3 h4 h5 h6 h7 h8 h9
  · intro env st i p os h1 h2 h3 h4
    exact klp_disable_patch_i_inv env st i p os h1 h2 h3 h4

/-- C4 witness: fresh allocation publishes an empty node after saving code;
freeing with a still-stacked node keeps it, and a drained node is removed with
the del → rcu → free event order; both operations preserve the invariant on
the concrete scenarios. -/
theorem C4_node_lifecycle_witness :
    func_node_alloc env0 fC1 [] =
      (some 100, [{ old_func := 100, func_stack := [] }],
       [KlpEvent.codeSaved 100]) ∧
    func_node_free fA stAB.nodes =
      ({ fA with func_node := none }, stAB.nodes, []) ∧
    func_node_free fA [{ old_func := 100, func_stack := [] }] =
      ({ fA with func_node := none }, [],
       [KlpEvent.nodeDel 100, KlpEvent.rcuSync, KlpEvent.memFree 100]) ∧
    (∀ n ∈ (klp_enable_patch_i env0 ⟨[pC1], []⟩ 0).2.1.nodes,
      n.func_stack ≠ []) ∧
    (∀ n ∈ (klp_disable_patch_i env0 stAB 1).2.1.nodes,
      n.func_stack ≠ []) := by
  refine ⟨?_, ?_, ?_, ?_, ?_⟩
  · exact C4_node_lifecycle.2.1 env0 fC1 [] (by decide) (by decide)
  · exact C4_node_lifecycle.2.2.2.1 fA stAB.nodes 100
      { old_func := 100,
        func_stack := [{ new_func := 300, new_size := 48 },
                       { new_func := 200, new_size := 40 }] }
      (by decide) (by decide) (by decide)
  · exact C4_node_lifecycle.2.2.2.2.1 fA
      [{ old_func := 100, func_stack := [] }] 100
      { old_func := 100, func_stack := [] }
      (by decide) (by decide) (by decide)
  · exact C4_node_lifecycle.2.2.2.2.2.1 env0 ⟨[pC1], []⟩ 0 pC1 [oC1]
      (by decide) (by decide) (by decide) (by decide) (by decide) (by decide)
      (by decide) (by decide) (by decide)
  · exact C4_node_lifecycle.2.2.2.2.2.2 env0 stAB 1 pB [oB] (by decide)
      (by decide) (by decide) (by decide)


/-- C2 witness scenario completion: the in-range stack makes enable fail, and
the state is returned untouched. -/
theorem C2_enable_rollback_witness :
    (klp_enable_patch_i envC1 ⟨[pC1], []⟩ 0).1 ≠ 0 ∧
    (klp_enable_patch_i envC1 ⟨[pC1], []⟩ 0).2.1 = ⟨[pC1], []⟩ :=
  ⟨by decide,
   C2_enable_rollback envC1 ⟨[pC1], []⟩ 0 pC1 [oC1] (by decide) (by decide)
     (by decide) (by decide) (by decide) (by decide) (by decide) (by decide)
     (by decide)⟩

/-- C3 witness: with P1 under P2 both enabled, disabling the lower patch is
refused with -EBUSY and no state change. -/
theorem C3_stacking_order_witness :
    klp_disable_patch_i env0 stAB 0 = (-EBUSY, stAB, []) :=
  C3_stacking_order.1 env0 stAB 0 pA pB (by decide) (by decide) (by decide)
    (by decide)

/-- Symbol table for the C5 witness: bar is unique, foo is ambiguous. -/
def envS : KlpEnv :=
  { env0 with symtab := fun _ => [("foo", 100), ("bar", 200), ("foo", 300)] }

/-- C5 witness: a unique symbol resolves at sympos 0; an ambiguous one is
rejected with -EINVAL. -/
theorem C5_symbol_resolution_witness :
    klp_find_object_symbol envS none "bar" 0 = (0, 200) ∧
    klp_find_object_symbol envS none "foo" 0 = (-EINVAL, 0) :=
  ⟨(C5_symbol_resolution envS none "bar" (by decide)).2.1 200 (by decide),
   (C5_symbol_resolution envS none "foo" (by decide)).2.2.1 (by decide)⟩

/-- Environment and object for the C6 witness: foo resolves to 100 whose
reported size 8 is below KLP_MAX_REPLACE_SIZE. -/
def envT : KlpEnv :=
  { env0 with symtab := fun _ => [("foo", 100)],
              sizes := fun a => if a = 100 then some 8 else none }

def fC6 : KlpFunc :=
  { old_name := some "foo", old_sympos := 1, new_func := 400, nop := false,
    force := KlpForce.KLP_NORMAL_FORCE, old_func := 0, old_size := 0,
    new_size := 16, patched := false, func_node := none }

def oC6 : KlpObject :=
  { name := some "m", funcs := some [fC6], patched := false, mod := true }

/-- C6 witness: a function smaller than KLP_MAX_REPLACE_SIZE is rejected with
-EINVAL, and a failing registration returns the state unchanged. -/
theorem C6_min_size_check_witness :
    (klp_init_object_loaded envT oC6).1 = -EINVAL ∧
    (klp_register_patch env0 none ⟨[], []⟩).2 = ⟨[], []⟩ :=
  ⟨C6_min_size_check.2.1 envT oC6 fC6 [] 100 8 (by decide) (by decide)
     (by decide) (by decide),
   C6_min_size_check.2.2.2 env0 none ⟨[], []⟩ (by decide)⟩

/-- C7 witness: enabling the already-enabled P1 is refused with -EINVAL. -/
theorem C7_double_enable_witness :
    klp_enable_patch_i env0 stAB 0 = (-EINVAL, stAB, []) :=
  C7_double_enable.2 env0 stAB 0 pA (by decide) (by decide)

/-- C8 witness: a patch without an owning module is rejected unchanged. -/
theorem C8_register_validation_witness :
    klp_register_patch env0
      (some { mod := none, objs := none, enabled := false }) ⟨[], []⟩ =
      (-EINVAL, ⟨[], []⟩) :=
  C8_register_validation.2.1 env0 ⟨[], []⟩
    { mod := none, objs := none, enabled := false } (by decide)

/-- C9 witness: unregistering the enabled P1 fails with -EBUSY; the disabled
witness patch is removed and no longer registered. -/
theorem C9_unregister_witness :
    klp_unregister_patch stAB pA = (-EBUSY, stAB) ∧
    klp_is_patch_registered (klp_unregister_patch ⟨[pC1], []⟩ pC1).2 pC1 =
      false :=
  ⟨(C9_unregister.1 stAB pA pA (by decide) (by decide)).1,
   (C9_unregister.2 ⟨[pC1], []⟩ pC1 pC1 (by decide) (by decide)
     (by decide)).2⟩

/-- C10 witness: patching the already-patched fA is a no-op, and re-patching
a freshly patched object is a no-op. -/
theorem C10_idempotent_patching_witness :
    klp_patch_func env0 fA stAB.nodes = (0, fA, stAB.nodes, []) ∧
    klp_patch_object env0
      { name := none,
        funcs := some [{ fC1 with func_node := some 100, patched := true }],
        patched := true, mod := false }
      [{ old_func := 100, func_stack := [{ new_func := 200, new_size := 40 }] }] =
      (0,
       { name := none,
         funcs := some [{ fC1 with func_node := some 100, patched := true }],
         patched := true, mod := false },
       [{ old_func := 100, func_stack := [{ new_func := 200, new_size := 40 }] }],
       []) :=
  ⟨C10_idempotent_patching.1 env0 fA stAB.nodes (by decide),
   C10_idempotent_patching.2.2 env0
     { name := none, funcs := some [{ fC1 with func_node := some 100 }],
       patched := false, mod := false }
     { name := none,
       funcs := some [{ fC1 with func_node := some 100, patched := true }],
       patched := true, mod := false }
     [{ old_func := 100, func_stack := [] }]
     [{ old_func := 100, func_stack := [{ new_func := 200, new_size := 40 }] }]
     [KlpEvent.patchWrite 100] (by decide)⟩
